import Mathlib

/-!
# Verification of the domain-server settings and permissions registry

A shallow embedding of `domain-server/src/DomainServerSettingsManager.cpp` and
`libraries/networking/src/NodePermissions.cpp`.  Qt containers are modelled as
follows: `QVariant`/`QJsonValue` trees become the inductive `Variant`;
`QVariantMap`/`QJsonObject` become association lists (`List (String × Variant)`)
in insertion order; `QHash` permission tables become association lists keyed by
`NodePermissionsKey`.  `QUuid` is modelled as a `Nat` with `0` playing the role
of the null UUID.  Doubles that only ever flow through exact comparisons
(settings schema versions, the UTC offset) are modelled as `Rat`.

Parts of the repository that the translated files depend on but that are not
present under `src/` (the `NodePermissions.h` header, `HifiConfigVariantMap`)
are modelled from the specification; each such definition carries a doc
comment starting with `Modelled from the spec:`.
-/

set_option autoImplicit false

namespace Hifi

/-! ## Association-list maps (model of `QVariantMap` / `QHash`) -/

/-- Lookup in an association list: first binding for the key. -/
def alookup {α β : Type} [DecidableEq α] : List (α × β) → α → Option β
  | [], _ => none
  | (k, v) :: t, key => if k = key then some v else alookup t key

/-- Membership test, `QMap::contains` / `QHash::contains`. -/
def acontains {α β : Type} [DecidableEq α] (l : List (α × β)) (k : α) : Bool :=
  (alookup l k).isSome

/-- Insert-or-replace, modelling `m[k] = v`: an existing binding is replaced
in place, a new binding is appended. -/
def ainsert {α β : Type} [DecidableEq α] : List (α × β) → α → β → List (α × β)
  | [], k, v => [(k, v)]
  | (k', v') :: t, k, v =>
    if k' = k then (k', v) :: t else (k', v') :: ainsert t k v

/-- Remove the binding for a key, modelling `QMap::remove`. -/
def aremove {α β : Type} [DecidableEq α] : List (α × β) → α → List (α × β)
  | [], _ => []
  | (k', v') :: t, k => if k' = k then t else (k', v') :: aremove t k

/-- Update the value at a key when present, modelling `m[k]->mutate()` on an
existing entry. -/
def aupdate {α β : Type} [DecidableEq α] : List (α × β) → α → (β → β) → List (α × β)
  | [], _, _ => []
  | (k', v') :: t, k, f =>
    if k' = k then (k', f v') :: aupdate t k f else (k', v') :: aupdate t k f

/-! ## Variant trees (model of `QVariant` / `QJsonValue`) -/

/-- A configuration value.  `vmap` is a `QVariantMap`/`QJsonObject` in
insertion order, `list` a `QVariantList`/`QJsonArray`.  `uuid 0` is the null
`QUuid`.  `dbl` carries doubles whose only modelled uses are exact storage and
comparison, so `Rat` is adequate. -/
inductive Variant : Type where
  | null : Variant
  | str : String → Variant
  | int : Int → Variant
  | dbl : Rat → Variant
  | bool : Bool → Variant
  | uuid : Nat → Variant
  | list : List Variant → Variant
  | vmap : List (String × Variant) → Variant
deriving Repr

/-- A `QVariantMap` / `QJsonObject`. -/
abbrev VMap := List (String × Variant)

namespace Variant

/-- `QVariant::toString`.  Strings convert to themselves, numbers and booleans
render, containers and invalid variants give the empty string.  The digit
rendering of `dbl` and the brace form of `uuid` are never consumed by the
modelled flows and are left as the empty string. -/
def toStr : Variant → String
  | .str s => s
  | .int n => toString n
  | .bool b => if b then "true" else "false"
  | _ => ""

/-- `QVariant::toBool`: strings `""`, `"0"` and `"false"` are false, any other
string true; numbers are compared with zero; containers and invalid variants
are false. -/
def toBoolQ : Variant → Bool
  | .bool b => b
  | .int n => n != 0
  | .dbl q => q != 0
  | .str s => !(s = "" || s = "0" || s = "false")
  | _ => false

/-- `QJsonValue::toBool`: only an actual boolean converts, anything else gives
the default `false`. -/
def toBoolJ : Variant → Bool
  | .bool b => b
  | _ => false

/-- `QJsonValue::toString`: only an actual string converts, anything else
gives the default empty string. -/
def toStrJ : Variant → String
  | .str s => s
  | _ => ""

/-- `QVariant::toInt` on the variant kinds the modelled flows produce. -/
def toIntQ : Variant → Int
  | .int n => n
  | .bool b => if b then 1 else 0
  | .str s => (s.toInt?).getD 0
  | _ => 0

/-- `QVariant::toList` / `QJsonValue::toArray`. -/
def toListQ : Variant → List Variant
  | .list xs => xs
  | _ => []

/-- `QVariant::toMap` / `QJsonValue::toObject`. -/
def toMapQ : Variant → VMap
  | .vmap m => m
  | _ => []

/-- `QVariant::toStringList`: a variant list converts element-wise, a single
string becomes a one-element list. -/
def toStringListQ : Variant → List String
  | .list xs => xs.map toStr
  | .str s => [s]
  | _ => []

/-- `QVariant::toUuid`.  The model keeps UUID values in the `uuid`
constructor throughout (the JSON round-trip through the settings file turns
them into their string form and back, which preserves the value). -/
def toUuidQ : Variant → Nat
  | .uuid u => u
  | _ => 0

/-- `QVariant::canConvert(QMetaType::QVariantList)`. -/
def canConvertListQ : Variant → Bool
  | .list _ => true
  | _ => false

/-- `QVariant::canConvert(QMetaType::QVariantMap)`. -/
def canConvertMapQ : Variant → Bool
  | .vmap _ => true
  | _ => false

/-- `QVariant::canConvert(QMetaType::QString)`: scalars convert, containers
and invalid variants do not. -/
def canConvertStringQ : Variant → Bool
  | .str _ => true
  | .int _ => true
  | .dbl _ => true
  | .bool _ => true
  | .uuid _ => true
  | _ => false

/-- `QVariant::isNull`. -/
def isNullQ : Variant → Bool
  | .null => true
  | _ => false

end Variant

/-! ## Key paths (modelled `HifiConfigVariantMap` access) -/

/-- Walk a key path downward through nested maps.  A missing key or a
non-map intermediate yields `none`. -/
def vGetPath : Option Variant → List String → Option Variant
  | v, [] => v
  | some (.vmap m), k :: rest => vGetPath (alookup m k) rest
  | _, _ :: _ => none

/-- Modelled from the spec: `valueForKeyPath(map, "a.b")` without `create`
(the implementation lives in `HifiConfigVariantMap`, which is not under
`src/`) — each dot-delimited segment indexes into a nested map.  Key paths are
passed as segment lists; the original dotted strings appear in comments at
the call sites. -/
def getPath (m : VMap) (p : List String) : Option Variant :=
  vGetPath (some (.vmap m)) p

/-- Descending from a missing subtree finds nothing. -/
theorem vGetPath_none (p : List String) : vGetPath none p = none := by
  cases p <;> rfl

/-- Modelled from the spec: `valueForKeyPath(map, path, true)` followed by an
assignment through the returned pointer — intermediate maps are created as
needed (a non-map intermediate is replaced by a fresh map) and the leaf is
set. -/
def setKeyPath : VMap → List String → Variant → VMap
  | m, [], _ => m
  | m, [k], v => ainsert m k v
  | m, k :: k2 :: rest, v =>
    let sub : VMap :=
      match alookup m k with
      | some (.vmap sm) => sm
      | _ => []
    ainsert m k (.vmap (setKeyPath sub (k2 :: rest) v))

/-- Modelled from the spec: a read of the merged configuration at a key path
("user document layered over master document, master providing fallback
values", merged at every key path).  The merged view is derived at read time;
the source recomputes its materialized merged map after every mutation the
modelled flows perform, so the two agree on every modelled read. -/
def getMergedSub : Option Variant → Option Variant → List String → Option Variant
  | m, u, [] => match u with
    | some uv => some uv
    | none => m
  | m, u, k :: rest =>
    match u with
    | some (.vmap um) =>
      let msub : Option Variant :=
        match m with
        | some (.vmap mm) => alookup mm k
        | _ => none
      getMergedSub msub (alookup um k) rest
    | some _ => none
    | none => vGetPath m (k :: rest)

/-- Merged-configuration lookup over a master and a user document. -/
def getMergedPath (master user : VMap) (p : List String) : Option Variant :=
  getMergedSub (some (.vmap master)) (some (.vmap user)) p

/-! ## NodePermissions (`libraries/networking/src/NodePermissions.cpp`) -/

/-- `QString::toLower` (ASCII-and-beyond lowercasing, modelled character by
character; kernel-reducible, unlike the position-loop implementation of
`String.toLower`). -/
def strToLower (s : String) : String := ⟨s.data.map Char.toLower⟩

/-- `NodePermissionsKey` = (principal id, rank). -/
abbrev NodePermissionsKey := String × Int

/-- `GroupByUUIDKey` = (group UUID, rank). -/
abbrev GroupByUUIDKey := Nat × Int

/-- The capability bits of `NodePermissions::Permission`.  The enum lives in
`NodePermissions.h` (not under `src/`); the values are the successive bits of
the fixed capability enumeration the spec describes. -/
def canConnectToDomain : Nat := 1

/-- Capability bit: adjust locks. -/
def canAdjustLocks : Nat := 2

/-- Capability bit: rez permanent entities. -/
def canRezPermanentEntities : Nat := 4

/-- Capability bit: rez temporary entities. -/
def canRezTemporaryEntities : Nat := 8

/-- Capability bit: write to the asset server. -/
def canWriteToAssetServer : Nat := 16

/-- Capability bit: connect past maximum capacity. -/
def canConnectPastMaxCapacity : Nat := 32

/-- All bits of the `uint` that backs the `QFlags` permission set. -/
def UINT32_MASK : Nat := 4294967295

/-- Modelled from the spec: the `NodePermissions` record.  The class
definition is in `NodePermissions.h`, which is not under `src/`; per the
spec's default policy for synthesized entries ("anonymous/logged-in/friends =
no capabilities"), a freshly constructed entry carries no capabilities, and
`isGroup` is the flag set when a non-null group UUID has been attached. -/
structure NodePermissions where
  id : String
  groupID : Nat := 0
  groupIDSet : Bool := false
  rank : Int := 0
  permissions : Nat := 0
deriving Repr, DecidableEq

namespace NodePermissions

/-- `can(p)`: test a capability bit (`QFlags::testFlag` on a single bit). -/
def can (p : NodePermissions) (perm : Nat) : Bool :=
  p.permissions &&& perm != 0

/-- `set(p)`: `permissions |= p`. -/
def set (p : NodePermissions) (perm : Nat) : NodePermissions :=
  { p with permissions := p.permissions ||| perm }

/-- `clear(p)`: `permissions &= (Permission)(~(uint)p)`. -/
def clear (p : NodePermissions) (perm : Nat) : NodePermissions :=
  { p with permissions := p.permissions &&& (UINT32_MASK ^^^ perm) }

/-- `setAll(value)`: reset to no flags, then complement when `value` — the
complement sets every bit of the backing `uint`, not only the six capability
bits (`NodePermissions.cpp` lines 68–73). -/
def setAll (p : NodePermissions) (value : Bool) : NodePermissions :=
  { p with permissions := if value then UINT32_MASK else 0 }

/-- `isGroup()`. -/
def isGroup (p : NodePermissions) : Bool := p.groupIDSet

/-- `getKey()` = (id, rank). -/
def getKey (p : NodePermissions) : NodePermissionsKey := (p.id, p.rank)

/-- `setGroupID(groupID)`: stores the UUID and raises the group flag when the
UUID is non-null (modelled from the spec: an entry with `isGroup=true` always
has a non-null groupID). -/
def setGroupID (p : NodePermissions) (gid : Nat) : NodePermissions :=
  { p with groupID := gid, groupIDSet := if gid ≠ 0 then true else p.groupIDSet }

/-- Modelled from the spec: the constructor from a `NodePermissionsKey`
(declared in the header, not under `src/`): the id is the key's name in lower
case — matching the lowercasing the in-`src` map constructor performs — the
rank is the key's rank, and no capabilities are granted. -/
def fromKey (key : NodePermissionsKey) : NodePermissions :=
  { id := strToLower key.1, rank := key.2 }

/-- Modelled from the spec: the constructor from a plain name (rank 0). -/
def fromName (name : String) : NodePermissions :=
  fromKey (name, 0)

/-- One conditional capability bit of the map constructor. -/
def permBitOf (perms : VMap) (key : String) (bit : Nat) : Nat :=
  if ((alookup perms key).getD .null).toBoolQ then bit else 0

/-- The `NodePermissions(QMap<QString, QVariant>)` constructor
(`NodePermissions.cpp` lines 27–47): lowercased id, optional group UUID and
rank, and the six capability booleans reassembled into the bitmask. -/
def fromMap (perms : VMap) : NodePermissions :=
  let id := strToLower ((alookup perms "permissions_id").getD .null).toStr
  let gid : Nat :=
    match alookup perms "group_id" with
    | some gv => gv.toUuidQ
    | none => 0
  let rank : Int :=
    match alookup perms "rank" with
    | some rv => rv.toIntQ
    | none => 0
  { id := id
    groupID := gid
    groupIDSet := gid ≠ 0
    rank := rank
    permissions :=
      permBitOf perms "id_can_connect" canConnectToDomain |||
      permBitOf perms "id_can_adjust_locks" canAdjustLocks |||
      permBitOf perms "id_can_rez" canRezPermanentEntities |||
      permBitOf perms "id_can_rez_tmp" canRezTemporaryEntities |||
      permBitOf perms "id_can_write_to_asset_server" canWriteToAssetServer |||
      permBitOf perms "id_can_connect_past_max_capacity" canConnectPastMaxCapacity }

/-- `toVariant(rankNames)` (`NodePermissions.cpp` lines 49–66): the record
written into the settings lists.  `group_id`, `rank` and (when the rank name
is known) `rank_name` appear only for group entries.  A negative rank would
index out of bounds in the source; the model guards the index. -/
def toVariantMap (p : NodePermissions) (rankNames : List String) : VMap :=
  [("permissions_id", .str p.id)]
  ++ (if p.groupIDSet then
        [("group_id", Variant.uuid p.groupID), ("rank", Variant.int p.rank)]
        ++ (if 0 ≤ p.rank ∧ p.rank < (rankNames.length : Int) then
              [("rank_name", Variant.str (rankNames.getD p.rank.toNat ""))]
            else [])
      else [])
  ++ [("id_can_connect", Variant.bool (p.can canConnectToDomain)),
      ("id_can_adjust_locks", Variant.bool (p.can canAdjustLocks)),
      ("id_can_rez", Variant.bool (p.can canRezPermanentEntities)),
      ("id_can_rez_tmp", Variant.bool (p.can canRezTemporaryEntities)),
      ("id_can_write_to_asset_server", Variant.bool (p.can canWriteToAssetServer)),
      ("id_can_connect_past_max_capacity", Variant.bool (p.can canConnectPastMaxCapacity))]

/-- `toVariant` as a `Variant`. -/
def toVariant (p : NodePermissions) (rankNames : List String) : Variant :=
  .vmap (p.toVariantMap rankNames)

/-- `operator|=`: the capability bits are unioned, every other field of the
left operand is kept (`NodePermissions.cpp` lines 75–78). -/
def orPerms (a b : NodePermissions) : NodePermissions :=
  { a with permissions := a.permissions ||| b.permissions }

/-- The standard role key `"localhost"`. -/
def standardNameLocalhost : NodePermissionsKey := ("localhost", 0)

/-- The standard role key `"logged-in"`. -/
def standardNameLoggedIn : NodePermissionsKey := ("logged-in", 0)

/-- The standard role key `"anonymous"`. -/
def standardNameAnonymous : NodePermissionsKey := ("anonymous", 0)

/-- The standard role key `"friends"`. -/
def standardNameFriends : NodePermissionsKey := ("friends", 0)

end NodePermissions

/-! ## The settings manager state -/

/-- A permission table (`QHash<NodePermissionsKey, NodePermissionsPointer>`),
with the shared-pointer indirection flattened to values. -/
abbrev PermMap := List (NodePermissionsKey × NodePermissions)

/-- A secondary UUID index
(`QHash<GroupByUUIDKey, NodePermissionsPointer>`): the stored option is the
pointer, `none` being the null pointer. -/
abbrev PermUUIDMap := List (GroupByUUIDKey × Option NodePermissions)

/-- The state of `DomainServerSettingsManager`.  The merged configuration is
derived from the master and user documents on demand (see `getMergedPath`);
the settings file on disk always mirrors `userConfig`, so `persistToFile`
followed by `loadMasterAndUserConfig` leaves the documents as they are. -/
structure Mgr where
  masterConfig : VMap
  userConfig : VMap
  descriptionArray : List Variant
  standardAgentPermissions : PermMap := []
  agentPermissions : PermMap := []
  groupPermissions : PermMap := []
  groupForbiddens : PermMap := []
  groupPermissionsByUUID : PermUUIDMap := []
  groupForbiddensByUUID : PermUUIDMap := []
  groupIDs : List (String × Nat) := []
  groupNames : List (Nat × String) := []
  groupRanks : List (Nat × List String) := []
  groupRanksLastFetched : List (Nat × Nat) := []

/-- Modelled from the spec: the key path of the standard-role permission list
(declared in the manager's header, not under `src/`), dotted form
`"security.standard_permissions"` — the lists live under the distinguished
`"security"` group. -/
def AGENT_STANDARD_PERMISSIONS_KEYPATH : List String :=
  ["security", "standard_permissions"]

/-- Modelled from the spec: key path of the named-user permission list,
dotted form `"security.permissions"`. -/
def AGENT_PERMISSIONS_KEYPATH : List String := ["security", "permissions"]

/-- Modelled from the spec: key path of the group permission list, dotted
form `"security.group_permissions"`. -/
def GROUP_PERMISSIONS_KEYPATH : List String := ["security", "group_permissions"]

/-- Modelled from the spec: key path of the group forbid-list, dotted form
`"security.group_forbiddens"`. -/
def GROUP_FORBIDDENS_KEYPATH : List String := ["security", "group_forbiddens"]

/-! ## Sorting of persisted permission lists (lines 1034–1068) -/

/-- Lexicographic comparison of character lists by code point. -/
def charsLess : List Char → List Char → Bool
  | [], [] => false
  | [], _ :: _ => true
  | _ :: _, [] => false
  | c :: cs, d :: ds =>
    if c.toNat < d.toNat then true
    else if d.toNat < c.toNat then false
    else charsLess cs ds

/-- `QString::operator<`: lexicographic comparison by code unit. -/
def qstrLess (s t : String) : Bool := charsLess s.data t.data

/-- `permissionVariantLessThan` (lines 1035–1054): compare two members of a
permissions list — non-maps and maps without a `permissions_id` compare as
their `QVariant::toString` form (empty for maps); entries whose ids match and
that both carry a `rank_name` compare by rank name; everything else compares
by id. -/
def permissionVariantLessThan (v1 v2 : Variant) : Bool :=
  match v1, v2 with
  | .vmap m1, .vmap m2 =>
    if !(acontains m1 "permissions_id") || !(acontains m2 "permissions_id") then
      qstrLess (Variant.toStr (.vmap m1)) (Variant.toStr (.vmap m2))
    else
      let id1 := ((alookup m1 "permissions_id").getD .null).toStr
      let id2 := ((alookup m2 "permissions_id").getD .null).toStr
      if acontains m1 "rank_name" && acontains m2 "rank_name" && decide (id1 = id2) then
        qstrLess ((alookup m1 "rank_name").getD .null).toStr
          ((alookup m2 "rank_name").getD .null).toStr
      else
        qstrLess id1 id2
  | _, _ => qstrLess v1.toStr v2.toStr

/-- Insert an element into a list sorted by a strict comparator, keeping it
before the first element not less than it (the stable insertion step). -/
def insertIntoSorted (lt : Variant → Variant → Bool) (x : Variant) :
    List Variant → List Variant
  | [] => [x]
  | y :: ys => if lt y x then y :: insertIntoSorted lt x ys else x :: y :: ys

/-- `std::sort(list, permissionVariantLessThan)`, modelled as an insertion
sort by the same comparator. -/
def sortPermissionList (l : List Variant) : List Variant :=
  l.foldr (insertIntoSorted permissionVariantLessThan) []

/-- Sort the permission list stored at one key path of the user config, when
present and a list (one branch of `sortPermissions`, lines 1056–1068). -/
def sortListAt (u : VMap) (p : List String) : VMap :=
  match getPath u p with
  | some v =>
    if v.canConvertListQ then setKeyPath u p (.list (sortPermissionList v.toListQ))
    else u
  | none => u

/-- `sortPermissions` (lines 1056–1068): sorts the standard-permissions and
named-user permission lists in the user config; the group lists are not
touched. -/
def sortPermissionsU (u : VMap) : VMap :=
  sortListAt (sortListAt u AGENT_STANDARD_PERMISSIONS_KEYPATH) AGENT_PERMISSIONS_KEYPATH

/-- `sortPermissions` on the manager state. -/
def sortPermissions (s : Mgr) : Mgr :=
  { s with userConfig := sortPermissionsU s.userConfig }

/-- `persistToFile` (lines 1070–1087): sorts the permission lists, then
writes the user config to the settings file.  The disk write itself has no
further effect on the modelled state; on failure the source logs and keeps
the in-memory state authoritative. -/
def persistToFile (s : Mgr) : Mgr :=
  sortPermissions s

/-- `_configMap.loadMasterAndUserConfig(_argumentList)`: re-reads the master
and user documents from disk and re-merges.  In every modelled flow the file
was just written from `userConfig`, and the merged view is derived on read,
so this reload leaves the state unchanged. -/
def loadMasterAndUserConfig (s : Mgr) : Mgr := s

/-! ## Packing (lines 330–378) -/

/-- The record list `packPermissionsForMap` (lines 330–359) serializes from
one permission table — group entries are serialized with the group's known
rank names. -/
def packElems (groupRanks : List (Nat × List String))
    (agentPermissions : PermMap) : List Variant :=
  agentPermissions.map (fun kv =>
    let perms := kv.2
    if perms.isGroup then
      perms.toVariant ((alookup groupRanks perms.groupID).getD [])
    else
      perms.toVariant [])

/-- `packPermissionsForMap` (lines 330–359): ensure the `"security"` section
is a map (replacing a non-map value by an empty map), then replace the
subsection at `keyPath` by the list of records of the given table. -/
def packPermissionsForMap (groupRanks : List (Nat × List String))
    (agentPermissions : PermMap) (keyPath : List String) (user : VMap) : VMap :=
  let user :=
    match alookup user "security" with
    | some (.vmap _) => user
    | _ => ainsert user "security" (.vmap [])
  setKeyPath user keyPath (.list (packElems groupRanks agentPermissions))

/-- `packPermissions` (lines 361–378): write all four lists into the user
config, persist (which sorts) and reload. -/
def packPermissions (s : Mgr) : Mgr :=
  let u := packPermissionsForMap s.groupRanks s.standardAgentPermissions
    AGENT_STANDARD_PERMISSIONS_KEYPATH s.userConfig
  let u := packPermissionsForMap s.groupRanks s.agentPermissions
    AGENT_PERMISSIONS_KEYPATH u
  let u := packPermissionsForMap s.groupRanks s.groupPermissions
    GROUP_PERMISSIONS_KEYPATH u
  let u := packPermissionsForMap s.groupRanks s.groupForbiddens
    GROUP_FORBIDDENS_KEYPATH u
  loadMasterAndUserConfig (persistToFile { s with userConfig := u })

/-! ## Group bookkeeping (lines 542–588, 1110–1136, 1348–1366) -/

/-- First-occurrence deduplication, modelling the `QSet` in `getGroupIDs`. -/
def dedupKeepFirst (l : List Nat) : List Nat :=
  l.foldl (fun acc x => if x ∈ acc then acc else acc ++ [x]) []

/-- `getGroupIDs` (lines 1348–1356): UUIDs of the group entries of the group
permission table. -/
def getGroupIDsOf (m : PermMap) : List Nat :=
  dedupKeepFirst (m.filterMap (fun kv =>
    if kv.2.isGroup then some kv.2.groupID else none))

/-- `setGroupID` (lines 1110–1136): record the name↔UUID binding, then attach
the UUID to every non-group entry of the group tables whose id matches the
name case-insensitively; returns whether any entry changed. -/
def setGroupIDFn (s : Mgr) (groupName : String) (groupID : Nat) : Mgr × Bool :=
  let matchesName : NodePermissionsKey × NodePermissions → Bool := fun kv =>
    strToLower kv.2.id == strToLower groupName && !kv.2.isGroup
  let changed := s.groupPermissions.any matchesName || s.groupForbiddens.any matchesName
  let upd : PermMap → PermMap := fun m =>
    m.map (fun kv => if matchesName kv then (kv.1, kv.2.setGroupID groupID) else kv)
  ({ s with
      groupIDs := ainsert s.groupIDs (strToLower groupName) groupID
      groupNames := ainsert s.groupNames groupID groupName
      groupPermissions := upd s.groupPermissions
      groupForbiddens := upd s.groupForbiddens }, changed)

/-- One rank of the inner loop of `ensurePermissionsForGroupRanks` (lines
549–562): look the (name, rank) entry up, synthesizing an empty-capability
entry carrying the group UUID when absent, and point the UUID index at it. -/
def ensureRankStep (groupName : String) (groupID : Nat)
    (acc : PermMap × PermUUIDMap × Bool) (rank : Nat) :
    PermMap × PermUUIDMap × Bool :=
  let nameKey : NodePermissionsKey := (groupName, (rank : Int))
  let idKey : GroupByUUIDKey := (groupID, (rank : Int))
  match alookup acc.1 nameKey with
  | some perms => (acc.1, ainsert acc.2.1 idKey (some perms), acc.2.2)
  | none =>
    let perms := (NodePermissions.fromKey nameKey).setGroupID groupID
    (ainsert acc.1 nameKey perms, ainsert acc.2.1 idKey (some perms), true)

/-- The inner rank loop of `ensurePermissionsForGroupRanks` for one group. -/
def ensureRanksForGroup (groupName : String) (groupID : Nat) (rankCount : Nat)
    (acc : PermMap × PermUUIDMap × Bool) : PermMap × PermUUIDMap × Bool :=
  (List.range rankCount).foldl (ensureRankStep groupName groupID) acc

/-- One group of the outer loop of `ensurePermissionsForGroupRanks`: cover
the group's ranks.  The group name comes from the `_groupNames` cache (a
missing entry reads as the empty string) and the rank count from
`_groupRanks`. -/
def coverStep (groupNames : List (Nat × String))
    (groupRanks : List (Nat × List String))
    (acc : PermMap × PermUUIDMap × Bool) (gid : Nat) :
    PermMap × PermUUIDMap × Bool :=
  ensureRanksForGroup ((alookup groupNames gid).getD "") gid
    ((alookup groupRanks gid).getD []).length acc

/-- One half of `ensurePermissionsForGroupRanks`: cover every group id of the
given list. -/
def ensureCoverage (groupNames : List (Nat × String))
    (groupRanks : List (Nat × List String)) (gids : List Nat)
    (m : PermMap) (byUUID : PermUUIDMap) : PermMap × PermUUIDMap × Bool :=
  gids.foldl (coverStep groupNames groupRanks) (m, byUUID, false)

/-- `ensurePermissionsForGroupRanks` (lines 542–588): make sure each known
rank of each group appearing in the permission and forbidden tables has its
own entry; returns whether anything was synthesized. -/
def ensurePermissionsForGroupRanks (s : Mgr) : Mgr × Bool :=
  let rp := ensureCoverage s.groupNames s.groupRanks
    (getGroupIDsOf s.groupPermissions) s.groupPermissions s.groupPermissionsByUUID
  let rf := ensureCoverage s.groupNames s.groupRanks
    (getGroupIDsOf s.groupForbiddens) s.groupForbiddens s.groupForbiddensByUUID
  ({ s with
      groupPermissions := rp.1
      groupPermissionsByUUID := rp.2.1
      groupForbiddens := rf.1
      groupForbiddensByUUID := rf.2.1 }, rp.2.2 || rf.2.2)

/-! ## Unpacking (lines 380–540) -/

/-- Fetch one permission list from the user config (lines 394–417): a
missing or non-list value is replaced in the user config by an empty list
before unpacking proceeds. -/
def fetchListAt (user : VMap) (p : List String) : VMap × List Variant :=
  match getPath user p with
  | some v =>
    if v.canConvertListQ then (user, v.toListQ)
    else (setKeyPath user p (.list []), [])
  | none => (setKeyPath user p (.list []), [])

/-- One iteration of the standard-permissions loop (lines 420–435): parse the
record, update the four found-flags, and insert — merging capabilities by
union and marking the need to re-pack on a duplicate key. -/
def loadStandardEntry (acc : PermMap × (Bool × Bool × Bool × Bool) × Bool)
    (permsHash : Variant) : PermMap × (Bool × Bool × Bool × Bool) × Bool :=
  let m := acc.1
  let found := acc.2.1
  let needPack := acc.2.2
  let perms := NodePermissions.fromMap permsHash.toMapQ
  let idKey : NodePermissionsKey := (perms.id, 0)
  let found :=
    (found.1 || decide (idKey = NodePermissions.standardNameLocalhost),
     found.2.1 || decide (idKey = NodePermissions.standardNameAnonymous),
     found.2.2.1 || decide (idKey = NodePermissions.standardNameLoggedIn),
     found.2.2.2 || decide (idKey = NodePermissions.standardNameFriends))
  if acontains m idKey then
    (aupdate m idKey (fun old => old.orPerms perms), found, true)
  else
    (ainsert m idKey perms, found, needPack)

/-- One iteration of the named-user permissions loop (lines 437–449). -/
def loadAgentEntry (acc : PermMap × Bool) (permsHash : Variant) : PermMap × Bool :=
  let m := acc.1
  let needPack := acc.2
  let perms := NodePermissions.fromMap permsHash.toMapQ
  let idKey : NodePermissionsKey := (perms.id, 0)
  if acontains m idKey then
    (aupdate m idKey (fun old => old.orPerms perms), true)
  else
    (ainsert m idKey perms, needPack)

/-- One iteration of the group-permissions loop (lines 451–468): insert or
merge under the entry's own (id, rank) key; for group entries additionally
point the UUID index at the entry and record the name↔UUID binding. -/
def loadGroupEntry (acc : Mgr × Bool) (permsHash : Variant) : Mgr × Bool :=
  let s := acc.1
  let perms := NodePermissions.fromMap permsHash.toMapQ
  let idKey := perms.getKey
  let dup := acontains s.groupPermissions idKey
  let gp :=
    if dup then aupdate s.groupPermissions idKey (fun old => old.orPerms perms)
    else ainsert s.groupPermissions idKey perms
  let needPack := acc.2 || dup
  let s := { s with groupPermissions := gp }
  if perms.isGroup then
    let byUUID := ainsert s.groupPermissionsByUUID (perms.groupID, perms.rank) (alookup gp idKey)
    let s := { s with groupPermissionsByUUID := byUUID }
    let sg := setGroupIDFn s perms.id perms.groupID
    (sg.1, needPack || sg.2)
  else
    (s, needPack)

/-- One iteration of the group-forbiddens loop (lines 470–487).  Line 484 of
the source reads `_groupPermissions[idKey]` — not `_groupForbiddens[idKey]` —
so the forbiddens UUID index is pointed at the group-PERMISSIONS entry of the
same (name, rank).  When no such entry exists, the `QHash::operator[]`
rvalue yields (and inserts) a default-constructed null pointer; the model
records the null (`none`) in the index and elides the null insertion into
`_groupPermissions`, which the source would only ever dereference (a crash —
see the C4 theorem). -/
def loadForbiddenEntry (acc : Mgr × Bool) (permsHash : Variant) : Mgr × Bool :=
  let s := acc.1
  let perms := NodePermissions.fromMap permsHash.toMapQ
  let idKey := perms.getKey
  let dup := acontains s.groupForbiddens idKey
  let gf :=
    if dup then aupdate s.groupForbiddens idKey (fun old => old.orPerms perms)
    else ainsert s.groupForbiddens idKey perms
  let needPack := acc.2 || dup
  let s := { s with groupForbiddens := gf }
  if perms.isGroup then
    let byUUID := ainsert s.groupForbiddensByUUID (perms.groupID, perms.rank)
      (alookup s.groupPermissions idKey)
    let s := { s with groupForbiddensByUUID := byUUID }
    let sg := setGroupIDFn s perms.id perms.groupID
    (sg.1, needPack || sg.2)
  else
    (s, needPack)

/-- Synthesize one missing standard role (one of the blocks at lines
489–510). -/
def addMissingStandard (m : PermMap) (needPack : Bool) (found : Bool)
    (perms : NodePermissions) : PermMap × Bool :=
  if found then (m, needPack) else (ainsert m perms.getKey perms, true)

/-- `unpackPermissions` (lines 380–540): clear the four tables, re-read the
four lists from the user config (repairing missing or malformed ones to empty
lists), deserialize each entry (merging duplicates by capability union and
marking the dirty flag), synthesize any missing standard role (localhost with
every capability, the others with none), ensure rank coverage, and re-pack
when anything was dirty.  The trailing `apiRefreshGroupInformation` call is a
no-op in the modelled state: without an authentication endpoint the source
returns immediately (lines 1141–1144). -/
def unpackPermissions (s : Mgr) : Mgr :=
  let s := { s with standardAgentPermissions := [], agentPermissions := [],
                    groupPermissions := [], groupForbiddens := [] }
  let f1 := fetchListAt s.userConfig AGENT_STANDARD_PERMISSIONS_KEYPATH
  let f2 := fetchListAt f1.1 AGENT_PERMISSIONS_KEYPATH
  let f3 := fetchListAt f2.1 GROUP_PERMISSIONS_KEYPATH
  let f4 := fetchListAt f3.1 GROUP_FORBIDDENS_KEYPATH
  let s := { s with userConfig := f4.1 }
  let r := f1.2.foldl loadStandardEntry ([], (false, false, false, false), false)
  let found := r.2.1
  let ra := f2.2.foldl loadAgentEntry ([], r.2.2)
  let s := { s with standardAgentPermissions := r.1, agentPermissions := ra.1 }
  let rg := f3.2.foldl loadGroupEntry (s, ra.2)
  let rf := f4.2.foldl loadForbiddenEntry (rg.1, rg.2)
  let s := rf.1
  let a1 := addMissingStandard s.standardAgentPermissions rf.2 found.1
    ((NodePermissions.fromKey NodePermissions.standardNameLocalhost).setAll true)
  let a2 := addMissingStandard a1.1 a1.2 found.2.1
    (NodePermissions.fromKey NodePermissions.standardNameAnonymous)
  let a3 := addMissingStandard a2.1 a2.2 found.2.2.1
    (NodePermissions.fromKey NodePermissions.standardNameLoggedIn)
  let a4 := addMissingStandard a3.1 a3.2 found.2.2.2
    (NodePermissions.fromKey NodePermissions.standardNameFriends)
  let s := { s with standardAgentPermissions := a4.1 }
  let re := ensurePermissionsForGroupRanks s
  let needPack := a4.2 || re.2
  if needPack then packPermissions re.1 else re.1

/-! ## Permission lookups (lines 590–660) -/

/-- The all-denied `NodePermissions` the lookups fall back to
(`nullPermissions.setAll(false)`); the source's default constructor gives the
fallback a random UUID string as id, which nothing reads — the model uses the
empty string. -/
def nullPermissions : NodePermissions := { id := "" }

/-- `getStandardPermissionsForName` (lines 598–605). -/
def getStandardPermissionsForName (s : Mgr) (name : NodePermissionsKey) :
    NodePermissions :=
  match alookup s.standardAgentPermissions name with
  | some p => p
  | none => nullPermissions

/-- `getPermissionsForName` (lines 607–615). -/
def getPermissionsForName (s : Mgr) (name : String) : NodePermissions :=
  match alookup s.agentPermissions (name, 0) with
  | some p => p
  | none => nullPermissions

/-- `getForbiddensForGroup(const QString&, int)` (lines 638–647). -/
def getForbiddensForGroupName (s : Mgr) (groupName : String) (rank : Int) :
    NodePermissions :=
  match alookup s.groupForbiddens (groupName, rank) with
  | some p => p
  | none => nullPermissions

/-- `getForbiddensForGroup(const QUuid&, int)` (lines 649–660): follow the
UUID index to an entry, take that entry's key, and look the forbiddens up by
name.  A null pointer in the index is dereferenced by the source (`getKey()`
through it) — the model returns `none` for that undefined behaviour. -/
def getForbiddensForGroupUUID (s : Mgr) (groupID : Nat) (rank : Int) :
    Option NodePermissions :=
  match alookup s.groupForbiddensByUUID (groupID, rank) with
  | none => some nullPermissions
  | some none => none
  | some (some p) => some (getForbiddensForGroupName s p.getKey.1 p.getKey.2)

/-! ## Defaults from the settings description (lines 662–690) -/

/-- Search one description group's settings for a named setting's declared
default (the inner loop of `valueOrDefaultValueForKeyPath`). -/
def settingDefaultFromGroup (groupMap : VMap) (settingKey : String) : Variant :=
  match (((alookup groupMap "settings").getD .null).toListQ).find?
      (fun st => ((alookup st.toMapQ "name").getD .null).toStr == settingKey) with
  | some st => (alookup st.toMapQ "default").getD .null
  | none => .null

/-- `valueOrDefaultValueForKeyPath` (lines 662–690): the merged configuration
value when present, otherwise the schema-declared default of the first
description group matching the path's group segment (an invalid variant when
neither exists). -/
def valueOrDefaultValueForKeyPath (s : Mgr) (p : List String) : Variant :=
  match getMergedPath s.masterConfig s.userConfig p with
  | some v => v
  | none =>
    match p with
    | [groupKey, settingKey] =>
      match s.descriptionArray.find?
          (fun g => ((alookup g.toMapQ "name").getD .null).toStr == groupKey) with
      | some g => settingDefaultFromGroup g.toMapQ settingKey
      | none => .null
    | _ => .null

/-! ## SHA-256 (`QCryptographicHash::hash(..., Sha256).toHex()`) -/

namespace QtSha

/-- Sum of two words, wrapped to 32 bits. -/
def wrap (a b : Nat) : Nat := (a + b) % 4294967296

/-- Right rotation of a 32-bit word by `n` places. -/
def spin (x n : Nat) : Nat := ((x <<< (32 - n)) ||| (x >>> n)) &&& UINT32_MASK

/-- Round mixer on the working variable `a`. -/
def sumA (x : Nat) : Nat := spin x 2 ^^^ spin x 13 ^^^ spin x 22

/-- Round mixer on the working variable `e`. -/
def sumE (x : Nat) : Nat := spin x 6 ^^^ spin x 11 ^^^ spin x 25

/-- Schedule mixer applied fifteen words back. -/
def mixLo (x : Nat) : Nat := spin x 7 ^^^ spin x 18 ^^^ (x >>> 3)

/-- Schedule mixer applied two words back. -/
def mixHi (x : Nat) : Nat := spin x 17 ^^^ spin x 19 ^^^ (x >>> 10)

/-- Bitwise choice of `f` or `g` by `e`. -/
def pick (e f g : Nat) : Nat := (e &&& f) ^^^ (g &&& (e ^^^ UINT32_MASK))

/-- Bitwise majority of three words. -/
def vote (a b c : Nat) : Nat := (b &&& c) ^^^ (a &&& c) ^^^ (a &&& b)

/-- The 64 round constants, packed big-endian into a single integer (first
32 bits of the fractional parts of the cube roots of the first 64 primes). -/
def kpack : Nat :=
  [0x428a2f9871374491b5c0fbcfe9b5dba53956c25b59f111f1923f82a4ab1c5ed5,
   0xd807aa9812835b01243185be550c7dc372be5d7480deb1fe9bdc06a7c19bf174,
   0xe49b69c1efbe47860fc19dc6240ca1cc2de92c6f4a7484aa5cb0a9dc76f988da,
   0x983e5152a831c66db00327c8bf597fc7c6e00bf3d5a7914706ca635114292967,
   0x27b70a852e1b21384d2c6dfc53380d13650a7354766a0abb81c2c92e92722c85,
   0xa2bfe8a1a81a664bc24b8b70c76c51a3d192e819d6990624f40e3585106aa070,
   0x19a4c1161e376c082748774c34b0bcb5391c0cb34ed8aa4a5b9cca4f682e6ff3,
   0x748f82ee78a5636f84c878148cc7020890befffaa4506cebbef9a3f7c67178f2
  ].foldl (fun acc w => (acc <<< 256) + w) 0

/-- The round-constant sequence, unpacked. -/
def kseq : List Nat :=
  (List.range 64).map (fun i => (kpack >>> (32 * (63 - i))) &&& UINT32_MASK)

/-- The initial hash words, packed big-endian (first 32 bits of the
fractional parts of the square roots of the first 8 primes). -/
def seedpack : Nat :=
  0x6a09e667bb67ae853c6ef372a54ff53a510e527f9b05688c1f83d9ab5be0cd19

/-- The initial hash value, unpacked. -/
def seed : List Nat :=
  (List.range 8).map (fun i => (seedpack >>> (32 * (7 - i))) &&& UINT32_MASK)

/-- UTF-8 encoding of one character (`QString::toUtf8`). -/
def encodeChar (c : Char) : List Nat :=
  let n := c.toNat
  if n < 0x80 then [n]
  else if n < 0x800 then
    [0xC0 ||| (n >>> 6), 0x80 ||| (n &&& 0x3F)]
  else if n < 0x10000 then
    [0xE0 ||| (n >>> 12), 0x80 ||| ((n >>> 6) &&& 0x3F), 0x80 ||| (n &&& 0x3F)]
  else
    [0xF0 ||| (n >>> 18), 0x80 ||| ((n >>> 12) &&& 0x3F),
     0x80 ||| ((n >>> 6) &&& 0x3F), 0x80 ||| (n &&& 0x3F)]

/-- UTF-8 encoding of a string as a byte list. -/
def encodeStr (s : String) : List Nat := (s.data.map encodeChar).flatten

/-- Merkle–Damgård padding: a `0x80` byte, zeros up to 56 mod 64, and the
bit length, big-endian in eight bytes. -/
def padded (msg : List Nat) : List Nat :=
  let len := msg.length
  msg ++ [0x80] ++ List.replicate ((119 - len % 64) % 64) 0
    ++ (List.range 8).map (fun i => ((8 * len) >>> (56 - 8 * i)) &&& 0xFF)

/-- Big-endian 32-bit words of a byte list. -/
def regroup : List Nat → List Nat
  | b0 :: b1 :: b2 :: b3 :: rest =>
    (b0 * 16777216 + b1 * 65536 + b2 * 256 + b3) :: regroup rest
  | _ => []

/-- Extend a 16-word block to the 64-word message schedule. -/
def expand (block : List Nat) : List Nat :=
  (List.range 48).foldl (fun w j =>
    w ++ [wrap (wrap (mixHi (w.getD (j + 14) 0)) (w.getD (j + 9) 0))
            (wrap (mixLo (w.getD (j + 1) 0)) (w.getD j 0))])
    block

/-- One compression round on the state `[a, b, c, d, e, f, g, h]`. -/
def turn (st : List Nat) (kw : Nat × Nat) : List Nat :=
  match st with
  | [a, b, c, d, e, f, g, h] =>
    let u := wrap (wrap h (wrap kw.1 kw.2)) (wrap (sumE e) (pick e f g))
    [wrap u (wrap (sumA a) (vote a b c)), a, b, c, wrap d u, e, f, g]
  | st => st

/-- Compress one 16-word block into the running hash. -/
def absorb (h : List Nat) (block : List Nat) : List Nat :=
  (h.zip ((kseq.zip (expand block)).foldl turn h)).map (fun p => wrap p.1 p.2)

/-- The eight hash words of a byte message. -/
def digestWords (msg : List Nat) : List Nat :=
  let ws := regroup (padded msg)
  (List.range (ws.length / 16)).foldl
    (fun h b => absorb h ((ws.drop (16 * b)).take 16)) seed

/-- A lowercase hexadecimal digit. -/
def nibble (n : Nat) : Char := "0123456789abcdef".data.getD n '0'

/-- Lowercase hexadecimal rendering of one 32-bit word. -/
def hex32 (w : Nat) : List Char :=
  (List.range 8).map (fun i => nibble ((w >>> (28 - 4 * i)) &&& 15))

end QtSha

/-- `QCryptographicHash::hash(s.toUtf8(), QCryptographicHash::Sha256).toHex()`:
the lowercase hex digest of the UTF-8 bytes of a string. -/
def sha256Hex (s : String) : String :=
  ⟨((QtSha.digestWords (QtSha.encodeStr s)).map QtSha.hex32).flatten⟩

/-! ## The migration engine (`setupConfigMap`, lines 99–285) -/

/-- Key path `"security.allowed_users"` (line 110). -/
def ALLOWED_USERS_SETTINGS_KEYPATH : List String := ["security", "allowed_users"]

/-- Key path `"security.restricted_access"` (line 111). -/
def RESTRICTED_ACCESS_SETTINGS_KEYPATH : List String :=
  ["security", "restricted_access"]

/-- Key path `"security.allowed_editors"` (line 112). -/
def ALLOWED_EDITORS_SETTINGS_KEYPATH : List String := ["security", "allowed_editors"]

/-- Key path `"security.editors_are_rezzers"` (line 113). -/
def EDITORS_ARE_REZZERS_KEYPATH : List String := ["security", "editors_are_rezzers"]

/-- The `oldVersion < 1.0` step (lines 120–147): when the merged config has a
non-empty legacy allow-list, force `security.restricted_access` to true in the
user config, persist and reload. -/
def migrationStep10 (s : Mgr) : Mgr :=
  match getMergedPath s.masterConfig s.userConfig ALLOWED_USERS_SETTINGS_KEYPATH with
  | some allowedUsers =>
    if allowedUsers.canConvertListQ && allowedUsers.toListQ.length > 0 then
      let u := setKeyPath s.userConfig RESTRICTED_ACCESS_SETTINGS_KEYPATH (.bool true)
      loadMasterAndUserConfig (persistToFile { s with userConfig := u })
    else s
  | none => s

/-- The `oldVersion < 1.1` step (lines 149–184): migrate the legacy
`entity_server_settings.persistFilename` value to
`entity_server_settings.persistFilePath` in the user config and remove the
old key from the user config's entity-server section, persist and reload. -/
def migrationStep11 (s : Mgr) : Mgr :=
  match getMergedPath s.masterConfig s.userConfig
      ["entity_server_settings", "persistFilename"] with
  | some persistFileNameVariant =>
    if persistFileNameVariant.canConvertStringQ then
      let persistFileName := persistFileNameVariant.toStr
      let u := setKeyPath s.userConfig ["entity_server_settings", "persistFilePath"]
        (.str persistFileName)
      let u :=
        match alookup u "entity_server_settings" with
        | some (.vmap entityServerMap) =>
          ainsert u "entity_server_settings"
            (.vmap (aremove entityServerMap "persistFilename"))
        | _ => u
      loadMasterAndUserConfig (persistToFile { s with userConfig := u })
    else s
  | none => s

/-- The `oldVersion < 1.2` step (lines 186–206): replace a string
`security.http_password` in the user config by its SHA-256 hex digest,
persist and reload. -/
def migrationStep12 (s : Mgr) : Mgr :=
  match getPath s.userConfig ["security", "http_password"] with
  | some passwordVariant =>
    if passwordVariant.canConvertStringQ then
      let u := setKeyPath s.userConfig ["security", "http_password"]
        (.str (sha256Hex passwordVariant.toStr))
      loadMasterAndUserConfig (persistToFile { s with userConfig := u })
    else s
  | none => s

/-- The rez-capability pass of the `< 1.4` step (lines 251–268). -/
def rezPass (onlyEditorsAreRezzers : Bool) (p : NodePermissions) : NodePermissions :=
  if onlyEditorsAreRezzers then
    if p.can canAdjustLocks then
      (p.set canRezPermanentEntities).set canRezTemporaryEntities
    else
      (p.clear canRezPermanentEntities).clear canRezTemporaryEntities
  else
    (p.set canRezPermanentEntities).set canRezTemporaryEntities

/-- The standard table the `< 1.4` step synthesizes (lines 214–236, 251–262):
the four standard roles (localhost with everything), the restricted-access
connect clears, and the rez pass. -/
def step14Std (isRestrictedAccess onlyEditorsAreRezzers : Bool)
    (std : PermMap) : PermMap :=
  let std := ainsert std NodePermissions.standardNameLocalhost
    ((NodePermissions.fromKey NodePermissions.standardNameLocalhost).setAll true)
  let std := ainsert std NodePermissions.standardNameAnonymous
    (NodePermissions.fromKey NodePermissions.standardNameAnonymous)
  let std := ainsert std NodePermissions.standardNameLoggedIn
    (NodePermissions.fromKey NodePermissions.standardNameLoggedIn)
  let std := ainsert std NodePermissions.standardNameFriends
    (NodePermissions.fromKey NodePermissions.standardNameFriends)
  let std :=
    if isRestrictedAccess then
      aupdate (aupdate std NodePermissions.standardNameAnonymous
          (fun p => p.clear canConnectToDomain))
        NodePermissions.standardNameLoggedIn (fun p => p.clear canConnectToDomain)
    else std
  std.map (fun kv => (kv.1, rezPass onlyEditorsAreRezzers kv.2))

/-- The named-user table the `< 1.4` step synthesizes (lines 238–268): the
allow-listed users gain connect, the editors gain lock adjustment, and the
rez pass. -/
def step14Agents (isRestrictedAccess : Bool)
    (allowedUsers allowedEditors : List String)
    (onlyEditorsAreRezzers : Bool) (agents : PermMap) : PermMap :=
  let agents := allowedUsers.foldl (fun m allowedUser =>
    let m := ainsert m (allowedUser, 0) (NodePermissions.fromName allowedUser)
    aupdate m (allowedUser, 0) (fun p => p.set canConnectToDomain)) agents
  let agents := allowedEditors.foldl (fun m allowedEditor =>
    let editorKey : NodePermissionsKey := (allowedEditor, 0)
    let m :=
      if !(acontains m editorKey) then
        let p := NodePermissions.fromName allowedEditor
        let p := if isRestrictedAccess then p.clear canConnectToDomain else p
        ainsert m editorKey p
      else m
    aupdate m editorKey (fun p => p.set canAdjustLocks)) agents
  agents.map (fun kv => (kv.1, rezPass onlyEditorsAreRezzers kv.2))

/-- The body of the `oldVersion < 1.4` step (lines 208–273): synthesize the
permission tables from the given legacy flat security fields, pack them, and
clear the in-memory standard and named-user tables. -/
def migrationStep14Core (isRestrictedAccess : Bool)
    (allowedUsers allowedEditors : List String)
    (onlyEditorsAreRezzers : Bool) (s : Mgr) : Mgr :=
  let s2 := packPermissions
    { s with
        standardAgentPermissions :=
          step14Std isRestrictedAccess onlyEditorsAreRezzers
            s.standardAgentPermissions
        agentPermissions :=
          step14Agents isRestrictedAccess allowedUsers allowedEditors
            onlyEditorsAreRezzers s.agentPermissions }
  { s2 with standardAgentPermissions := [], agentPermissions := [] }

/-- The `oldVersion < 1.4` step proper: read the four legacy security fields
from the merged-or-default view, then run the synthesis. -/
def migrationStep14 (s : Mgr) : Mgr :=
  migrationStep14Core
    ((valueOrDefaultValueForKeyPath s RESTRICTED_ACCESS_SETTINGS_KEYPATH).toBoolQ)
    ((valueOrDefaultValueForKeyPath s ALLOWED_USERS_SETTINGS_KEYPATH).toStringListQ)
    ((valueOrDefaultValueForKeyPath s ALLOWED_EDITORS_SETTINGS_KEYPATH).toStringListQ)
    ((valueOrDefaultValueForKeyPath s EDITORS_ARE_REZZERS_KEYPATH).toBoolQ)
    s

/-- The default business-hours descriptor `[{open: "00:00", close: "23:59"}]`
(lines 303–314). -/
def defaultHours : Variant :=
  .list [.vmap [("open", .str "00:00"), ("close", .str "23:59")]]

/-- Fill one descriptor key when it is absent or null (one of the blocks at
lines 308–319); returns the map and whether it was malformed. -/
def fillDescriptor (dm : VMap) (key : String) (defaultV : Variant) : VMap × Bool :=
  match alookup dm key with
  | some v => if v.isNullQ then (ainsert dm key defaultV, true) else (dm, false)
  | none => (ainsert dm key defaultV, true)

/-- `validateDescriptorsMap` (lines 294–328), the `< 1.5` step: coerce the
user config's `descriptors` section to a map (the create-mode
`valueForKeyPath` calls make the intermediate a map), default the weekday
hours, weekend hours and UTC offset when null, and persist when anything was
malformed.  The host's local UTC offset is passed in as `systemUtcOffset`. -/
def validateDescriptorsMap (systemUtcOffset : Rat) (s : Mgr) : Mgr :=
  let dm : VMap :=
    match alookup s.userConfig "descriptors" with
    | some (.vmap m) => m
    | _ => []
  let d1 := fillDescriptor dm "weekday_hours" defaultHours
  let d2 := fillDescriptor d1.1 "weekend_hours" defaultHours
  let d3 := fillDescriptor d2.1 "utc_offset" (.dbl systemUtcOffset)
  let wasMalformed := d1.2 || d2.2 || d3.2
  let s := { s with userConfig := ainsert s.userConfig "descriptors" (.vmap d3.1) }
  if wasMalformed then loadMasterAndUserConfig (persistToFile s) else s

/-- `setupConfigMap` (lines 99–285): when the stored settings version differs
from the description version, run the version-gated migration steps in order,
then unpack the permissions.  (The final write of the new version into
`QSettings` is external state and not modelled.) -/
def setupConfigMap (oldVersion descriptionVersion systemUtcOffset : Rat)
    (s : Mgr) : Mgr :=
  let s :=
    if oldVersion ≠ descriptionVersion then
      let s := if oldVersion < 1 then migrationStep10 s else s
      let s := if oldVersion < 1.1 then migrationStep11 s else s
      let s := if oldVersion < 1.2 then migrationStep12 s else s
      let s := if oldVersion < 1.4 then migrationStep14 s else s
      let s := if oldVersion < 1.5 then validateDescriptorsMap systemUtcOffset s else s
      s
    else s
  unpackPermissions s

/-! ## The settings-update protocol (lines 845–1032) -/

/-- `QString::toDouble` on the plain decimal forms the settings UI produces:
optional sign, digits, optional fractional digits; anything else parses as
zero. -/
def parseDecimal (s : String) : Rat :=
  let signAndBody : Rat × List Char :=
    match s.data with
    | '-' :: rest => (-1, rest)
    | '+' :: rest => (1, rest)
    | cs => (1, cs)
  let cs := signAndBody.2
  let intPart := cs.takeWhile Char.isDigit
  let rest := cs.dropWhile Char.isDigit
  let natOf : List Char → Nat := fun l =>
    l.foldl (fun acc c => acc * 10 + (c.toNat - 48)) 0
  if intPart.isEmpty then 0
  else
    match rest with
    | [] => signAndBody.1 * (natOf intPart : Rat)
    | '.' :: fracPart =>
      if fracPart.all Char.isDigit && !fracPart.isEmpty then
        signAndBody.1 * ((natOf intPart : Rat)
          + (natOf fracPart : Rat) / ((10 : Rat) ^ fracPart.length))
      else 0
    | _ => 0

mutual

/-- `updateSetting` (lines 845–931): apply one posted value into a settings
map — an empty string removes the key, other strings are coerced to the
schema-declared type (with the `"viewpoint"` slash fix-up), booleans are
stored as-is, objects recurse per child key (resolving child descriptors from
the parent's columns, with the slash fix-up under the designated paths key)
and are removed when the resulting submap is empty, arrays replace wholesale.
The trailing `sortPermissions()` call of the source acts on the global user
config; the modelled pipeline applies it once after the whole document. -/
def updateSetting (key : String) (newValue : Variant) (settingMap : VMap)
    (settingDescription : VMap) : VMap :=
  match newValue with
  | .str sv =>
    if sv = "" then aremove settingMap key
    else
      let settingType := ((alookup settingDescription "type").getD .null).toStrJ
      if settingType = "double" then
        ainsert settingMap key (.dbl (parseDecimal sv))
      else if settingType = "int" then
        ainsert settingMap key (.int ((sv.toInt?).getD 0))
      else
        let sanitizedValue :=
          if key = "viewpoint" && !(sv.startsWith "/") then "/" ++ sv else sv
        ainsert settingMap key (.str sanitizedValue)
  | .bool b => ainsert settingMap key (.bool b)
  | .vmap obj =>
    let thisMap : VMap :=
      match alookup settingMap key with
      | some (.vmap m) => m
      | _ => []
    let thisMap := updateChildren key obj thisMap settingDescription
    let settingMap := ainsert settingMap key (.vmap thisMap)
    if (((alookup settingMap key).getD .null).toMapQ).isEmpty then
      aremove settingMap key
    else settingMap
  | .list xs => ainsert settingMap key (.list xs)
  | _ => settingMap

/-- The child-key loop of `updateSetting`'s object branch (lines 891–918):
resolve each child's descriptor from the parent descriptor's columns (keeping
the parent descriptor itself when the key is the parent's own name or no
column matches), prepend a slash under the designated `"paths"` key, and
recurse.  The `"paths"` key name is declared in the manager's header (not
under `src/`); modelled from the spec's designated paths key. -/
def updateChildren (key : String) (children : List (String × Variant))
    (tm : VMap) (settingDescription : VMap) : VMap :=
  match children with
  | [] => tm
  | (childKey, childValue) :: rest =>
    let childDescriptionObject : VMap :=
      if key ≠ ((alookup settingDescription "name").getD .null).toStrJ then
        match (((alookup settingDescription "columns").getD .null).toListQ).find?
            (fun column => column.canConvertMapQ &&
              (match alookup column.toMapQ "name" with
               | some (Variant.str n) => n == childKey
               | _ => false)) with
        | some column => column.toMapQ
        | none => settingDescription
      else settingDescription
    let sanitizedKey :=
      if key = "paths" && !(childKey.startsWith "/") then "/" ++ childKey
      else childKey
    updateChildren key rest
      (updateSetting sanitizedKey childValue tm childDescriptionObject)
      settingDescription

end

/-- `settingDescriptionFromGroup` (lines 933–943): the description object of
a named setting within a description group, the empty object when absent. -/
def settingDescriptionOf (groupObject : VMap) (settingName : String) : VMap :=
  match (((alookup groupObject "settings").getD .null).toListQ).find?
      (fun sv => ((alookup sv.toMapQ "name").getD .null).toStrJ == settingName) with
  | some sv => sv.toMapQ
  | none => []

/-- The description group a root key names (lines 952–963): the first group
object whose `"name"` equals the key, else the empty object. -/
def groupDescriptionFor (descriptionArray : List Variant) (rootKey : String) :
    VMap :=
  match descriptionArray.find? (fun groupValue =>
      match alookup groupValue.toMapQ "name" with
      | some (Variant.str n) => n == rootKey
      | _ => false) with
  | some groupValue => groupValue.toMapQ
  | none => []

/-- The descriptor of a root-level (group-less) setting, searched across the
nameless description groups (lines 966–983). -/
def rootSettingDescriptionFor (descriptionArray : List Variant)
    (rootKey : String) : VMap :=
  match descriptionArray.findSome? (fun groupValue =>
      let groupObject := groupValue.toMapQ
      if !(acontains groupObject "name") then
        let d := settingDescriptionOf groupObject rootKey
        if d.isEmpty then none else some d
      else none) with
  | some d => d
  | none => []

/-- The settings loop of one named description group (lines 995–1019): apply
every posted child that matches one of the group's declared settings, flagging
a needed restart for any applied setting when the root key is not
`"security"`. -/
def applyGroupSettings (groupDescriptionObject : VMap) (rootKey : String)
    (kvs : List (String × Variant)) (acc2 : VMap × Bool) : VMap × Bool :=
  kvs.foldl (fun acc2 kv =>
    let matchingDescriptionObject := settingDescriptionOf groupDescriptionObject kv.1
    if !matchingDescriptionObject.isEmpty then
      (updateSetting kv.1 kv.2 acc2.1 matchingDescriptionObject,
       acc2.2 || rootKey ≠ "security")
    else acc2) acc2

/-- One root key of the posted document (the loop body at lines 950–1026):
set up the root entry, decide whether the key names a description group or a
root setting, apply the matching updates (flagging a needed restart for any
applied setting outside the `"security"` group), and drop the root entry when
its map has become empty. -/
def processRootKey (descriptionArray : List Variant) (acc : VMap × Bool)
    (rootKey : String) (rootValue : Variant) : VMap × Bool :=
  let settingsVariant := acc.1
  let needRestart := acc.2
  let settingsVariant :=
    if acontains settingsVariant rootKey then settingsVariant
    else ainsert settingsVariant rootKey (.vmap [])
  let groupDescriptionObject := groupDescriptionFor descriptionArray rootKey
  let stepped : VMap × Bool :=
    if groupDescriptionObject.isEmpty then
      let matchingDescriptionObject :=
        rootSettingDescriptionFor descriptionArray rootKey
      if !matchingDescriptionObject.isEmpty then
        (updateSetting rootKey rootValue settingsVariant matchingDescriptionObject,
         needRestart || rootKey ≠ "security")
      else (settingsVariant, needRestart)
    else
      let thisMap := ((alookup settingsVariant rootKey).getD .null).toMapQ
      let inner := applyGroupSettings groupDescriptionObject rootKey
        (rootValue.toMapQ) (thisMap, needRestart)
      (ainsert settingsVariant rootKey (.vmap inner.1), inner.2)
  if (((alookup stepped.1 rootKey).getD .null).toMapQ).isEmpty then
    (aremove stepped.1 rootKey, stepped.2)
  else stepped

/-- `recurseJSONObjectAndOverwriteSettings` (lines 945–1032): apply a posted
document into the user config, returning the updated config and whether a
restart is required.  The final `mergeMasterAndUserConfigs` re-derivation of
the merged view is computed on demand in this model. -/
def recurseJSONObjectAndOverwriteSettings (descriptionArray : List Variant)
    (postedObject : VMap) (settingsVariant : VMap) : VMap × Bool :=
  postedObject.foldl (fun acc kv => processRootKey descriptionArray acc kv.1 kv.2)
    (settingsVariant, false)

/-- The action the POST handler takes after a successful settings write
(lines 733–740). -/
inductive PostSettingsAction : Type where
  | scheduleRestart : PostSettingsAction
  | unpackAndNotify : PostSettingsAction
deriving Repr, DecidableEq

/-- The POST branch of `handleAuthenticatedHTTPRequest` (lines 715–742):
apply the posted document, persist to file, and either defer a restart or
immediately unpack the permissions and notify. -/
def handleSettingsPost (s : Mgr) (postedObject : VMap) : Mgr × PostSettingsAction :=
  let applied := recurseJSONObjectAndOverwriteSettings s.descriptionArray
    postedObject s.userConfig
  let s := persistToFile { s with userConfig := applied.1 }
  if applied.2 then (s, .scheduleRestart)
  else (unpackPermissions s, .unpackAndNotify)

/-! ## The settings response object (lines 760–843) -/

/-- One setting of one description group in `responseObjectForType("", true)`
(lines 777–832): for the authenticated full read the query type is null, so
every non-hidden setting is included; the value is the merged configuration's
when non-null, otherwise the schema default (or the empty string when no
default is declared). -/
def responseSettingEntry (s : Mgr) (groupKey : String) (acc : VMap × VMap)
    (settingValue : Variant) : VMap × VMap :=
  let responseObject := acc.1
  let groupResponseObject := acc.2
  let settingObject := settingValue.toMapQ
  if !((alookup settingObject "value-hidden").getD .null).toBoolJ then
    let settingName := ((alookup settingObject "name").getD .null).toStrJ
    let variantValue : Option Variant :=
      if groupKey ≠ "" then
        getMergedPath s.masterConfig s.userConfig [groupKey, settingName]
      else
        getMergedPath s.masterConfig s.userConfig [settingName]
    let isNullValue : Bool :=
      match variantValue with
      | none => true
      | some v => v.isNullQ
    let result : Variant :=
      if isNullValue then
        match alookup settingObject "default" with
        | some d => d
        | none => .str ""
      else variantValue.getD .null
    if groupKey ≠ "" then
      (responseObject, ainsert groupResponseObject settingName result)
    else
      (ainsert responseObject settingName result, groupResponseObject)
  else acc

/-- `responseObjectForType("", true)` (lines 760–843): the authenticated
full-values response object. -/
def responseObjectForTypeAuth (s : Mgr) : VMap :=
  s.descriptionArray.foldl (fun responseObject groupValue =>
    let groupObject := groupValue.toMapQ
    let groupKey := ((alookup groupObject "name").getD .null).toStrJ
    let groupSettingsArray := ((alookup groupObject "settings").getD .null).toListQ
    let inner :=
      groupSettingsArray.foldl (responseSettingEntry s groupKey) (responseObject, [])
    if groupKey ≠ "" && !inner.2.isEmpty then
      ainsert inner.1 groupKey (.vmap inner.2)
    else inner.1) []

/-! ## Association-list lemmas -/

section AssocLemmas

variable {α β : Type} [DecidableEq α]

theorem alookup_ainsert_self (m : List (α × β)) (k : α) (v : β) :
    alookup (ainsert m k v) k = some v := by
  induction m with
  | nil => simp [ainsert, alookup]
  | cons kv t ih =>
    obtain ⟨k', v'⟩ := kv
    by_cases h : k' = k
    · simp [ainsert, h, alookup]
    · simp [ainsert, h, alookup, ih]

theorem alookup_ainsert_ne (m : List (α × β)) (k k2 : α) (v : β) (h : k ≠ k2) :
    alookup (ainsert m k v) k2 = alookup m k2 := by
  induction m with
  | nil => simp [ainsert, alookup, h]
  | cons kv t ih =>
    obtain ⟨k', v'⟩ := kv
    by_cases h1 : k' = k
    · subst h1
      simp [ainsert, alookup, h]
    · simp [ainsert, h1, alookup, ih]

theorem ainsert_lookup_self {m : List (α × β)} {k : α} {v : β}
    (h : alookup m k = some v) : ainsert m k v = m := by
  induction m with
  | nil => simp [alookup] at h
  | cons kv t ih =>
    obtain ⟨k', v'⟩ := kv
    by_cases h1 : k' = k
    · subst h1
      simp [alookup] at h
      simp [ainsert, h]
    · simp [alookup, h1] at h
      simp [ainsert, h1, ih h]

theorem ainsert_collapse (m : List (α × β)) (k : α) (w v : β) :
    ainsert (ainsert m k w) k v = ainsert m k v := by
  induction m with
  | nil => simp [ainsert]
  | cons kv t ih =>
    obtain ⟨k', v'⟩ := kv
    by_cases h1 : k' = k
    · simp [ainsert, h1]
    · simp [ainsert, h1, ih]

theorem acontains_ainsert (m : List (α × β)) (k k2 : α) (v : β) :
    acontains (ainsert m k v) k2 = (acontains m k2 || decide (k = k2)) := by
  by_cases h : k = k2
  · subst h
    simp [acontains, alookup_ainsert_self]
  · simp [acontains, alookup_ainsert_ne m k k2 v h, h]

theorem ainsert_comm_of_contains (m : List (α × β)) (k k2 : α) (v v2 : β)
    (hne : k ≠ k2) (h : acontains m k = true ∨ acontains m k2 = true) :
    ainsert (ainsert m k v) k2 v2 = ainsert (ainsert m k2 v2) k v := by
  induction m with
  | nil =>
    simp [acontains, alookup] at h
  | cons kv t ih =>
    obtain ⟨k', v'⟩ := kv
    by_cases h1 : k' = k
    · subst h1
      simp [ainsert, hne, Ne.symm hne]
    · by_cases h2 : k' = k2
      · subst h2
        simp [ainsert, h1, hne, Ne.symm hne]
      · have h' : acontains t k = true ∨ acontains t k2 = true := by
          simpa [acontains, alookup, h1, h2] using h
        simp [ainsert, h1, h2, ih h']

theorem alookup_eq_none_of_not_mem {m : List (α × β)} {k : α}
    (h : k ∉ m.map Prod.fst) : alookup m k = none := by
  induction m with
  | nil => simp [alookup]
  | cons kv t ih =>
    obtain ⟨k', v'⟩ := kv
    simp only [List.map_cons, List.mem_cons] at h
    push_neg at h
    simp [alookup, Ne.symm h.1, ih h.2]

theorem alookup_aremove_self (m : List (α × β)) (k : α)
    (hnd : (m.map Prod.fst).Nodup) : alookup (aremove m k) k = none := by
  induction m with
  | nil => simp [aremove, alookup]
  | cons kv t ih =>
    obtain ⟨k', v'⟩ := kv
    simp only [List.map_cons, List.nodup_cons] at hnd
    by_cases h1 : k' = k
    · subst h1
      simpa [aremove] using alookup_eq_none_of_not_mem hnd.1
    · simp [aremove, h1, alookup, ih hnd.2]

theorem alookup_aremove_ne (m : List (α × β)) (k k2 : α) (h : k ≠ k2) :
    alookup (aremove m k) k2 = alookup m k2 := by
  induction m with
  | nil => simp [aremove]
  | cons kv t ih =>
    obtain ⟨k', v'⟩ := kv
    by_cases h1 : k' = k
    · subst h1
      simp [aremove, alookup, h]
    · simp [aremove, h1, alookup, ih]

theorem alookup_aupdate (m : List (α × β)) (k k2 : α) (f : β → β) :
    alookup (aupdate m k f) k2 =
      if k = k2 then (alookup m k2).map f else alookup m k2 := by
  induction m with
  | nil => simp [aupdate, alookup]
  | cons kv t ih =>
    obtain ⟨k', v'⟩ := kv
    by_cases h1 : k' = k
    · subst h1
      by_cases h2 : k' = k2
      · subst h2
        simp [aupdate, alookup]
      · simp [aupdate, alookup, h2, ih]
    · by_cases h2 : k' = k2
      · subst h2
        simp [aupdate, h1, alookup, Ne.symm h1, if_neg h1]
      · simp [aupdate, h1, alookup, h2, ih]

theorem acontains_aupdate (m : List (α × β)) (k k2 : α) (f : β → β) :
    acontains (aupdate m k f) k2 = acontains m k2 := by
  simp only [acontains, alookup_aupdate]
  by_cases h : k = k2 <;> simp [h]

end AssocLemmas

/-! ## Key-path lemmas -/

theorem getPath_setKeyPath_self (m : VMap) (p : List String) (v : Variant)
    (hp : p ≠ []) : getPath (setKeyPath m p v) p = some v := by
  induction p generalizing m with
  | nil => exact absurd rfl hp
  | cons k rest ih =>
    cases rest with
    | nil => simp [getPath, setKeyPath, vGetPath, alookup_ainsert_self]
    | cons k2 r2 =>
      simp only [setKeyPath, getPath, vGetPath, alookup_ainsert_self]
      exact ih _ (List.cons_ne_nil k2 r2)

theorem setKeyPath_lookup_self {m : VMap} {p : List String} {v : Variant}
    (h : getPath m p = some v) : setKeyPath m p v = m := by
  induction p generalizing m with
  | nil =>
    rfl
  | cons k rest ih =>
    cases rest with
    | nil =>
      have h' : alookup m k = some v := by
        cases hm : alookup m k <;> simp_all [getPath, vGetPath, hm]
      simpa [setKeyPath] using ainsert_lookup_self h'
    | cons k2 r2 =>
      simp only [getPath, vGetPath] at h
      cases hm : alookup m k with
      | none => simp [hm, vGetPath] at h
      | some w =>
        simp only [hm] at h
        cases w with
        | vmap sm =>
          have hsub : getPath sm (k2 :: r2) = some v := h
          simp only [setKeyPath, hm]
          rw [ih hsub]
          exact ainsert_lookup_self hm
        | null => simp [vGetPath] at h
        | str s => simp [vGetPath] at h
        | int n => simp [vGetPath] at h
        | dbl q => simp [vGetPath] at h
        | bool b => simp [vGetPath] at h
        | uuid u => simp [vGetPath] at h
        | list xs => simp [vGetPath] at h

theorem getPath_setKeyPath2_ne (m : VMap) (a b a2 b2 : String) (v : Variant)
    (h : (a, b) ≠ (a2, b2)) :
    getPath (setKeyPath m [a, b] v) [a2, b2] = getPath m [a2, b2] := by
  by_cases ha : a = a2
  · subst ha
    have hb : b ≠ b2 := by
      intro hb
      exact h (by simp [hb])
    simp only [setKeyPath, getPath, vGetPath, alookup_ainsert_self]
    cases hm : alookup m a with
    | none => simp [vGetPath, alookup_ainsert_ne _ b b2 v hb, alookup, hb]
    | some w =>
      cases w <;>
        simp [vGetPath, alookup_ainsert_ne _ b b2 v hb, alookup, hb]
  · simp only [setKeyPath, getPath, vGetPath]
    rw [alookup_ainsert_ne _ a a2 _ ha]

theorem getPath_setKeyPath2_ne1 (m : VMap) (a b a2 : String) (v : Variant)
    (ha : a ≠ a2) :
    getPath (setKeyPath m [a, b] v) [a2] = getPath m [a2] := by
  simp only [setKeyPath, getPath, vGetPath]
  rw [alookup_ainsert_ne _ a a2 _ ha]

theorem alookup_setKeyPath2_ne (m : VMap) (a b a2 : String) (v : Variant)
    (ha : a ≠ a2) :
    alookup (setKeyPath m [a, b] v) a2 = alookup m a2 := by
  simp only [setKeyPath]
  exact alookup_ainsert_ne _ a a2 _ ha

/-! ## Merged-view lemmas -/

theorem getMergedSub_master_none (p : List String) :
    ∀ m u, vGetPath m p = none → getMergedSub m u p = vGetPath u p := by
  induction p with
  | nil =>
    intro m u hm
    cases u with
    | none => simpa [getMergedSub, vGetPath] using hm
    | some uv => simp [getMergedSub, vGetPath]
  | cons k rest ih =>
    intro m u hm
    cases u with
    | none => simp [getMergedSub, hm, vGetPath_none]
    | some uv =>
      cases uv with
      | vmap um =>
        simp only [getMergedSub, vGetPath]
        apply ih
        cases m with
        | none => simp [vGetPath_none]
        | some mv =>
          cases mv <;> simp_all [vGetPath, vGetPath_none]
      | null => simp [getMergedSub, vGetPath]
      | str s => simp [getMergedSub, vGetPath]
      | int n => simp [getMergedSub, vGetPath]
      | dbl q => simp [getMergedSub, vGetPath]
      | bool b => simp [getMergedSub, vGetPath]
      | uuid un => simp [getMergedSub, vGetPath]
      | list xs => simp [getMergedSub, vGetPath]

theorem getMergedPath_master_none {master user : VMap} {p : List String}
    (hm : getPath master p = none) :
    getMergedPath master user p = getPath user p :=
  getMergedSub_master_none p _ _ hm

/-- A two-segment merged read only depends on the user document through the
top-level kind of the head entry and the child lookup under it. -/
theorem getMergedPath2_congr (master u1 u2 : VMap) (a b : String)
    (h : match alookup u1 a, alookup u2 a with
         | some (.vmap m1), some (.vmap m2) => alookup m1 b = alookup m2 b
         | x, y => x = y) :
    getMergedPath master u1 [a, b] = getMergedPath master u2 [a, b] := by
  simp only [getMergedPath, getMergedSub]
  cases h1 : alookup u1 a with
  | none =>
    cases h2 : alookup u2 a with
    | none => rfl
    | some w =>
      simp [h1, h2] at h
  | some w1 =>
    cases h2 : alookup u2 a with
    | none =>
      simp [h1, h2] at h
    | some w2 =>
      simp only [h1, h2] at h
      cases w1 with
      | vmap m1 =>
        cases w2 with
        | vmap m2 => simp [getMergedSub, h]
        | null => simp at h
        | str s => simp at h
        | int n => simp at h
        | dbl q => simp at h
        | bool b2 => simp at h
        | uuid un => simp at h
        | list xs => simp at h
      | null => cases w2 <;> simp_all
      | str s => cases w2 <;> simp_all
      | int n => cases w2 <;> simp_all
      | dbl q => cases w2 <;> simp_all
      | bool b2 => cases w2 <;> simp_all
      | uuid un => cases w2 <;> simp_all
      | list xs => cases w2 <;> simp_all

/-! ## Comparator and sorting lemmas -/

theorem charsLess_asymm : ∀ x y, charsLess x y = true → charsLess y x = false := by
  intro x
  induction x with
  | nil => intro y h; cases y <;> simp_all [charsLess]
  | cons c cs ih =>
    intro y h
    cases y with
    | nil => simp [charsLess] at h
    | cons d ds =>
      simp only [charsLess] at h ⊢
      by_cases h1 : c.toNat < d.toNat
      · have h2 : ¬(d.toNat < c.toNat) := by omega
        simp [h1, h2]
      · by_cases h2 : d.toNat < c.toNat
        · simp [h1, h2] at h
        · simp only [h1, h2, if_false, Bool.false_eq_true, not_false_eq_true,
            if_neg] at h ⊢
          exact ih ds h

theorem qstrLess_asymm {x y : String} (h : qstrLess x y = true) :
    qstrLess y x = false :=
  charsLess_asymm _ _ h

theorem charsLess_irrefl : ∀ x, charsLess x x = false := by
  intro x
  induction x with
  | nil => rfl
  | cons c cs ih => simp [charsLess, ih]

theorem qstrLess_irrefl (x : String) : qstrLess x x = false :=
  charsLess_irrefl _

/-- `permissionVariantLessThan` is asymmetric: both sides of a comparison
take the same branch, and each branch is a strict string comparison. -/
theorem permissionVariantLessThan_asymm :
    ∀ a b, permissionVariantLessThan a b = true →
      permissionVariantLessThan b a = false := by
  intro a b h
  cases a <;> cases b <;>
    simp only [permissionVariantLessThan] at h ⊢ <;>
    try exact qstrLess_asymm h
  case vmap.vmap m1 m2 =>
    by_cases c1 : acontains m1 "permissions_id" <;>
      by_cases c2 : acontains m2 "permissions_id" <;>
      by_cases r1 : acontains m1 "rank_name" <;>
      by_cases r2 : acontains m2 "rank_name" <;>
      by_cases hid : ((alookup m1 "permissions_id").getD .null).toStr
        = ((alookup m2 "permissions_id").getD .null).toStr <;>
      simp_all <;>
      first
        | exact qstrLess_asymm h
        | (simp [qstrLess_irrefl] at h)
        | (rw [if_neg (fun hh => hid hh.symm)]; exact qstrLess_asymm h)

/-- The order a sorted permission list satisfies between adjacent entries:
the later one is not less than the earlier one. -/
def sortedOrder (a b : Variant) : Prop := permissionVariantLessThan b a = false

theorem chain_insertIntoSorted (x : Variant) (l : List Variant)
    (hl : l.Chain' sortedOrder) :
    (insertIntoSorted permissionVariantLessThan x l).Chain' sortedOrder := by
  induction l with
  | nil => simp [insertIntoSorted]
  | cons y ys ih =>
    by_cases hxy : permissionVariantLessThan y x = true
    · simp only [insertIntoSorted, hxy, if_true]
      have hins := ih (List.Chain'.tail hl)
      cases ys with
      | nil =>
        simp only [insertIntoSorted] at hins ⊢
        exact List.chain'_cons.mpr
          ⟨permissionVariantLessThan_asymm _ _ hxy, hins⟩
      | cons z zs =>
        by_cases hzx : permissionVariantLessThan z x = true
        · simp only [insertIntoSorted, hzx, if_true] at hins ⊢
          exact List.chain'_cons.mpr ⟨(List.chain'_cons.mp hl).1, hins⟩
        · simp only [insertIntoSorted, hzx, if_false, Bool.false_eq_true,
            not_false_eq_true, if_neg] at hins ⊢
          exact List.chain'_cons.mpr
            ⟨permissionVariantLessThan_asymm _ _ hxy, hins⟩
    · simp only [insertIntoSorted, hxy, if_false, Bool.false_eq_true,
        not_false_eq_true, if_neg]
      exact List.chain'_cons.mpr ⟨Bool.eq_false_iff.mpr hxy, hl⟩

theorem chain_sortPermissionList (l : List Variant) :
    (sortPermissionList l).Chain' sortedOrder := by
  induction l with
  | nil => simp [sortPermissionList]
  | cons x xs ih => exact chain_insertIntoSorted x _ ih

theorem insertIntoSorted_of_head {x : Variant} {l : List Variant}
    (h : (x :: l).Chain' sortedOrder) :
    insertIntoSorted permissionVariantLessThan x l = x :: l := by
  cases l with
  | nil => rfl
  | cons y ys =>
    have hxy : sortedOrder x y := (List.chain'_cons.mp h).1
    simp only [sortedOrder] at hxy
    simp [insertIntoSorted, hxy]

theorem sortPermissionList_of_chain {l : List Variant}
    (h : l.Chain' sortedOrder) : sortPermissionList l = l := by
  induction l with
  | nil => rfl
  | cons x xs ih =>
    simp only [sortPermissionList, List.foldr_cons]
    have : xs.foldr (insertIntoSorted permissionVariantLessThan) [] = xs :=
      ih (List.Chain'.tail h)
    rw [this]
    exact insertIntoSorted_of_head h

theorem sortPermissionList_idem (l : List Variant) :
    sortPermissionList (sortPermissionList l) = sortPermissionList l :=
  sortPermissionList_of_chain (chain_sortPermissionList l)

/-! ## Lemmas about `sortPermissions` on the user config -/

theorem getPath_sortListAt_ne (u : VMap) (a b a2 b2 : String)
    (h : (a, b) ≠ (a2, b2)) :
    getPath (sortListAt u [a, b]) [a2, b2] = getPath u [a2, b2] := by
  unfold sortListAt
  cases hv : getPath u [a, b] with
  | none => rfl
  | some v =>
    cases v <;> simp [Variant.canConvertListQ, getPath_setKeyPath2_ne u a b a2 b2 _ h]

theorem alookup_sortListAt_ne (u : VMap) (a b : String) (a2 : String)
    (ha : a ≠ a2) : alookup (sortListAt u [a, b]) a2 = alookup u a2 := by
  unfold sortListAt
  cases hv : getPath u [a, b] with
  | none => rfl
  | some v =>
    cases v <;> simp [Variant.canConvertListQ, alookup_setKeyPath2_ne u a b a2 _ ha]

theorem getPath_sortPermissionsU_ne (u : VMap) (a2 b2 : String)
    (h1 : ("security", "standard_permissions") ≠ (a2, b2))
    (h2 : ("security", "permissions") ≠ (a2, b2)) :
    getPath (sortPermissionsU u) [a2, b2] = getPath u [a2, b2] := by
  unfold sortPermissionsU AGENT_STANDARD_PERMISSIONS_KEYPATH AGENT_PERMISSIONS_KEYPATH
  rw [getPath_sortListAt_ne _ _ _ _ _ h2, getPath_sortListAt_ne _ _ _ _ _ h1]

theorem alookup_sortPermissionsU_ne (u : VMap) (a2 : String)
    (h : a2 ≠ "security") : alookup (sortPermissionsU u) a2 = alookup u a2 := by
  unfold sortPermissionsU AGENT_STANDARD_PERMISSIONS_KEYPATH AGENT_PERMISSIONS_KEYPATH
  rw [alookup_sortListAt_ne _ _ _ _ (Ne.symm h), alookup_sortListAt_ne _ _ _ _ (Ne.symm h)]

theorem sortListAt_of_sorted {u : VMap} {a b : String}
    (h : ∀ xs, getPath u [a, b] = some (.list xs) → xs.Chain' sortedOrder) :
    sortListAt u [a, b] = u := by
  unfold sortListAt
  cases hv : getPath u [a, b] with
  | none => rfl
  | some v =>
    cases v with
    | list xs =>
      simp only [Variant.canConvertListQ, Variant.toListQ, if_true]
      rw [sortPermissionList_of_chain (h xs hv)]
      exact setKeyPath_lookup_self hv
    | null => rfl
    | str s => rfl
    | int n => rfl
    | dbl q => rfl
    | bool b2 => rfl
    | uuid u2 => rfl
    | vmap m2 => rfl

theorem sortListAt_sorted_at {u : VMap} {a b : String} {xs : List Variant}
    (h : getPath (sortListAt u [a, b]) [a, b] = some (.list xs)) :
    xs.Chain' sortedOrder := by
  unfold sortListAt at h
  cases hv : getPath u [a, b] with
  | none =>
    simp only [hv] at h
    exact absurd h (by simp)
  | some v =>
    rw [hv] at h
    cases v with
    | list l =>
      simp only [Variant.canConvertListQ, Variant.toListQ, if_true] at h
      rw [getPath_setKeyPath_self u [a, b] _ (by simp)] at h
      obtain rfl : sortPermissionList l = xs := by
        injection h with h2
        injection h2
      exact chain_sortPermissionList l
    | null => simp [Variant.canConvertListQ, hv] at h
    | str s => simp [Variant.canConvertListQ, hv] at h
    | int n => simp [Variant.canConvertListQ, hv] at h
    | dbl q => simp [Variant.canConvertListQ, hv] at h
    | bool b2 => simp [Variant.canConvertListQ, hv] at h
    | uuid u2 => simp [Variant.canConvertListQ, hv] at h
    | vmap m2 => simp [Variant.canConvertListQ, hv] at h

theorem sortPermissionsU_idem (u : VMap) :
    sortPermissionsU (sortPermissionsU u) = sortPermissionsU u := by
  have hP : (("security", "standard_permissions") : String × String)
      ≠ ("security", "permissions") := by simp
  set x1 := sortListAt u AGENT_STANDARD_PERMISSIONS_KEYPATH with hx1
  set x2 := sortListAt x1 AGENT_PERMISSIONS_KEYPATH with hx2
  have hL1 : sortListAt x2 AGENT_STANDARD_PERMISSIONS_KEYPATH = x2 := by
    apply sortListAt_of_sorted
    intro xs hxs
    apply sortListAt_sorted_at (u := u)
    rw [← hxs, hx2]
    exact (getPath_sortListAt_ne x1 _ _ _ _ (Ne.symm hP)).symm
  have hL2 : sortListAt x2 AGENT_PERMISSIONS_KEYPATH = x2 := by
    apply sortListAt_of_sorted
    intro xs hxs
    exact sortListAt_sorted_at (u := x1) hxs
  show sortListAt (sortListAt x2 AGENT_STANDARD_PERMISSIONS_KEYPATH)
      AGENT_PERMISSIONS_KEYPATH = x2
  rw [hL1, hL2]

/-! ## Claim C4 — the forbiddens UUID index (code bug at line 484) -/

/-- The C4 failing input: one stored group-forbiddens record whose
(name, rank) has no counterpart in the group-permissions list, forbidding the
connect capability for rank 0 of group UUID 7. -/
def forbiddenOnlyRecord : VMap :=
  [("permissions_id", .str "g"), ("group_id", .uuid 7), ("rank", .int 0),
   ("id_can_connect", .bool true)]

/-- The manager state holding only `forbiddenOnlyRecord`. -/
def mgrForbiddenOnly : Mgr :=
  { masterConfig := []
    userConfig :=
      [("security", .vmap [("group_forbiddens", .list [.vmap forbiddenOnlyRecord])])]
    descriptionArray := [] }

/-- C4: after `unpackPermissions`, the group-forbiddens UUID index is NOT
consistent with the name-keyed forbiddens map: line 484 populates it from
`_groupPermissions[idKey]` instead of `_groupForbiddens[idKey]`, so for a
forbidden-only group the index records the null pointer the source would
dereference (`none` here), while the name-keyed lookup returns the stored
forbiddens entry.  The claim — that the UUID lookup agrees with the name
lookup — is the evident intent (the parallel line 465 uses the matching
table), and the code is a copy-paste slip. -/
theorem c4_forbiddens_uuid_index_broken :
    getForbiddensForGroupUUID (unpackPermissions mgrForbiddenOnly) 7 0 = none ∧
    (getForbiddensForGroupName (unpackPermissions mgrForbiddenOnly) "g" 0).can
        canConnectToDomain = true ∧
    alookup (unpackPermissions mgrForbiddenOnly).groupForbiddensByUUID (7, 0)
      = some none := by
  exact ⟨rfl, rfl, rfl⟩

/-! ## Claim C6 — duplicate keys merge by capability union -/

/-- C6: unpacking a permission list with two records of the same key merges
them into a single entry (keyed by that id at rank 0, in the named-user
category shown here) whose capability mask is the bitwise union of the two,
and marks the registry dirty (`needPack = true`, which triggers the full
re-pack at line 515); the loop has no failure path. -/
theorem c6_duplicate_entries_merge (m1 m2 : VMap)
    (h : (NodePermissions.fromMap m1).id = (NodePermissions.fromMap m2).id) :
    [Variant.vmap m1, Variant.vmap m2].foldl loadAgentEntry ([], false)
      = ([(((NodePermissions.fromMap m1).id, (0 : Int)),
           (NodePermissions.fromMap m1).orPerms (NodePermissions.fromMap m2))],
         true) ∧
    ((NodePermissions.fromMap m1).orPerms (NodePermissions.fromMap m2)).permissions
      = ((NodePermissions.fromMap m1).permissions |||
         (NodePermissions.fromMap m2).permissions) := by
  constructor
  · show loadAgentEntry (loadAgentEntry ([], false) (.vmap m1)) (.vmap m2) = _
    simp [loadAgentEntry, Variant.toMapQ, acontains, alookup, ainsert, aupdate, h]
  · rfl

/-- A first duplicate record for the C6 witness: the user `"u"` may connect. -/
def dupRecordA : VMap :=
  [("permissions_id", .str "u"), ("id_can_connect", .bool true)]

/-- A second duplicate record for the C6 witness: the user `"u"` may adjust
locks. -/
def dupRecordB : VMap :=
  [("permissions_id", .str "u"), ("id_can_adjust_locks", .bool true)]

/-- Witness for C6 at the two concrete duplicate records. -/
theorem c6_duplicate_entries_merge_witness :
    [Variant.vmap dupRecordA, Variant.vmap dupRecordB].foldl loadAgentEntry ([], false)
      = ([(((NodePermissions.fromMap dupRecordA).id, (0 : Int)),
           (NodePermissions.fromMap dupRecordA).orPerms (NodePermissions.fromMap dupRecordB))],
         true) ∧
    ((NodePermissions.fromMap dupRecordA).orPerms (NodePermissions.fromMap dupRecordB)).permissions
      = ((NodePermissions.fromMap dupRecordA).permissions |||
         (NodePermissions.fromMap dupRecordB).permissions) :=
  c6_duplicate_entries_merge dupRecordA dupRecordB rfl

/-! ## Claim C10 — sorting of persisted permission lists -/

/-- The principal id string of a stored permission record
(`m["permissions_id"].toString()`). -/
def permIdOf (m : VMap) : String := ((alookup m "permissions_id").getD .null).toStr

/-- The rank-name string of a stored permission record
(`m["rank_name"].toString()`). -/
def rankNameOf (m : VMap) : String := ((alookup m "rank_name").getD .null).toStr

/-- A minimal stored permission record with only an id, for the C10
counterexample. -/
def permRecordNamed (i : String) : Variant := .vmap [("permissions_id", .str i)]

/-- A user config whose group-permissions list is out of order, for the C10
counterexample. -/
def userConfigUnsortedGroups : VMap :=
  [("security", .vmap
    [("group_permissions", .list [permRecordNamed "b", permRecordNamed "a"])])]

/-- C10 counterexample: the sorting pass that runs on every persist
(`sortPermissions`, called by `persistToFile`) leaves the group-permissions
list untouched, so a persisted permission list can remain out of order:
`"b"` stays before `"a"` although the comparator orders `"a"` first.  Only
the standard and named-user lists are sorted (lines 1056–1068). -/
theorem c10_group_list_left_unsorted :
    getPath (sortPermissionsU userConfigUnsortedGroups) GROUP_PERMISSIONS_KEYPATH
      = some (.list [permRecordNamed "b", permRecordNamed "a"]) ∧
    permissionVariantLessThan (permRecordNamed "a") (permRecordNamed "b") = true := by
  exact ⟨rfl, by decide⟩

/-- C10 amended: `sortPermissions` sorts exactly the standard-permissions
and named-user permission lists by `permissionVariantLessThan` (adjacent
entries are in comparator order), leaves the group-permissions and
group-forbiddens lists in map order, and the comparator orders primarily by
principal id, secondarily by rank name when both records carry one and the
ids match. -/
theorem c10_sort_amended :
    (∀ u : VMap, ∀ xs, getPath (sortPermissionsU u) AGENT_STANDARD_PERMISSIONS_KEYPATH
        = some (.list xs) → xs.Chain' sortedOrder) ∧
    (∀ u : VMap, ∀ xs, getPath (sortPermissionsU u) AGENT_PERMISSIONS_KEYPATH
        = some (.list xs) → xs.Chain' sortedOrder) ∧
    (∀ u : VMap, getPath (sortPermissionsU u) GROUP_PERMISSIONS_KEYPATH
        = getPath u GROUP_PERMISSIONS_KEYPATH) ∧
    (∀ u : VMap, getPath (sortPermissionsU u) GROUP_FORBIDDENS_KEYPATH
        = getPath u GROUP_FORBIDDENS_KEYPATH) ∧
    (∀ m1 m2 : VMap, acontains m1 "permissions_id" = true →
      acontains m2 "permissions_id" = true → permIdOf m1 ≠ permIdOf m2 →
      permissionVariantLessThan (.vmap m1) (.vmap m2)
        = qstrLess (permIdOf m1) (permIdOf m2)) ∧
    (∀ m1 m2 : VMap, acontains m1 "permissions_id" = true →
      acontains m2 "permissions_id" = true → acontains m1 "rank_name" = true →
      acontains m2 "rank_name" = true → permIdOf m1 = permIdOf m2 →
      permissionVariantLessThan (.vmap m1) (.vmap m2)
        = qstrLess (rankNameOf m1) (rankNameOf m2)) := by
  refine ⟨?_, ?_, ?_, ?_, ?_, ?_⟩
  · intro u xs hxs
    apply sortListAt_sorted_at (u := u) (a := "security") (b := "standard_permissions")
    rw [← hxs]
    unfold sortPermissionsU AGENT_STANDARD_PERMISSIONS_KEYPATH AGENT_PERMISSIONS_KEYPATH
    exact (getPath_sortListAt_ne _ _ _ _ _ (by simp)).symm
  · intro u xs hxs
    exact sortListAt_sorted_at (u := sortListAt u AGENT_STANDARD_PERMISSIONS_KEYPATH)
      (a := "security") (b := "permissions") hxs
  · intro u
    unfold sortPermissionsU AGENT_STANDARD_PERMISSIONS_KEYPATH
      AGENT_PERMISSIONS_KEYPATH GROUP_PERMISSIONS_KEYPATH
    rw [getPath_sortListAt_ne _ _ _ _ _ (by simp),
      getPath_sortListAt_ne _ _ _ _ _ (by simp)]
  · intro u
    unfold sortPermissionsU AGENT_STANDARD_PERMISSIONS_KEYPATH
      AGENT_PERMISSIONS_KEYPATH GROUP_FORBIDDENS_KEYPATH
    rw [getPath_sortListAt_ne _ _ _ _ _ (by simp),
      getPath_sortListAt_ne _ _ _ _ _ (by simp)]
  · intro m1 m2 h1 h2 hne
    simp only [permissionVariantLessThan, h1, h2, Bool.not_true, Bool.or_self,
      permIdOf] at hne ⊢
    simp [hne]
  · intro m1 m2 h1 h2 r1 r2 hid
    simp only [permissionVariantLessThan, h1, h2, r1, r2, Bool.not_true,
      Bool.or_self, permIdOf, rankNameOf] at hid ⊢
    simp [hid]

/-- Witness for C10's amended statement at concrete inputs. -/
theorem c10_sort_amended_witness :
    (∀ xs, getPath (sortPermissionsU userConfigUnsortedGroups)
        AGENT_STANDARD_PERMISSIONS_KEYPATH = some (.list xs) →
        xs.Chain' sortedOrder) ∧
    permissionVariantLessThan (permRecordNamed "a") (permRecordNamed "b")
      = qstrLess (permIdOf [("permissions_id", Variant.str "a")])
          (permIdOf [("permissions_id", Variant.str "b")]) := by
  constructor
  · exact c10_sort_amended.1 userConfigUnsortedGroups
  · exact c10_sort_amended.2.2.2.2.1 [("permissions_id", .str "a")]
      [("permissions_id", .str "b")] (by decide) (by decide) (by decide)

/-! ## Claim C1 — standard roles after unpack -/

/-- The key under which one stored standard-permissions record is filed
(lines 422–423: the lowercased id at rank 0). -/
def standardRecordKey (v : Variant) : NodePermissionsKey :=
  ((NodePermissions.fromMap v.toMapQ).id, (0 : Int))

theorem loadStandardEntry_contains (acc : PermMap × (Bool × Bool × Bool × Bool) × Bool)
    (v : Variant) (k : NodePermissionsKey) :
    acontains (loadStandardEntry acc v).1 k
      = (acontains acc.1 k || decide (standardRecordKey v = k)) := by
  unfold loadStandardEntry standardRecordKey
  by_cases hc : acontains acc.1 ((NodePermissions.fromMap v.toMapQ).id, (0 : Int)) <;>
    by_cases hk : ((NodePermissions.fromMap v.toMapQ).id, (0 : Int)) = k
  · simp [hc, acontains_aupdate, ← hk]
  · simp [hc, acontains_aupdate, hk]
  · simp [hc, acontains_ainsert, ← hk]
  · simp [hc, acontains_ainsert, hk]

theorem loadStandardEntry_flags (acc : PermMap × (Bool × Bool × Bool × Bool) × Bool)
    (v : Variant) :
    (loadStandardEntry acc v).2.1
      = (acc.2.1.1 || decide (standardRecordKey v = NodePermissions.standardNameLocalhost),
         acc.2.1.2.1 || decide (standardRecordKey v = NodePermissions.standardNameAnonymous),
         acc.2.1.2.2.1 || decide (standardRecordKey v = NodePermissions.standardNameLoggedIn),
         acc.2.1.2.2.2 || decide (standardRecordKey v = NodePermissions.standardNameFriends)) := by
  unfold loadStandardEntry standardRecordKey
  by_cases hc : acontains acc.1 ((NodePermissions.fromMap v.toMapQ).id, (0 : Int)) <;>
    simp [hc]

theorem loadStandard_fold_contains (L : List Variant)
    (acc : PermMap × (Bool × Bool × Bool × Bool) × Bool) (k : NodePermissionsKey) :
    acontains (L.foldl loadStandardEntry acc).1 k
      = (acontains acc.1 k || L.any (fun v => decide (standardRecordKey v = k))) := by
  induction L generalizing acc with
  | nil => simp
  | cons v t ih =>
    simp only [List.foldl_cons, List.any_cons]
    rw [ih, loadStandardEntry_contains]
    cases acontains acc.1 k <;> simp [Bool.or_assoc]

theorem loadStandard_fold_flags (L : List Variant)
    (acc : PermMap × (Bool × Bool × Bool × Bool) × Bool) :
    (L.foldl loadStandardEntry acc).2.1
      = (acc.2.1.1 || L.any (fun v => decide (standardRecordKey v = NodePermissions.standardNameLocalhost)),
         acc.2.1.2.1 || L.any (fun v => decide (standardRecordKey v = NodePermissions.standardNameAnonymous)),
         acc.2.1.2.2.1 || L.any (fun v => decide (standardRecordKey v = NodePermissions.standardNameLoggedIn)),
         acc.2.1.2.2.2 || L.any (fun v => decide (standardRecordKey v = NodePermissions.standardNameFriends))) := by
  induction L generalizing acc with
  | nil => simp
  | cons v t ih =>
    simp only [List.foldl_cons, List.any_cons]
    rw [ih, loadStandardEntry_flags]
    simp [Bool.or_assoc]

theorem loadGroupEntry_fold_std (L : List Variant) (acc : Mgr × Bool) :
    ((L.foldl loadGroupEntry acc).1.standardAgentPermissions,
     (L.foldl loadGroupEntry acc).1.agentPermissions)
      = (acc.1.standardAgentPermissions, acc.1.agentPermissions) := by
  induction L generalizing acc with
  | nil => rfl
  | cons v t ih =>
    rw [List.foldl_cons, ih]
    unfold loadGroupEntry setGroupIDFn
    by_cases hg : (NodePermissions.fromMap v.toMapQ).isGroup <;>
      by_cases hc : acontains acc.1.groupPermissions (NodePermissions.fromMap v.toMapQ).getKey <;>
      simp [hg, hc]

theorem loadForbiddenEntry_fold_std (L : List Variant) (acc : Mgr × Bool) :
    ((L.foldl loadForbiddenEntry acc).1.standardAgentPermissions,
     (L.foldl loadForbiddenEntry acc).1.agentPermissions)
      = (acc.1.standardAgentPermissions, acc.1.agentPermissions) := by
  induction L generalizing acc with
  | nil => rfl
  | cons v t ih =>
    rw [List.foldl_cons, ih]
    unfold loadForbiddenEntry setGroupIDFn
    by_cases hg : (NodePermissions.fromMap v.toMapQ).isGroup <;>
      by_cases hc : acontains acc.1.groupForbiddens (NodePermissions.fromMap v.toMapQ).getKey <;>
      simp [hg, hc]

theorem ensurePermissions_std (s : Mgr) :
    ((ensurePermissionsForGroupRanks s).1.standardAgentPermissions,
     (ensurePermissionsForGroupRanks s).1.agentPermissions)
      = (s.standardAgentPermissions, s.agentPermissions) := rfl

theorem packPermissions_std (s : Mgr) :
    ((packPermissions s).standardAgentPermissions,
     (packPermissions s).agentPermissions)
      = (s.standardAgentPermissions, s.agentPermissions) := rfl

theorem addMissingStandard_fst (m : PermMap) (np f : Bool) (p : NodePermissions) :
    (addMissingStandard m np f p).1 = if f then m else ainsert m p.getKey p := by
  unfold addMissingStandard
  by_cases hf : f = true <;> simp [hf]

theorem loadGroupEntry_fold_standard (L : List Variant) (acc : Mgr × Bool) :
    (L.foldl loadGroupEntry acc).1.standardAgentPermissions
      = acc.1.standardAgentPermissions :=
  congrArg Prod.fst (loadGroupEntry_fold_std L acc)

theorem loadForbiddenEntry_fold_standard (L : List Variant) (acc : Mgr × Bool) :
    (L.foldl loadForbiddenEntry acc).1.standardAgentPermissions
      = acc.1.standardAgentPermissions :=
  congrArg Prod.fst (loadForbiddenEntry_fold_std L acc)

theorem ensure_standard (s : Mgr) :
    (ensurePermissionsForGroupRanks s).1.standardAgentPermissions
      = s.standardAgentPermissions := rfl

theorem pack_standard (s : Mgr) :
    (packPermissions s).standardAgentPermissions = s.standardAgentPermissions := rfl

/-- The standard table of an unpacked state, written out as the parse fold
followed by the four conditional syntheses. -/
theorem unpack_standard_eq (s : Mgr) :
    (unpackPermissions s).standardAgentPermissions =
      (let r := (fetchListAt s.userConfig AGENT_STANDARD_PERMISSIONS_KEYPATH).2.foldl
         loadStandardEntry ([], (false, false, false, false), false)
       let pL := (NodePermissions.fromKey NodePermissions.standardNameLocalhost).setAll true
       let pA := NodePermissions.fromKey NodePermissions.standardNameAnonymous
       let pI := NodePermissions.fromKey NodePermissions.standardNameLoggedIn
       let pF := NodePermissions.fromKey NodePermissions.standardNameFriends
       let m1 := if r.2.1.1 then r.1 else ainsert r.1 pL.getKey pL
       let m2 := if r.2.1.2.1 then m1 else ainsert m1 pA.getKey pA
       let m3 := if r.2.1.2.2.1 then m2 else ainsert m2 pI.getKey pI
       if r.2.1.2.2.2 then m3 else ainsert m3 pF.getKey pF) := by
  simp only [unpackPermissions,
    apply_ite (fun m : Mgr => m.standardAgentPermissions), pack_standard,
    ite_self, ensure_standard, loadForbiddenEntry_fold_standard,
    loadGroupEntry_fold_standard, addMissingStandard_fst]

/-- C1 (amended): after every `unpackPermissions` the four standard role
keys exist in the standard table; and whenever the stored
standard-permissions list contained no record keyed `localhost`, the
synthesized localhost entry holds every capability.  (The original claim's
unconditional "localhost holds every capability" fails when the stored list
itself carries a weaker localhost record — see the counterexample.) -/
theorem c1_unpack_standard_roles (s : Mgr) :
    (acontains (unpackPermissions s).standardAgentPermissions
        NodePermissions.standardNameLocalhost = true ∧
     acontains (unpackPermissions s).standardAgentPermissions
        NodePermissions.standardNameAnonymous = true ∧
     acontains (unpackPermissions s).standardAgentPermissions
        NodePermissions.standardNameLoggedIn = true ∧
     acontains (unpackPermissions s).standardAgentPermissions
        NodePermissions.standardNameFriends = true) ∧
    ((∀ v ∈ (fetchListAt s.userConfig AGENT_STANDARD_PERMISSIONS_KEYPATH).2,
        standardRecordKey v ≠ NodePermissions.standardNameLocalhost) →
      ∀ bit ∈ [canConnectToDomain, canAdjustLocks, canRezPermanentEntities,
          canRezTemporaryEntities, canWriteToAssetServer, canConnectPastMaxCapacity],
        (getStandardPermissionsForName (unpackPermissions s)
          NodePermissions.standardNameLocalhost).can bit = true) := by
  have hstd := unpack_standard_eq s
  set L := (fetchListAt s.userConfig AGENT_STANDARD_PERMISSIONS_KEYPATH).2 with hLdef
  set r := L.foldl loadStandardEntry ([], (false, false, false, false), false) with hrdef
  have hfl := loadStandard_fold_flags L ([], (false, false, false, false), false)
  rw [← hrdef] at hfl
  simp only [Bool.false_or] at hfl
  have h1 : r.2.1.1 = L.any
      (fun v => decide (standardRecordKey v = NodePermissions.standardNameLocalhost)) := by
    rw [hfl]
  have h2 : r.2.1.2.1 = L.any
      (fun v => decide (standardRecordKey v = NodePermissions.standardNameAnonymous)) := by
    rw [hfl]
  have h3 : r.2.1.2.2.1 = L.any
      (fun v => decide (standardRecordKey v = NodePermissions.standardNameLoggedIn)) := by
    rw [hfl]
  have h4 : r.2.1.2.2.2 = L.any
      (fun v => decide (standardRecordKey v = NodePermissions.standardNameFriends)) := by
    rw [hfl]
  have hcont : ∀ k, acontains r.1 k
      = L.any (fun v => decide (standardRecordKey v = k)) := by
    intro k
    rw [hrdef, loadStandard_fold_contains]
    simp [acontains, alookup]
  have hkL : ((NodePermissions.fromKey NodePermissions.standardNameLocalhost).setAll
      true).getKey = NodePermissions.standardNameLocalhost := rfl
  have hkA : (NodePermissions.fromKey NodePermissions.standardNameAnonymous).getKey
      = NodePermissions.standardNameAnonymous := rfl
  have hkI : (NodePermissions.fromKey NodePermissions.standardNameLoggedIn).getKey
      = NodePermissions.standardNameLoggedIn := rfl
  have hkF : (NodePermissions.fromKey NodePermissions.standardNameFriends).getKey
      = NodePermissions.standardNameFriends := rfl
  have condStep : ∀ (m : PermMap) (f : Bool) (p : NodePermissions)
      (k : NodePermissionsKey),
      acontains (if f then m else ainsert m p.getKey p) k
        = (acontains m k || (!f && decide (p.getKey = k))) := by
    intro m f p k
    by_cases hf : f = true <;> simp [hf, acontains_ainsert]
  have lookStep : ∀ (m : PermMap) (f : Bool) (p : NodePermissions),
      p.getKey ≠ NodePermissions.standardNameLocalhost →
      alookup (if f then m else ainsert m p.getKey p)
          NodePermissions.standardNameLocalhost
        = alookup m NodePermissions.standardNameLocalhost := by
    intro m f p hne
    by_cases hf : f = true <;> simp [hf, alookup_ainsert_ne _ _ _ _ hne]
  constructor
  · rw [hstd]
    refine ⟨?_, ?_, ?_, ?_⟩ <;>
      (simp only [condStep]
       simp only [hkL, hkA, hkI, hkF, hcont, ← h1, ← h2, ← h3, ← h4]
       cases hb1 : r.2.1.1 <;> cases hb2 : r.2.1.2.1 <;>
         cases hb3 : r.2.1.2.2.1 <;> cases hb4 : r.2.1.2.2.2 <;> rfl)
  · intro hno bit hbit
    have hanyL : L.any (fun v => decide
        (standardRecordKey v = NodePermissions.standardNameLocalhost)) = false := by
      rw [List.any_eq_false]
      intro v hv
      simp [hno v hv]
    have hflagL : r.2.1.1 = false := by rw [h1, hanyL]
    have hlook : alookup (unpackPermissions s).standardAgentPermissions
        NodePermissions.standardNameLocalhost
        = some ((NodePermissions.fromKey NodePermissions.standardNameLocalhost).setAll
            true) := by
      rw [hstd]
      show alookup (if r.2.1.2.2.2 then _ else ainsert _ _ _) _ = _
      rw [lookStep _ _ _ (by rw [hkF]; decide),
        lookStep _ _ _ (by rw [hkI]; decide),
        lookStep _ _ _ (by rw [hkA]; decide)]
      simp only [hflagL, Bool.false_eq_true, if_false]
      rw [hkL]
      exact alookup_ainsert_self _ _ _
    unfold getStandardPermissionsForName
    rw [hlook]
    fin_cases hbit <;> rfl

/-- A stored standard-permissions record for `localhost` granting nothing,
for the C1 counterexample. -/
def weakLocalhostRecord : VMap :=
  [("permissions_id", .str "localhost"), ("id_can_connect", .bool false)]

/-- A manager whose stored standard list carries the weak localhost
record. -/
def mgrWeakLocalhost : Mgr :=
  { masterConfig := []
    userConfig :=
      [("security", .vmap [("standard_permissions", .list [.vmap weakLocalhostRecord])])]
    descriptionArray := [] }

/-- C1 counterexample: when the stored standard-permissions list itself
contains a `localhost` record with no capabilities, `unpackPermissions`
keeps that record as-is (the all-capabilities synthesis at lines 490–495
only runs when localhost was missing), so the unpacked localhost entry does
NOT hold every capability. -/
theorem c1_localhost_not_all_caps :
    (getStandardPermissionsForName (unpackPermissions mgrWeakLocalhost)
      NodePermissions.standardNameLocalhost).can canConnectToDomain = false := rfl

/-- An empty configuration for the C1 witness. -/
def mgrEmptyCfg : Mgr :=
  { masterConfig := [], userConfig := [], descriptionArray := [] }

/-- Witness for C1's amended statement at the empty configuration, whose
stored standard list is empty. -/
theorem c1_unpack_standard_roles_witness :
    (acontains (unpackPermissions mgrEmptyCfg).standardAgentPermissions
        NodePermissions.standardNameLocalhost = true ∧
     acontains (unpackPermissions mgrEmptyCfg).standardAgentPermissions
        NodePermissions.standardNameAnonymous = true ∧
     acontains (unpackPermissions mgrEmptyCfg).standardAgentPermissions
        NodePermissions.standardNameLoggedIn = true ∧
     acontains (unpackPermissions mgrEmptyCfg).standardAgentPermissions
        NodePermissions.standardNameFriends = true) ∧
    (∀ bit ∈ [canConnectToDomain, canAdjustLocks, canRezPermanentEntities,
        canRezTemporaryEntities, canWriteToAssetServer, canConnectPastMaxCapacity],
      (getStandardPermissionsForName (unpackPermissions mgrEmptyCfg)
        NodePermissions.standardNameLocalhost).can bit = true) :=
  ⟨(c1_unpack_standard_roles mgrEmptyCfg).1,
   (c1_unpack_standard_roles mgrEmptyCfg).2
     (fun v hv => absurd hv (List.not_mem_nil v))⟩

/-! ## Rank coverage (C9): lemmas about ensurePermissionsForGroupRanks -/

/-- A binding of `ainsert m k v` is a binding of `m` or the inserted pair. -/
theorem mem_ainsert {α β : Type} [DecidableEq α] {m : List (α × β)} {k : α}
    {v : β} {kv : α × β} (h : kv ∈ ainsert m k v) : kv ∈ m ∨ kv = (k, v) := by
  induction m with
  | nil =>
    simp only [ainsert, List.mem_singleton] at h
    exact Or.inr h
  | cons kv2 t ih =>
    obtain ⟨k2, v2⟩ := kv2
    by_cases h1 : k2 = k
    · simp only [ainsert, if_pos h1] at h
      rcases List.mem_cons.mp h with h2 | h2
      · subst h1
        exact Or.inr h2
      · exact Or.inl (List.mem_cons_of_mem _ h2)
    · simp only [ainsert, if_neg h1] at h
      rcases List.mem_cons.mp h with h2 | h2
      · exact Or.inl (by rw [h2]; exact List.mem_cons_self _ _)
      · rcases ih h2 with h3 | h3
        · exact Or.inl (List.mem_cons_of_mem _ h3)
        · exact Or.inr h3

/-- `ensureRankStep` when the (name, rank) entry already exists: the
permission map and the change flag are untouched, only the UUID index is
(re)pointed at the existing entry. -/
theorem ensureRankStep_of_found {n : String} {g : Nat}
    {acc : PermMap × PermUUIDMap × Bool} {i : Nat} {q : NodePermissions}
    (h : alookup acc.1 (n, (i : Int)) = some q) :
    ensureRankStep n g acc i
      = (acc.1, ainsert acc.2.1 (g, (i : Int)) (some q), acc.2.2) := by
  simp only [ensureRankStep, h]

/-- `ensureRankStep` when the (name, rank) entry is absent: an
empty-capability entry carrying the group UUID is inserted and the change
flag is raised. -/
theorem ensureRankStep_of_missing {n : String} {g : Nat}
    {acc : PermMap × PermUUIDMap × Bool} {i : Nat}
    (h : alookup acc.1 (n, (i : Int)) = none) :
    ensureRankStep n g acc i
      = (ainsert acc.1 (n, (i : Int))
           ((NodePermissions.fromKey (n, (i : Int))).setGroupID g),
         ainsert acc.2.1 (g, (i : Int))
           (some ((NodePermissions.fromKey (n, (i : Int))).setGroupID g)),
         true) := by
  simp only [ensureRankStep, h]

/-- `ensureRankStep` preserves every existing binding of the permission map. -/
theorem ensureRankStep_lookup_mono (n : String) (g : Nat)
    (acc : PermMap × PermUUIDMap × Bool) (i : Nat) (k : NodePermissionsKey)
    (p : NodePermissions) (h : alookup acc.1 k = some p) :
    alookup (ensureRankStep n g acc i).1 k = some p := by
  rcases hm : alookup acc.1 (n, (i : Int)) with _ | q
  · have hk : (n, (i : Int)) ≠ k := by
      intro he
      rw [he, h] at hm
      exact Option.noConfusion hm
    rw [ensureRankStep_of_missing hm]
    exact (alookup_ainsert_ne _ _ _ _ hk).trans h
  · rw [ensureRankStep_of_found hm]
    exact h

/-- `ensureRankStep` preserves key membership in the permission map. -/
theorem ensureRankStep_contains_mono (n : String) (g : Nat)
    (acc : PermMap × PermUUIDMap × Bool) (i : Nat) (k : NodePermissionsKey)
    (h : acontains acc.1 k = true) :
    acontains (ensureRankStep n g acc i).1 k = true := by
  rcases ho : alookup acc.1 k with _ | p
  · simp [acontains, ho] at h
  · simp [acontains, ensureRankStep_lookup_mono n g acc i k p ho]

/-- After `ensureRankStep` the (name, rank) key it targets is present. -/
theorem ensureRankStep_contains_self (n : String) (g : Nat)
    (acc : PermMap × PermUUIDMap × Bool) (i : Nat) :
    acontains (ensureRankStep n g acc i).1 (n, (i : Int)) = true := by
  rcases hm : alookup acc.1 (n, (i : Int)) with _ | q
  · rw [ensureRankStep_of_missing hm]
    simp [acontains, alookup_ainsert_self]
  · rw [ensureRankStep_of_found hm]
    simp [acontains, hm]

/-- When the targeted (name, rank) key is already covered, `ensureRankStep`
changes neither the permission map nor the change flag. -/
theorem ensureRankStep_of_covered (n : String) (g : Nat)
    (acc : PermMap × PermUUIDMap × Bool) (i : Nat)
    (h : acontains acc.1 (n, (i : Int)) = true) :
    (ensureRankStep n g acc i).1 = acc.1 ∧
    (ensureRankStep n g acc i).2.2 = acc.2.2 := by
  rcases hm : alookup acc.1 (n, (i : Int)) with _ | q
  · simp [acontains, hm] at h
  · rw [ensureRankStep_of_found hm]
    exact ⟨rfl, rfl⟩

/-- Every entry of the map produced by `ensureRankStep` was already present
or carries the processed group's UUID. -/
theorem ensureRankStep_mem (n : String) (g : Nat)
    (acc : PermMap × PermUUIDMap × Bool) (i : Nat)
    (kv : NodePermissionsKey × NodePermissions)
    (h : kv ∈ (ensureRankStep n g acc i).1) :
    kv ∈ acc.1 ∨ kv.2.groupID = g := by
  rcases hm : alookup acc.1 (n, (i : Int)) with _ | q
  · rw [ensureRankStep_of_missing hm] at h
    rcases mem_ainsert h with h2 | h2
    · exact Or.inl h2
    · exact Or.inr (by rw [h2]; rfl)
  · rw [ensureRankStep_of_found hm] at h
    exact Or.inl h

/-- `ensureRankStep` preserves the invariant "the key is absent or bound to
an entry without capability bits": synthesized entries carry none. -/
theorem ensureRankStep_empty_inv (n : String) (g : Nat)
    (acc : PermMap × PermUUIDMap × Bool) (i : Nat) (k : NodePermissionsKey)
    (h : alookup acc.1 k = none ∨
      ∃ p, alookup acc.1 k = some p ∧ p.permissions = 0) :
    alookup (ensureRankStep n g acc i).1 k = none ∨
    ∃ p, alookup (ensureRankStep n g acc i).1 k = some p ∧
      p.permissions = 0 := by
  rcases hm : alookup acc.1 (n, (i : Int)) with _ | q
  · rw [ensureRankStep_of_missing hm]
    by_cases hk : (n, (i : Int)) = k
    · subst hk
      exact Or.inr ⟨_, alookup_ainsert_self _ _ _, rfl⟩
    · rcases h with h | ⟨p, hp, hp0⟩
      · exact Or.inl ((alookup_ainsert_ne _ _ _ _ hk).trans h)
      · exact Or.inr ⟨p, (alookup_ainsert_ne _ _ _ _ hk).trans hp, hp0⟩
  · rw [ensureRankStep_of_found hm]
    exact h

/-- Folding `ensureRankStep` over any rank list preserves existing bindings. -/
theorem foldl_rankStep_lookup_mono (n : String) (g : Nat) (rs : List Nat) :
    ∀ (acc : PermMap × PermUUIDMap × Bool) (k : NodePermissionsKey)
      (p : NodePermissions), alookup acc.1 k = some p →
    alookup ((rs.foldl (ensureRankStep n g) acc)).1 k = some p := by
  induction rs with
  | nil => exact fun acc k p h => h
  | cons r t ih =>
    intro acc k p h
    rw [List.foldl_cons]
    exact ih _ k p (ensureRankStep_lookup_mono n g acc r k p h)

/-- Folding `ensureRankStep` preserves key membership. -/
theorem foldl_rankStep_contains_mono (n : String) (g : Nat) (rs : List Nat)
    (acc : PermMap × PermUUIDMap × Bool) (k : NodePermissionsKey)
    (h : acontains acc.1 k = true) :
    acontains ((rs.foldl (ensureRankStep n g) acc)).1 k = true := by
  rcases ho : alookup acc.1 k with _ | p
  · simp [acontains, ho] at h
  · simp [acontains, foldl_rankStep_lookup_mono n g rs acc k p ho]

/-- Every entry produced by a fold of `ensureRankStep` was already present
or carries the processed group's UUID. -/
theorem foldl_rankStep_mem (n : String) (g : Nat) (rs : List Nat) :
    ∀ (acc : PermMap × PermUUIDMap × Bool)
      (kv : NodePermissionsKey × NodePermissions),
    kv ∈ ((rs.foldl (ensureRankStep n g) acc)).1 →
    kv ∈ acc.1 ∨ kv.2.groupID = g := by
  induction rs with
  | nil => exact fun acc kv h => Or.inl h
  | cons r t ih =>
    intro acc kv h
    rw [List.foldl_cons] at h
    rcases ih _ kv h with h2 | h2
    · exact ensureRankStep_mem n g acc r kv h2
    · exact Or.inr h2

/-- A fold of `ensureRankStep` preserves the absent-or-capability-free
invariant of any key. -/
theorem foldl_rankStep_empty_inv (n : String) (g : Nat) (rs : List Nat) :
    ∀ (acc : PermMap × PermUUIDMap × Bool) (k : NodePermissionsKey),
    (alookup acc.1 k = none ∨
      ∃ p, alookup acc.1 k = some p ∧ p.permissions = 0) →
    (alookup ((rs.foldl (ensureRankStep n g) acc)).1 k = none ∨
      ∃ p, alookup ((rs.foldl (ensureRankStep n g) acc)).1 k = some p ∧
        p.permissions = 0) := by
  induction rs with
  | nil => exact fun acc k h => h
  | cons r t ih =>
    intro acc k h
    rw [List.foldl_cons]
    exact ih _ k (ensureRankStep_empty_inv n g acc r k h)

/-- After `ensureRanksForGroup` with rank count `c`, every rank below `c` has
an entry keyed (name, rank). -/
theorem ensureRanksForGroup_covers (n : String) (g : Nat) (i : Nat) :
    ∀ (c : Nat), i < c →
    ∀ acc : PermMap × PermUUIDMap × Bool,
    acontains (ensureRanksForGroup n g c acc).1 (n, (i : Int)) = true := by
  intro c
  induction c with
  | zero => intro hi; omega
  | succ c ih =>
    intro hi acc
    unfold ensureRanksForGroup
    rw [List.range_succ, List.foldl_append, List.foldl_cons, List.foldl_nil]
    rcases Nat.lt_succ_iff_lt_or_eq.mp hi with h | h
    · exact ensureRankStep_contains_mono n g _ c (n, (i : Int)) (ih h acc)
    · subst h
      exact ensureRankStep_contains_self n g _ i

/-- When every rank below `c` is already covered, `ensureRanksForGroup`
changes neither the permission map nor the change flag. -/
theorem ensureRanksForGroup_of_covered (n : String) (g : Nat) :
    ∀ (c : Nat) (acc : PermMap × PermUUIDMap × Bool),
    (∀ i : Nat, i < c → acontains acc.1 (n, (i : Int)) = true) →
    (ensureRanksForGroup n g c acc).1 = acc.1 ∧
    (ensureRanksForGroup n g c acc).2.2 = acc.2.2 := by
  intro c
  induction c with
  | zero => exact fun acc _ => ⟨rfl, rfl⟩
  | succ c ih =>
    intro acc h
    have ih2 := ih acc (fun i hi => h i (Nat.lt_succ_of_lt hi))
    unfold ensureRanksForGroup at ih2 ⊢
    rw [List.range_succ, List.foldl_append, List.foldl_cons, List.foldl_nil]
    have hc : acontains ((List.range c).foldl (ensureRankStep n g) acc).1
        (n, (c : Int)) = true := by
      rw [ih2.1]
      exact h c (Nat.lt_succ_self c)
    have hstep := ensureRankStep_of_covered n g
      ((List.range c).foldl (ensureRankStep n g) acc) c hc
    exact ⟨hstep.1.trans ih2.1, hstep.2.trans ih2.2⟩

/-- Folding `coverStep` over a group list preserves existing bindings. -/
theorem foldl_coverStep_lookup_mono (nm : List (Nat × String))
    (rk : List (Nat × List String)) (gids : List Nat) :
    ∀ (acc : PermMap × PermUUIDMap × Bool) (k : NodePermissionsKey)
      (p : NodePermissions), alookup acc.1 k = some p →
    alookup ((gids.foldl (coverStep nm rk) acc)).1 k = some p := by
  induction gids with
  | nil => exact fun acc k p h => h
  | cons gd t ih =>
    intro acc k p h
    rw [List.foldl_cons]
    exact ih _ k p (foldl_rankStep_lookup_mono ((alookup nm gd).getD "") gd
      (List.range ((alookup rk gd).getD []).length) acc k p h)

/-- Folding `coverStep` over a group list preserves key membership. -/
theorem foldl_coverStep_contains_mono (nm : List (Nat × String))
    (rk : List (Nat × List String)) (gids : List Nat)
    (acc : PermMap × PermUUIDMap × Bool) (k : NodePermissionsKey)
    (h : acontains acc.1 k = true) :
    acontains ((gids.foldl (coverStep nm rk) acc)).1 k = true := by
  rcases ho : alookup acc.1 k with _ | p
  · simp [acontains, ho] at h
  · simp [acontains, foldl_coverStep_lookup_mono nm rk gids acc k p ho]

/-- After folding `coverStep` over a group list, every known rank of every
listed group is covered. -/
theorem foldl_coverStep_covers (nm : List (Nat × String))
    (rk : List (Nat × List String)) (g : Nat) (i : Nat)
    (hi : i < ((alookup rk g).getD []).length) :
    ∀ (gids : List Nat), g ∈ gids →
    ∀ acc : PermMap × PermUUIDMap × Bool,
    acontains ((gids.foldl (coverStep nm rk) acc)).1
      ((alookup nm g).getD "", (i : Int)) = true := by
  intro gids
  induction gids with
  | nil => intro hg; exact absurd hg (List.not_mem_nil g)
  | cons gd t ih =>
    intro hg acc
    rw [List.foldl_cons]
    rcases List.mem_cons.mp hg with h2 | h2
    · subst h2
      exact foldl_coverStep_contains_mono nm rk t _ _
        (ensureRanksForGroup_covers ((alookup nm g).getD "") g i
          (((alookup rk g).getD []).length) hi acc)
    · exact ih h2 _

/-- When every known rank of every listed group is already covered, folding
`coverStep` changes neither the permission map nor the change flag. -/
theorem foldl_coverStep_of_covered (nm : List (Nat × String))
    (rk : List (Nat × List String)) :
    ∀ (gids : List Nat) (acc : PermMap × PermUUIDMap × Bool),
    (∀ g ∈ gids, ∀ i : Nat, i < ((alookup rk g).getD []).length →
      acontains acc.1 ((alookup nm g).getD "", (i : Int)) = true) →
    (gids.foldl (coverStep nm rk) acc).1 = acc.1 ∧
    (gids.foldl (coverStep nm rk) acc).2.2 = acc.2.2 := by
  intro gids
  induction gids with
  | nil => exact fun acc _ => ⟨rfl, rfl⟩
  | cons gd t ih =>
    intro acc h
    rw [List.foldl_cons]
    have h1 : (coverStep nm rk acc gd).1 = acc.1 ∧
        (coverStep nm rk acc gd).2.2 = acc.2.2 :=
      ensureRanksForGroup_of_covered ((alookup nm gd).getD "") gd
        (((alookup rk gd).getD []).length) acc (h gd (List.mem_cons_self gd t))
    have h2 := ih (coverStep nm rk acc gd) (fun g hgm i hi => by
      rw [h1.1]
      exact h g (List.mem_cons_of_mem gd hgm) i hi)
    exact ⟨h2.1.trans h1.1, h2.2.trans h1.2⟩

/-- Every entry produced by a fold of `coverStep` was already present or
carries the UUID of a listed group. -/
theorem foldl_coverStep_mem (nm : List (Nat × String))
    (rk : List (Nat × List String)) :
    ∀ (gids : List Nat) (acc : PermMap × PermUUIDMap × Bool)
      (kv : NodePermissionsKey × NodePermissions),
    kv ∈ ((gids.foldl (coverStep nm rk) acc)).1 →
    kv ∈ acc.1 ∨ kv.2.groupID ∈ gids := by
  intro gids
  induction gids with
  | nil => exact fun acc kv h => Or.inl h
  | cons gd t ih =>
    intro acc kv h
    rw [List.foldl_cons] at h
    rcases ih _ kv h with h2 | h2
    · rcases foldl_rankStep_mem ((alookup nm gd).getD "") gd
        (List.range ((alookup rk gd).getD []).length) acc kv h2 with h3 | h3
      · exact Or.inl h3
      · exact Or.inr (by rw [h3]; exact List.mem_cons_self gd t)
    · exact Or.inr (List.mem_cons_of_mem gd h2)

/-- A fold of `coverStep` preserves the absent-or-capability-free invariant
of any key. -/
theorem foldl_coverStep_empty_inv (nm : List (Nat × String))
    (rk : List (Nat × List String)) :
    ∀ (gids : List Nat) (acc : PermMap × PermUUIDMap × Bool)
      (k : NodePermissionsKey),
    (alookup acc.1 k = none ∨
      ∃ p, alookup acc.1 k = some p ∧ p.permissions = 0) →
    (alookup ((gids.foldl (coverStep nm rk) acc)).1 k = none ∨
      ∃ p, alookup ((gids.foldl (coverStep nm rk) acc)).1 k = some p ∧
        p.permissions = 0) := by
  intro gids
  induction gids with
  | nil => exact fun acc k h => h
  | cons gd t ih =>
    intro acc k h
    rw [List.foldl_cons]
    exact ih _ k (foldl_rankStep_empty_inv ((alookup nm gd).getD "") gd
      (List.range ((alookup rk gd).getD []).length) acc k h)

/-- Membership in the fold underlying `dedupKeepFirst`. -/
theorem mem_dedupKeepFirst_aux (l : List Nat) :
    ∀ (acc : List Nat) (a : Nat),
    (a ∈ l.foldl (fun acc x => if x ∈ acc then acc else acc ++ [x]) acc) ↔
      a ∈ acc ∨ a ∈ l := by
  induction l with
  | nil =>
    intro acc a
    simp
  | cons x t ih =>
    intro acc a
    rw [List.foldl_cons]
    by_cases hx : x ∈ acc
    · rw [if_pos hx, ih]
      constructor
      · rintro (h | h)
        · exact Or.inl h
        · exact Or.inr (List.mem_cons_of_mem x h)
      · rintro (h | h)
        · exact Or.inl h
        · rcases List.mem_cons.mp h with h2 | h2
          · exact Or.inl (by rw [h2]; exact hx)
          · exact Or.inr h2
    · rw [if_neg hx, ih]
      constructor
      · rintro (h | h)
        · rcases List.mem_append.mp h with h2 | h2
          · exact Or.inl h2
          · have h3 := List.mem_singleton.mp h2
            exact Or.inr (by rw [h3]; exact List.mem_cons_self x t)
        · exact Or.inr (List.mem_cons_of_mem x h)
      · rintro (h | h)
        · exact Or.inl (List.mem_append.mpr (Or.inl h))
        · rcases List.mem_cons.mp h with h2 | h2
          · exact Or.inl (List.mem_append.mpr (Or.inr
              (by rw [h2]; exact List.mem_singleton.mpr rfl)))
          · exact Or.inr h2

/-- `dedupKeepFirst` keeps exactly the members of its input. -/
theorem mem_dedupKeepFirst (l : List Nat) (a : Nat) :
    a ∈ dedupKeepFirst l ↔ a ∈ l := by
  rw [dedupKeepFirst, mem_dedupKeepFirst_aux]
  simp

/-- A UUID is reported by `getGroupIDsOf` exactly when some entry of the map
is a group entry carrying it. -/
theorem mem_getGroupIDsOf {m : PermMap} {g : Nat} :
    g ∈ getGroupIDsOf m ↔
      ∃ kv ∈ m, kv.2.isGroup = true ∧ kv.2.groupID = g := by
  rw [getGroupIDsOf, mem_dedupKeepFirst, List.mem_filterMap]
  constructor
  · rintro ⟨kv, hm, hf⟩
    cases hg : kv.2.isGroup with
    | false => simp [hg] at hf
    | true =>
      simp only [hg, if_true, Option.some.injEq] at hf
      exact ⟨kv, hm, hg, hf⟩
  · rintro ⟨kv, hm, hg, hgid⟩
    exact ⟨kv, hm, by simp [hg, hgid]⟩

/-- The group UUIDs visible after `ensureCoverage` were already visible in
the input map or were among the covered UUIDs. -/
theorem ensureCoverage_gids_subset (nm : List (Nat × String))
    (rk : List (Nat × List String)) (gids : List Nat) (m : PermMap)
    (b : PermUUIDMap) (g2 : Nat)
    (h : g2 ∈ getGroupIDsOf (ensureCoverage nm rk gids m b).1) :
    g2 ∈ getGroupIDsOf m ∨ g2 ∈ gids := by
  rcases mem_getGroupIDsOf.mp h with ⟨kv, hmem, hgrp, hgid⟩
  rcases foldl_coverStep_mem nm rk gids (m, b, false) kv hmem with h2 | h2
  · exact Or.inl (mem_getGroupIDsOf.mpr ⟨kv, h2, hgrp, hgid⟩)
  · exact Or.inr (hgid ▸ h2)

/-- Re-running `ensureCoverage` over the UUIDs visible in its own output
reports no change. -/
theorem ensureCoverage_idem_snd (nm : List (Nat × String))
    (rk : List (Nat × List String)) (m : PermMap) (b b2 : PermUUIDMap) :
    (ensureCoverage nm rk
      (getGroupIDsOf (ensureCoverage nm rk (getGroupIDsOf m) m b).1)
      (ensureCoverage nm rk (getGroupIDsOf m) m b).1 b2).2.2 = false := by
  have hcov : ∀ g ∈ getGroupIDsOf
        (ensureCoverage nm rk (getGroupIDsOf m) m b).1,
      ∀ i : Nat, i < ((alookup rk g).getD []).length →
      acontains (ensureCoverage nm rk (getGroupIDsOf m) m b).1
        ((alookup nm g).getD "", (i : Int)) = true := by
    intro g hg i hi
    have hg1 : g ∈ getGroupIDsOf m := by
      rcases ensureCoverage_gids_subset nm rk (getGroupIDsOf m) m b g hg
        with h | h
      · exact h
      · exact h
    exact foldl_coverStep_covers nm rk g i hi (getGroupIDsOf m) hg1
      (m, b, false)
  exact (foldl_coverStep_of_covered nm rk
    (getGroupIDsOf (ensureCoverage nm rk (getGroupIDsOf m) m b).1)
    ((ensureCoverage nm rk (getGroupIDsOf m) m b).1, b2, false) hcov).2

/-- C9: after `ensurePermissionsForGroupRanks`, every group UUID observed in
the group-permission (resp. group-forbidden) table has, for every known rank
of that group, an entry keyed (group name, rank) in that table — an entry
carrying no capability bits whenever that key was previously absent — and an
immediately repeated call reports no change (`false`). -/
theorem c9_rank_coverage_idempotent (s : Mgr) :
    (∀ gid ∈ getGroupIDsOf s.groupPermissions,
      ∀ i : Nat, i < ((alookup s.groupRanks gid).getD []).length →
        acontains (ensurePermissionsForGroupRanks s).1.groupPermissions
          ((alookup s.groupNames gid).getD "", (i : Int)) = true ∧
        (alookup s.groupPermissions
            ((alookup s.groupNames gid).getD "", (i : Int)) = none →
          ∃ p, alookup (ensurePermissionsForGroupRanks s).1.groupPermissions
              ((alookup s.groupNames gid).getD "", (i : Int)) = some p ∧
            p.permissions = 0)) ∧
    (∀ gid ∈ getGroupIDsOf s.groupForbiddens,
      ∀ i : Nat, i < ((alookup s.groupRanks gid).getD []).length →
        acontains (ensurePermissionsForGroupRanks s).1.groupForbiddens
          ((alookup s.groupNames gid).getD "", (i : Int)) = true ∧
        (alookup s.groupForbiddens
            ((alookup s.groupNames gid).getD "", (i : Int)) = none →
          ∃ p, alookup (ensurePermissionsForGroupRanks s).1.groupForbiddens
              ((alookup s.groupNames gid).getD "", (i : Int)) = some p ∧
            p.permissions = 0)) ∧
    (ensurePermissionsForGroupRanks ((ensurePermissionsForGroupRanks s).1)).2
      = false := by
  refine ⟨?_, ?_, ?_⟩
  · intro gid hg i hi
    refine ⟨?_, ?_⟩
    · exact foldl_coverStep_covers s.groupNames s.groupRanks gid i hi
        (getGroupIDsOf s.groupPermissions) hg
        (s.groupPermissions, s.groupPermissionsByUUID, false)
    · intro hnone
      have hinv := foldl_coverStep_empty_inv s.groupNames s.groupRanks
        (getGroupIDsOf s.groupPermissions)
        (s.groupPermissions, s.groupPermissionsByUUID, false)
        ((alookup s.groupNames gid).getD "", (i : Int)) (Or.inl hnone)
      have hcov := foldl_coverStep_covers s.groupNames s.groupRanks gid i hi
        (getGroupIDsOf s.groupPermissions) hg
        (s.groupPermissions, s.groupPermissionsByUUID, false)
      rcases hinv with h | h
      · unfold acontains at hcov
        rw [h] at hcov
        simp at hcov
      · exact h
  · intro gid hg i hi
    refine ⟨?_, ?_⟩
    · exact foldl_coverStep_covers s.groupNames s.groupRanks gid i hi
        (getGroupIDsOf s.groupForbiddens) hg
        (s.groupForbiddens, s.groupForbiddensByUUID, false)
    · intro hnone
      have hinv := foldl_coverStep_empty_inv s.groupNames s.groupRanks
        (getGroupIDsOf s.groupForbiddens)
        (s.groupForbiddens, s.groupForbiddensByUUID, false)
        ((alookup s.groupNames gid).getD "", (i : Int)) (Or.inl hnone)
      have hcov := foldl_coverStep_covers s.groupNames s.groupRanks gid i hi
        (getGroupIDsOf s.groupForbiddens) hg
        (s.groupForbiddens, s.groupForbiddensByUUID, false)
      rcases hinv with h | h
      · unfold acontains at hcov
        rw [h] at hcov
        simp at hcov
      · exact h
  · have e1 : (ensurePermissionsForGroupRanks
        ((ensurePermissionsForGroupRanks s).1)).2
        = ((ensureCoverage s.groupNames s.groupRanks
            (getGroupIDsOf (ensureCoverage s.groupNames s.groupRanks
              (getGroupIDsOf s.groupPermissions) s.groupPermissions
              s.groupPermissionsByUUID).1)
            (ensureCoverage s.groupNames s.groupRanks
              (getGroupIDsOf s.groupPermissions) s.groupPermissions
              s.groupPermissionsByUUID).1
            (ensureCoverage s.groupNames s.groupRanks
              (getGroupIDsOf s.groupPermissions) s.groupPermissions
              s.groupPermissionsByUUID).2.1).2.2
          || (ensureCoverage s.groupNames s.groupRanks
            (getGroupIDsOf (ensureCoverage s.groupNames s.groupRanks
              (getGroupIDsOf s.groupForbiddens) s.groupForbiddens
              s.groupForbiddensByUUID).1)
            (ensureCoverage s.groupNames s.groupRanks
              (getGroupIDsOf s.groupForbiddens) s.groupForbiddens
              s.groupForbiddensByUUID).1
            (ensureCoverage s.groupNames s.groupRanks
              (getGroupIDsOf s.groupForbiddens) s.groupForbiddens
              s.groupForbiddensByUUID).2.1).2.2) := rfl
    rw [e1, ensureCoverage_idem_snd, ensureCoverage_idem_snd]
    rfl

/-- A state whose group-permission table knows group "pilots" (UUID 9) at
rank 0 only, while the rank cache reports two ranks for that group. -/
def mgrPilots : Mgr :=
  { masterConfig := [], userConfig := [], descriptionArray := []
    groupPermissions := [(("pilots", 0),
      { id := "pilots", groupID := 9, groupIDSet := true, rank := 0,
        permissions := 2 })]
    groupNames := [(9, "pilots")]
    groupRanks := [(9, ["captain", "copilot"])] }

/-- Witness for C9 at the "pilots" state: rank 1 was absent, is covered after
the call by a capability-free entry, and the second call reports no change. -/
theorem c9_rank_coverage_idempotent_witness :
    ((9 : Nat) ∈ getGroupIDsOf mgrPilots.groupPermissions ∧
      (1 : Nat) < ((alookup mgrPilots.groupRanks 9).getD []).length ∧
      alookup mgrPilots.groupPermissions
        ((alookup mgrPilots.groupNames 9).getD "", ((1 : Nat) : Int))
        = none) ∧
    acontains (ensurePermissionsForGroupRanks mgrPilots).1.groupPermissions
      ((alookup mgrPilots.groupNames 9).getD "", ((1 : Nat) : Int)) = true ∧
    (∃ p, alookup
        (ensurePermissionsForGroupRanks mgrPilots).1.groupPermissions
        ((alookup mgrPilots.groupNames 9).getD "", ((1 : Nat) : Int))
        = some p ∧ p.permissions = 0) ∧
    (ensurePermissionsForGroupRanks
      ((ensurePermissionsForGroupRanks mgrPilots).1)).2 = false := by
  have h := c9_rank_coverage_idempotent mgrPilots
  have h9 : (9 : Nat) ∈ getGroupIDsOf mgrPilots.groupPermissions := by decide
  have h1 : (1 : Nat) < ((alookup mgrPilots.groupRanks 9).getD []).length := by
    decide
  have hn : alookup mgrPilots.groupPermissions
      ((alookup mgrPilots.groupNames 9).getD "", ((1 : Nat) : Int))
      = none := rfl
  exact ⟨⟨h9, h1, hn⟩, (h.1 9 h9 1 h1).1, (h.1 9 h9 1 h1).2 hn, h.2.2⟩

/-! ## Restart signalling (C7) -/

/-- Refinement definition following the spec's words: a posted root entry
performs a successful update outside the distinguished `"security"` group
when its root key differs from `"security"` and either the key names a
description group of which some posted child matches a declared setting, or
the key itself matches a declared root-level setting. -/
def postsUpdateOutsideSecurity (descriptionArray : List Variant)
    (rootKey : String) (rootValue : Variant) : Bool :=
  decide (rootKey ≠ "security") &&
    (if (groupDescriptionFor descriptionArray rootKey).isEmpty then
      !(rootSettingDescriptionFor descriptionArray rootKey).isEmpty
    else
      (rootValue.toMapQ).any (fun kv =>
        !(settingDescriptionOf (groupDescriptionFor descriptionArray rootKey)
            kv.1).isEmpty))

/-- Refinement definition following the spec's words: a posted document
requires a restart when some posted setting it successfully applies belongs
to a group other than `"security"`. -/
def restartRequiredSpec (descriptionArray : List Variant) (doc : VMap) : Bool :=
  doc.any (fun kv => postsUpdateOutsideSecurity descriptionArray kv.1 kv.2)

/-- The change flag of the group settings loop: raised exactly when some
posted child matches a declared setting and the root key is not
`"security"`. -/
theorem applyGroupSettings_snd (g : VMap) (k : String)
    (kvs : List (String × Variant)) :
    ∀ acc : VMap × Bool,
    (applyGroupSettings g k kvs acc).2
      = (acc.2 || (kvs.any (fun kv => !(settingDescriptionOf g kv.1).isEmpty)
          && decide (k ≠ "security"))) := by
  induction kvs with
  | nil =>
    intro acc
    simp [applyGroupSettings]
  | cons kv t ih =>
    intro acc
    have he : applyGroupSettings g k (kv :: t) acc
        = applyGroupSettings g k t
            (if !(settingDescriptionOf g kv.1).isEmpty then
              (updateSetting kv.1 kv.2 acc.1 (settingDescriptionOf g kv.1),
               acc.2 || k ≠ "security")
            else acc) := rfl
    rw [he, ih, List.any_cons]
    cases hd : (settingDescriptionOf g kv.1).isEmpty with
    | false =>
      simp only [hd, Bool.not_false, if_true]
      cases acc.2 <;> cases hs : decide (k ≠ "security") <;>
        cases ht : t.any (fun kv => !(settingDescriptionOf g kv.1).isEmpty) <;>
          simp
    | true =>
      simp [hd]

/-- The restart flag after one root key: the incoming flag, or the root
entry posts an update outside `"security"`. -/
theorem processRootKey_snd (descriptionArray : List Variant) (acc : VMap × Bool)
    (rootKey : String) (rootValue : Variant) :
    (processRootKey descriptionArray acc rootKey rootValue).2
      = (acc.2 || postsUpdateOutsideSecurity descriptionArray rootKey rootValue) := by
  cases hge : (groupDescriptionFor descriptionArray rootKey).isEmpty with
  | true =>
    cases hrs : (rootSettingDescriptionFor descriptionArray rootKey).isEmpty with
    | true =>
      simp [processRootKey, postsUpdateOutsideSecurity, hge, hrs,
        apply_ite (fun p : VMap × Bool => p.2), ite_self]
    | false =>
      simp [processRootKey, postsUpdateOutsideSecurity, hge, hrs,
        apply_ite (fun p : VMap × Bool => p.2), ite_self, Bool.or_comm]
  | false =>
    simp [processRootKey, postsUpdateOutsideSecurity, hge,
      apply_ite (fun p : VMap × Bool => p.2), ite_self,
      applyGroupSettings_snd, Bool.and_comm]

/-- Folding `processRootKey` accumulates exactly the per-root-key flags. -/
theorem foldl_processRootKey_snd (descriptionArray : List Variant) (doc : VMap) :
    ∀ acc : VMap × Bool,
    ((doc.foldl (fun a kv => processRootKey descriptionArray a kv.1 kv.2) acc).2)
      = (acc.2 || doc.any (fun kv =>
          postsUpdateOutsideSecurity descriptionArray kv.1 kv.2)) := by
  induction doc with
  | nil =>
    intro acc
    simp
  | cons kv t ih =>
    intro acc
    simp only [List.foldl_cons]
    rw [ih, processRootKey_snd, List.any_cons, Bool.or_assoc]

/-- The restart flag returned by the document walk equals the spec's
characterization, independently of the settings map the walk starts from. -/
theorem recurseJSON_snd (descriptionArray : List Variant) (doc u : VMap) :
    (recurseJSONObjectAndOverwriteSettings descriptionArray doc u).2
      = restartRequiredSpec descriptionArray doc := by
  unfold recurseJSONObjectAndOverwriteSettings restartRequiredSpec
  rw [foldl_processRootKey_snd]
  rfl

/-- C7: the document walk reports a needed restart exactly when some
successfully applied setting lies outside the `"security"` group; the POST
handler then schedules a restart exactly in that case, and otherwise
immediately re-unpacks the permissions (no restart) on the persisted state. -/
theorem c7_security_updates_skip_restart (descriptionArray : List Variant)
    (doc u : VMap) (s : Mgr) :
    ((recurseJSONObjectAndOverwriteSettings descriptionArray doc u).2
      = restartRequiredSpec descriptionArray doc) ∧
    (restartRequiredSpec s.descriptionArray doc = true →
      (handleSettingsPost s doc).2 = PostSettingsAction.scheduleRestart) ∧
    (restartRequiredSpec s.descriptionArray doc = false →
      (handleSettingsPost s doc).2 = PostSettingsAction.unpackAndNotify ∧
      (handleSettingsPost s doc).1
        = unpackPermissions (persistToFile { s with userConfig :=
            (recurseJSONObjectAndOverwriteSettings s.descriptionArray doc
              s.userConfig).1 })) := by
  refine ⟨recurseJSON_snd descriptionArray doc u, ?_, ?_⟩
  · intro h
    have h2 : (recurseJSONObjectAndOverwriteSettings s.descriptionArray doc
        s.userConfig).2 = true := by
      rw [recurseJSON_snd]
      exact h
    simp [handleSettingsPost, h2]
  · intro h
    have h2 : (recurseJSONObjectAndOverwriteSettings s.descriptionArray doc
        s.userConfig).2 = false := by
      rw [recurseJSON_snd]
      exact h
    exact ⟨by simp [handleSettingsPost, h2], by simp [handleSettingsPost, h2]⟩

/-- A description schema with a "security" group (one checkbox setting) and
an "env" group (one string setting), for the C7 witness. -/
def c7Desc : List Variant :=
  [ .vmap [("name", .str "security"),
      ("settings", .list
        [ .vmap [("name", .str "restricted_access"),
                 ("type", .str "checkbox")] ])],
    .vmap [("name", .str "env"),
      ("settings", .list
        [ .vmap [("name", .str "bg"), ("type", .str "string")] ])] ]

/-- Manager state carrying the C7 witness schema. -/
def mgrC7 : Mgr :=
  { masterConfig := [], userConfig := [], descriptionArray := c7Desc }

/-- A posted document touching only the "env" group. -/
def c7DocEnv : VMap := [("env", .vmap [("bg", .str "x")])]

/-- A posted document touching only the "security" group. -/
def c7DocSecurity : VMap :=
  [("security", .vmap [("restricted_access", .bool true)])]

/-- Witness for C7: an "env" update requires a restart and the handler
schedules one; a "security"-only update requires none and the handler
immediately unpacks and notifies. -/
theorem c7_security_updates_skip_restart_witness :
    (restartRequiredSpec mgrC7.descriptionArray c7DocEnv = true ∧
      (handleSettingsPost mgrC7 c7DocEnv).2
        = PostSettingsAction.scheduleRestart) ∧
    (restartRequiredSpec mgrC7.descriptionArray c7DocSecurity = false ∧
      (handleSettingsPost mgrC7 c7DocSecurity).2
        = PostSettingsAction.unpackAndNotify) :=
  ⟨⟨rfl,
    (c7_security_updates_skip_restart mgrC7.descriptionArray c7DocEnv []
      mgrC7).2.1 rfl⟩,
   ⟨rfl,
    ((c7_security_updates_skip_restart mgrC7.descriptionArray c7DocSecurity []
      mgrC7).2.2 rfl).1⟩⟩

/-! ## The legacy allow-list migration scenario (C5) -/

/-- A stored configuration at schema version 0.0: a legacy allow-list with
the single name "someone", the restricted-access flag unset, no master
config and no description. -/
def mgrC5 : Mgr :=
  { masterConfig := []
    userConfig := [("security",
      .vmap [("allowed_users", .list [.str "someone"])])]
    descriptionArray := [] }

/-- From stored version 0.0 to target 1.5, every version gate of
`setupConfigMap` opens: the five migration steps all run, in order, followed
by the final unpack. -/
theorem setupConfigMap_zero_to_15 (off : Rat) (s : Mgr) :
    setupConfigMap 0 1.5 off s
      = unpackPermissions (validateDescriptorsMap off
          (migrationStep14 (migrationStep12 (migrationStep11
            (migrationStep10 s))))) := by
  simp only [setupConfigMap]
  rw [if_pos (by norm_num : (0 : Rat) ≠ 1.5),
      if_pos (by norm_num : (0 : Rat) < 1),
      if_pos (by norm_num : (0 : Rat) < 1.1),
      if_pos (by norm_num : (0 : Rat) < 1.2),
      if_pos (by norm_num : (0 : Rat) < 1.4),
      if_pos (by norm_num : (0 : Rat) < 1.5)]

/-- C5: running the full migration from stored version 0.0 to target 1.5 on
the legacy allow-list state leaves "someone" with the connect capability,
forces `security.restricted_access` to true in the stored user config, and
leaves every non-localhost standard role (anonymous, logged-in, friends)
without the connect capability. -/
theorem c5_legacy_allowlist_migration :
    (getPermissionsForName (setupConfigMap 0 1.5 0 mgrC5) "someone").can
        canConnectToDomain = true ∧
    getPath (setupConfigMap 0 1.5 0 mgrC5).userConfig
        RESTRICTED_ACCESS_SETTINGS_KEYPATH
      = some (.bool true) ∧
    (getStandardPermissionsForName (setupConfigMap 0 1.5 0 mgrC5)
        NodePermissions.standardNameAnonymous).can canConnectToDomain = false ∧
    (getStandardPermissionsForName (setupConfigMap 0 1.5 0 mgrC5)
        NodePermissions.standardNameLoggedIn).can canConnectToDomain = false ∧
    (getStandardPermissionsForName (setupConfigMap 0 1.5 0 mgrC5)
        NodePermissions.standardNameFriends).can canConnectToDomain = false := by
  rw [setupConfigMap_zero_to_15]
  exact ⟨rfl, rfl, rfl, rfl, rfl⟩

/-! ## Migration idempotence (C3): security-submap lemmas -/

/-- `packPermissionsForMap` on a config whose `"security"` entry is a map:
an in-place insert into that submap. -/
theorem packPermissionsForMap_sec (r : List (Nat × List String)) (T : PermMap)
    (k : String) (u x : VMap) (h : alookup u "security" = some (.vmap x)) :
    packPermissionsForMap r T ["security", k] u
      = ainsert u "security" (.vmap (ainsert x k (.list (packElems r T)))) := by
  simp only [packPermissionsForMap, setKeyPath, h]

/-- `sortListAt` under `"security"` on a freshly inserted security submap
holding a list at the key: an in-place sorted re-insert. -/
theorem sortListAt_sec_list (u x : VMap) (k : String) (e : List Variant)
    (hx : alookup x k = some (.list e)) :
    sortListAt (ainsert u "security" (.vmap x)) ["security", k]
      = ainsert u "security"
          (.vmap (ainsert x k (.list (sortPermissionList e)))) := by
  have hg : getPath (ainsert u "security" (.vmap x)) ["security", k]
      = some (.list e) := by
    simp [getPath, vGetPath, alookup_ainsert_self, hx]
  simp only [sortListAt, hg, Variant.canConvertListQ, if_true, Variant.toListQ,
    setKeyPath, alookup_ainsert_self, ainsert_collapse]

/-- Abbreviation for the security submap after the four record lists are
written in place by `packPermissions`. -/
def secPack4 (x : VMap) (l1 l2 l3 l4 : List Variant) : VMap :=
  ainsert (ainsert (ainsert (ainsert x "standard_permissions" (.list l1))
    "permissions" (.list l2)) "group_permissions" (.list l3))
    "group_forbiddens" (.list l4)

/-- Abbreviation for the security submap after one full pack-and-sort cycle:
the four record lists written in place, then the two sorted lists
re-inserted by `sortPermissions`. -/
def secPackChain (x : VMap) (l1 l2 l3 l4 : List Variant) : VMap :=
  ainsert (ainsert (secPack4 x l1 l2 l3 l4)
    "standard_permissions" (.list (sortPermissionList l1)))
    "permissions" (.list (sortPermissionList l2))

theorem lookup_secPack4_sp (x : VMap) (l1 l2 l3 l4 : List Variant) :
    alookup (secPack4 x l1 l2 l3 l4) "standard_permissions"
      = some (.list l1) := by
  simp only [secPack4]
  rw [alookup_ainsert_ne _ "group_forbiddens" "standard_permissions" _ (by decide),
      alookup_ainsert_ne _ "group_permissions" "standard_permissions" _ (by decide),
      alookup_ainsert_ne _ "permissions" "standard_permissions" _ (by decide),
      alookup_ainsert_self]

theorem lookup_secPack4_pp (x : VMap) (l1 l2 l3 l4 : List Variant) :
    alookup (secPack4 x l1 l2 l3 l4) "permissions" = some (.list l2) := by
  simp only [secPack4]
  rw [alookup_ainsert_ne _ "group_forbiddens" "permissions" _ (by decide),
      alookup_ainsert_ne _ "group_permissions" "permissions" _ (by decide),
      alookup_ainsert_self]

theorem lookup_secPack4_gp (x : VMap) (l1 l2 l3 l4 : List Variant) :
    alookup (secPack4 x l1 l2 l3 l4) "group_permissions"
      = some (.list l3) := by
  simp only [secPack4]
  rw [alookup_ainsert_ne _ "group_forbiddens" "group_permissions" _ (by decide),
      alookup_ainsert_self]

theorem lookup_secPack4_gf (x : VMap) (l1 l2 l3 l4 : List Variant) :
    alookup (secPack4 x l1 l2 l3 l4) "group_forbiddens"
      = some (.list l4) := by
  simp only [secPack4]
  rw [alookup_ainsert_self]

/-- Keys other than the four permission-list keys read through a
pack-and-sort cycle of the security submap. -/
theorem lookup_secPackChain_ne (x : VMap) (l1 l2 l3 l4 : List Variant)
    (key : String)
    (k1 : "standard_permissions" ≠ key) (k2 : "permissions" ≠ key)
    (k3 : "group_permissions" ≠ key) (k4 : "group_forbiddens" ≠ key) :
    alookup (secPackChain x l1 l2 l3 l4) key = alookup x key := by
  simp only [secPackChain, secPack4]
  rw [alookup_ainsert_ne _ _ _ _ k2, alookup_ainsert_ne _ _ _ _ k1,
      alookup_ainsert_ne _ _ _ _ k4, alookup_ainsert_ne _ _ _ _ k3,
      alookup_ainsert_ne _ _ _ _ k2, alookup_ainsert_ne _ _ _ _ k1]

/-- Overwriting a key that sits two inserts down restores it in place. -/
theorem ainsert_restore {α β : Type} [DecidableEq α] (m : List (α × β))
    (k k2 : α) (v w w2 : β) (hne : k ≠ k2) (hv : alookup m k = some v) :
    ainsert (ainsert (ainsert m k w) k2 w2) k v = ainsert m k2 w2 := by
  rw [ainsert_comm_of_contains (ainsert m k w) k2 k w2 v (Ne.symm hne)
      (Or.inr (by simp [acontains, alookup_ainsert_self])),
    ainsert_collapse, ainsert_lookup_self hv]

/-- `packPermissions`' user-config transformation on a config whose
`"security"` entry is a map. -/
theorem pack4sort2_sec (u x : VMap)
    (r1 r2 r3 r4 : List (Nat × List String)) (T1 T2 T3 T4 : PermMap)
    (h : alookup u "security" = some (.vmap x)) :
    sortPermissionsU
      (packPermissionsForMap r4 T4 GROUP_FORBIDDENS_KEYPATH
        (packPermissionsForMap r3 T3 GROUP_PERMISSIONS_KEYPATH
          (packPermissionsForMap r2 T2 AGENT_PERMISSIONS_KEYPATH
            (packPermissionsForMap r1 T1
              AGENT_STANDARD_PERMISSIONS_KEYPATH u))))
      = ainsert u "security" (.vmap (secPackChain x (packElems r1 T1)
          (packElems r2 T2) (packElems r3 T3) (packElems r4 T4))) := by
  simp only [sortPermissionsU, AGENT_STANDARD_PERMISSIONS_KEYPATH,
    AGENT_PERMISSIONS_KEYPATH, GROUP_PERMISSIONS_KEYPATH,
    GROUP_FORBIDDENS_KEYPATH, secPackChain, secPack4]
  rw [packPermissionsForMap_sec r1 T1 _ u x h]
  rw [packPermissionsForMap_sec r2 T2 _ _ _ (alookup_ainsert_self _ _ _),
      ainsert_collapse]
  rw [packPermissionsForMap_sec r3 T3 _ _ _ (alookup_ainsert_self _ _ _),
      ainsert_collapse]
  rw [packPermissionsForMap_sec r4 T4 _ _ _ (alookup_ainsert_self _ _ _),
      ainsert_collapse]
  have hsp : alookup (ainsert (ainsert (ainsert (ainsert x
      "standard_permissions" (Variant.list (packElems r1 T1)))
      "permissions" (Variant.list (packElems r2 T2)))
      "group_permissions" (Variant.list (packElems r3 T3)))
      "group_forbiddens" (Variant.list (packElems r4 T4)))
      "standard_permissions" = some (Variant.list (packElems r1 T1)) :=
    lookup_secPack4_sp x _ _ _ _
  rw [sortListAt_sec_list _ _ _ _ hsp]
  have hpp : alookup (ainsert (ainsert (ainsert (ainsert (ainsert x
      "standard_permissions" (Variant.list (packElems r1 T1)))
      "permissions" (Variant.list (packElems r2 T2)))
      "group_permissions" (Variant.list (packElems r3 T3)))
      "group_forbiddens" (Variant.list (packElems r4 T4)))
      "standard_permissions"
        (Variant.list (sortPermissionList (packElems r1 T1))))
      "permissions" = some (Variant.list (packElems r2 T2)) := by
    rw [alookup_ainsert_ne _ "standard_permissions" "permissions" _ (by decide)]
    exact lookup_secPack4_pp x _ _ _ _
  rw [sortListAt_sec_list _ _ _ _ hpp]

/-- `packPermissions` on a state whose `"security"` entry is a map. -/
theorem packPermissions_sec (s : Mgr) (x : VMap)
    (h : alookup s.userConfig "security" = some (.vmap x)) :
    packPermissions s
      = { s with userConfig := ainsert s.userConfig "security" (.vmap
          (secPackChain x
            (packElems s.groupRanks s.standardAgentPermissions)
            (packElems s.groupRanks s.agentPermissions)
            (packElems s.groupRanks s.groupPermissions)
            (packElems s.groupRanks s.groupForbiddens))) } := by
  simp only [packPermissions, persistToFile, sortPermissions,
    loadMasterAndUserConfig]
  rw [pack4sort2_sec s.userConfig x _ _ _ _ _ _ _ _ h]

/-- A second pack-and-sort cycle with the same record lists leaves the
security submap unchanged. -/
theorem secPackChain_idem (x : VMap) (l1 l2 l3 l4 : List Variant) :
    secPackChain (secPackChain x l1 l2 l3 l4) l1 l2 l3 l4
      = secPackChain x l1 l2 l3 l4 := by
  have h4 : secPack4 (secPackChain x l1 l2 l3 l4) l1 l2 l3 l4
      = secPack4 x l1 l2 l3 l4 := by
    show ainsert (ainsert (ainsert (ainsert (ainsert (ainsert
        (secPack4 x l1 l2 l3 l4)
        "standard_permissions" (.list (sortPermissionList l1)))
        "permissions" (.list (sortPermissionList l2)))
        "standard_permissions" (.list l1)) "permissions" (.list l2))
        "group_permissions" (.list l3)) "group_forbiddens" (.list l4)
      = secPack4 x l1 l2 l3 l4
    rw [ainsert_restore (secPack4 x l1 l2 l3 l4) "standard_permissions"
        "permissions" (.list l1) (.list (sortPermissionList l1))
        (.list (sortPermissionList l2)) (by decide)
        (lookup_secPack4_sp x l1 l2 l3 l4)]
    rw [ainsert_collapse, ainsert_lookup_self (lookup_secPack4_pp x l1 l2 l3 l4),
        ainsert_lookup_self (lookup_secPack4_gp x l1 l2 l3 l4),
        ainsert_lookup_self (lookup_secPack4_gf x l1 l2 l3 l4)]
  show ainsert (ainsert (secPack4 (secPackChain x l1 l2 l3 l4) l1 l2 l3 l4)
      "standard_permissions" (.list (sortPermissionList l1)))
      "permissions" (.list (sortPermissionList l2))
    = secPackChain x l1 l2 l3 l4
  rw [h4]
  rfl

/-- The `< 1.4` synthesis body on a state whose `"security"` entry is a map. -/
theorem migrationStep14Core_eq (f1 : Bool) (f2 f3 : List String) (f4 : Bool)
    (s : Mgr) (x : VMap)
    (h : alookup s.userConfig "security" = some (.vmap x)) :
    migrationStep14Core f1 f2 f3 f4 s
      = { s with
          userConfig := ainsert s.userConfig "security" (.vmap
            (secPackChain x
              (packElems s.groupRanks
                (step14Std f1 f4 s.standardAgentPermissions))
              (packElems s.groupRanks
                (step14Agents f1 f2 f3 f4 s.agentPermissions))
              (packElems s.groupRanks s.groupPermissions)
              (packElems s.groupRanks s.groupForbiddens)))
          standardAgentPermissions := []
          agentPermissions := [] } := by
  simp only [migrationStep14Core]
  rw [packPermissions_sec
    { s with
        standardAgentPermissions := step14Std f1 f4 s.standardAgentPermissions
        agentPermissions :=
          step14Agents f1 f2 f3 f4 s.agentPermissions }
    x h]

/-- A merged-or-default read under `"security"` is unchanged by an in-place
rewrite of the security submap that preserves the key. -/
theorem valueOrDefault_sec_ainsert (s : Mgr) (x X : VMap) (key : String)
    (h3 : alookup s.userConfig "security" = some (.vmap x))
    (hXx : alookup X key = alookup x key) :
    valueOrDefaultValueForKeyPath
        { s with
          userConfig := ainsert s.userConfig "security" (.vmap X)
          standardAgentPermissions := []
          agentPermissions := [] }
        ["security", key]
      = valueOrDefaultValueForKeyPath s ["security", key] := by
  have hm : getMergedPath s.masterConfig
      (ainsert s.userConfig "security" (.vmap X)) ["security", key]
      = getMergedPath s.masterConfig s.userConfig ["security", key] := by
    apply getMergedPath2_congr
    simp only [alookup_ainsert_self, h3]
    exact hXx
  simp only [valueOrDefaultValueForKeyPath]
  rw [hm]

/-- Running the `< 1.4` synthesis a second time changes nothing, provided the
in-memory standard and named-user tables start empty (as they are after any
earlier run, which clears them) and the stored `"security"` section is a
map. -/
theorem migrationStep14_idem (s : Mgr) (x : VMap)
    (h1 : s.standardAgentPermissions = [])
    (h2 : s.agentPermissions = [])
    (h3 : alookup s.userConfig "security" = some (.vmap x)) :
    migrationStep14 (migrationStep14 s) = migrationStep14 s := by
  have hE := migrationStep14Core_eq
    ((valueOrDefaultValueForKeyPath s ["security", "restricted_access"]).toBoolQ)
    ((valueOrDefaultValueForKeyPath s ["security", "allowed_users"]).toStringListQ)
    ((valueOrDefaultValueForKeyPath s ["security", "allowed_editors"]).toStringListQ)
    ((valueOrDefaultValueForKeyPath s ["security", "editors_are_rezzers"]).toBoolQ)
    s x h3
  rw [h1, h2] at hE
  have hs14 : migrationStep14 s
      = migrationStep14Core
          ((valueOrDefaultValueForKeyPath s ["security", "restricted_access"]).toBoolQ)
    ((valueOrDefaultValueForKeyPath s ["security", "allowed_users"]).toStringListQ)
    ((valueOrDefaultValueForKeyPath s ["security", "allowed_editors"]).toStringListQ)
    ((valueOrDefaultValueForKeyPath s ["security", "editors_are_rezzers"]).toBoolQ)
          s := rfl
  rw [hs14, hE]
  rw [migrationStep14]
  simp only [RESTRICTED_ACCESS_SETTINGS_KEYPATH, ALLOWED_USERS_SETTINGS_KEYPATH,
    ALLOWED_EDITORS_SETTINGS_KEYPATH, EDITORS_ARE_REZZERS_KEYPATH]
  rw [valueOrDefault_sec_ainsert s x _ "restricted_access" h3
        (lookup_secPackChain_ne x _ _ _ _ "restricted_access"
          (by decide) (by decide) (by decide) (by decide)),
      valueOrDefault_sec_ainsert s x _ "allowed_users" h3
        (lookup_secPackChain_ne x _ _ _ _ "allowed_users"
          (by decide) (by decide) (by decide) (by decide)),
      valueOrDefault_sec_ainsert s x _ "allowed_editors" h3
        (lookup_secPackChain_ne x _ _ _ _ "allowed_editors"
          (by decide) (by decide) (by decide) (by decide)),
      valueOrDefault_sec_ainsert s x _ "editors_are_rezzers" h3
        (lookup_secPackChain_ne x _ _ _ _ "editors_are_rezzers"
          (by decide) (by decide) (by decide) (by decide))]
  rw [migrationStep14Core_eq _ _ _ _
      { s with
        userConfig := ainsert s.userConfig "security" (.vmap (secPackChain x
    (packElems s.groupRanks (step14Std
      ((valueOrDefaultValueForKeyPath s ["security", "restricted_access"]).toBoolQ)
      ((valueOrDefaultValueForKeyPath s ["security", "editors_are_rezzers"]).toBoolQ)
      []))
    (packElems s.groupRanks (step14Agents
      ((valueOrDefaultValueForKeyPath s ["security", "restricted_access"]).toBoolQ)
      ((valueOrDefaultValueForKeyPath s ["security", "allowed_users"]).toStringListQ)
      ((valueOrDefaultValueForKeyPath s ["security", "allowed_editors"]).toStringListQ)
      ((valueOrDefaultValueForKeyPath s ["security", "editors_are_rezzers"]).toBoolQ)
      []))
    (packElems s.groupRanks s.groupPermissions)
    (packElems s.groupRanks s.groupForbiddens)))
        standardAgentPermissions := []
        agentPermissions := [] }
      (secPackChain x
    (packElems s.groupRanks (step14Std
      ((valueOrDefaultValueForKeyPath s ["security", "restricted_access"]).toBoolQ)
      ((valueOrDefaultValueForKeyPath s ["security", "editors_are_rezzers"]).toBoolQ)
      []))
    (packElems s.groupRanks (step14Agents
      ((valueOrDefaultValueForKeyPath s ["security", "restricted_access"]).toBoolQ)
      ((valueOrDefaultValueForKeyPath s ["security", "allowed_users"]).toStringListQ)
      ((valueOrDefaultValueForKeyPath s ["security", "allowed_editors"]).toStringListQ)
      ((valueOrDefaultValueForKeyPath s ["security", "editors_are_rezzers"]).toBoolQ)
      []))
    (packElems s.groupRanks s.groupPermissions)
    (packElems s.groupRanks s.groupForbiddens))
      (alookup_ainsert_self _ _ _)]
  show { s with
      userConfig := ainsert (ainsert s.userConfig "security"
          (.vmap (secPackChain x
    (packElems s.groupRanks (step14Std
      ((valueOrDefaultValueForKeyPath s ["security", "restricted_access"]).toBoolQ)
      ((valueOrDefaultValueForKeyPath s ["security", "editors_are_rezzers"]).toBoolQ)
      []))
    (packElems s.groupRanks (step14Agents
      ((valueOrDefaultValueForKeyPath s ["security", "restricted_access"]).toBoolQ)
      ((valueOrDefaultValueForKeyPath s ["security", "allowed_users"]).toStringListQ)
      ((valueOrDefaultValueForKeyPath s ["security", "allowed_editors"]).toStringListQ)
      ((valueOrDefaultValueForKeyPath s ["security", "editors_are_rezzers"]).toBoolQ)
      []))
    (packElems s.groupRanks s.groupPermissions)
    (packElems s.groupRanks s.groupForbiddens)))) "security"
        (.vmap (secPackChain (secPackChain x
    (packElems s.groupRanks (step14Std
      ((valueOrDefaultValueForKeyPath s ["security", "restricted_access"]).toBoolQ)
      ((valueOrDefaultValueForKeyPath s ["security", "editors_are_rezzers"]).toBoolQ)
      []))
    (packElems s.groupRanks (step14Agents
      ((valueOrDefaultValueForKeyPath s ["security", "restricted_access"]).toBoolQ)
      ((valueOrDefaultValueForKeyPath s ["security", "allowed_users"]).toStringListQ)
      ((valueOrDefaultValueForKeyPath s ["security", "allowed_editors"]).toStringListQ)
      ((valueOrDefaultValueForKeyPath s ["security", "editors_are_rezzers"]).toBoolQ)
      []))
    (packElems s.groupRanks s.groupPermissions)
    (packElems s.groupRanks s.groupForbiddens))
          (packElems s.groupRanks (step14Std
      ((valueOrDefaultValueForKeyPath s ["security", "restricted_access"]).toBoolQ)
      ((valueOrDefaultValueForKeyPath s ["security", "editors_are_rezzers"]).toBoolQ)
      []))
          (packElems s.groupRanks (step14Agents
      ((valueOrDefaultValueForKeyPath s ["security", "restricted_access"]).toBoolQ)
      ((valueOrDefaultValueForKeyPath s ["security", "allowed_users"]).toStringListQ)
      ((valueOrDefaultValueForKeyPath s ["security", "allowed_editors"]).toStringListQ)
      ((valueOrDefaultValueForKeyPath s ["security", "editors_are_rezzers"]).toBoolQ)
      []))
          (packElems s.groupRanks s.groupPermissions)
          (packElems s.groupRanks s.groupForbiddens)))
      standardAgentPermissions := []
      agentPermissions := [] }
    = { s with
        userConfig := ainsert s.userConfig "security" (.vmap (secPackChain x
    (packElems s.groupRanks (step14Std
      ((valueOrDefaultValueForKeyPath s ["security", "restricted_access"]).toBoolQ)
      ((valueOrDefaultValueForKeyPath s ["security", "editors_are_rezzers"]).toBoolQ)
      []))
    (packElems s.groupRanks (step14Agents
      ((valueOrDefaultValueForKeyPath s ["security", "restricted_access"]).toBoolQ)
      ((valueOrDefaultValueForKeyPath s ["security", "allowed_users"]).toStringListQ)
      ((valueOrDefaultValueForKeyPath s ["security", "allowed_editors"]).toStringListQ)
      ((valueOrDefaultValueForKeyPath s ["security", "editors_are_rezzers"]).toBoolQ)
      []))
    (packElems s.groupRanks s.groupPermissions)
    (packElems s.groupRanks s.groupForbiddens)))
        standardAgentPermissions := []
        agentPermissions := [] }
  rw [ainsert_collapse, secPackChain_idem]

/-- `sortListAt` under `"security"` on an inserted security submap: the
result is again an inserted security submap, and every child other than the
sorted key is untouched. -/
theorem sortListAt_sec_ainsert (u Z : VMap) (k : String) :
    ∃ Z2, sortListAt (ainsert u "security" (.vmap Z)) ["security", k]
        = ainsert u "security" (.vmap Z2) ∧
      ∀ b, k ≠ b → alookup Z2 b = alookup Z b := by
  have hg : getPath (ainsert u "security" (.vmap Z)) ["security", k]
      = alookup Z k := by
    simp [getPath, vGetPath, alookup_ainsert_self]
  cases hk : alookup Z k with
  | none =>
    refine ⟨Z, ?_, fun b hb => rfl⟩
    simp [sortListAt, hg, hk]
  | some v =>
    cases v with
    | list e =>
      exact ⟨ainsert Z k (.list (sortPermissionList e)),
        sortListAt_sec_list u Z k e hk,
        fun b hb => alookup_ainsert_ne _ _ _ _ hb⟩
    | null =>
      refine ⟨Z, ?_, fun b hb => rfl⟩
      simp [sortListAt, hg, hk, Variant.canConvertListQ]
    | str a =>
      refine ⟨Z, ?_, fun b hb => rfl⟩
      simp [sortListAt, hg, hk, Variant.canConvertListQ]
    | int a =>
      refine ⟨Z, ?_, fun b hb => rfl⟩
      simp [sortListAt, hg, hk, Variant.canConvertListQ]
    | dbl a =>
      refine ⟨Z, ?_, fun b hb => rfl⟩
      simp [sortListAt, hg, hk, Variant.canConvertListQ]
    | bool a =>
      refine ⟨Z, ?_, fun b hb => rfl⟩
      simp [sortListAt, hg, hk, Variant.canConvertListQ]
    | uuid a =>
      refine ⟨Z, ?_, fun b hb => rfl⟩
      simp [sortListAt, hg, hk, Variant.canConvertListQ]
    | vmap a =>
      refine ⟨Z, ?_, fun b hb => rfl⟩
      simp [sortListAt, hg, hk, Variant.canConvertListQ]

/-- `sortPermissions` on an inserted security submap: the result is again an
inserted security submap, and every child other than the two sorted list
keys is untouched. -/
theorem sortPermissionsU_sec_ainsert (u Z : VMap) :
    ∃ Z2, sortPermissionsU (ainsert u "security" (.vmap Z))
        = ainsert u "security" (.vmap Z2) ∧
      ∀ b, "standard_permissions" ≠ b → "permissions" ≠ b →
        alookup Z2 b = alookup Z b := by
  obtain ⟨Z1, hZ1, hp1⟩ := sortListAt_sec_ainsert u Z "standard_permissions"
  obtain ⟨Z2, hZ2, hp2⟩ := sortListAt_sec_ainsert u Z1 "permissions"
  refine ⟨Z2, ?_, fun b hb1 hb2 => (hp2 b hb2).trans (hp1 b hb1)⟩
  simp only [sortPermissionsU, AGENT_STANDARD_PERMISSIONS_KEYPATH,
    AGENT_PERMISSIONS_KEYPATH]
  rw [hZ1, hZ2]

/-- A two-segment merged read treats a user security submap without the
child key like an absent user security entry. -/
theorem getMergedPath2_user_map_absent (master u1 u2 : VMap) (a b : String)
    (m1 : VMap) (h1 : alookup u1 a = some (.vmap m1))
    (hb : alookup m1 b = none) (h2 : alookup u2 a = none) :
    getMergedPath master u1 [a, b] = getMergedPath master u2 [a, b] := by
  cases hm : alookup master a with
  | none => simp [getMergedPath, getMergedSub, h1, h2, hb, hm, vGetPath]
  | some w =>
    cases w <;> simp [getMergedPath, getMergedSub, h1, h2, hb, hm, vGetPath]

/-- The `< 1.0` step run twice equals the step run once, on every state. -/
theorem migrationStep10_idem (s : Mgr) :
    migrationStep10 (migrationStep10 s) = migrationStep10 s := by
  cases hv : getMergedPath s.masterConfig s.userConfig
      ALLOWED_USERS_SETTINGS_KEYPATH with
  | none =>
    have h10 : migrationStep10 s = s := by
      simp only [migrationStep10, hv]
    rw [h10]
    exact h10
  | some v =>
    cases hc : v.canConvertListQ && decide (v.toListQ.length > 0) with
    | false =>
      have h10 : migrationStep10 s = s := by
        simp only [migrationStep10, hv, hc, Bool.false_eq_true, if_false]
      rw [h10]
      exact h10
    | true =>
      have h10 : migrationStep10 s
          = { s with userConfig := sortPermissionsU (setKeyPath s.userConfig
              RESTRICTED_ACCESS_SETTINGS_KEYPATH (.bool true)) } := by
        simp only [migrationStep10, hv, hc, if_true, persistToFile,
          sortPermissions, loadMasterAndUserConfig]
      rw [h10]
      rcases hsec : alookup s.userConfig "security" with _ | w
      · -- the security entry is absent: the write creates it
        have hS : setKeyPath s.userConfig RESTRICTED_ACCESS_SETTINGS_KEYPATH
            (.bool true)
            = ainsert s.userConfig "security"
                (.vmap (ainsert [] "restricted_access" (.bool true))) := by
          simp only [RESTRICTED_ACCESS_SETTINGS_KEYPATH, setKeyPath, hsec]
        obtain ⟨Z2, hW, hpre⟩ := sortPermissionsU_sec_ainsert s.userConfig
          (ainsert [] "restricted_access" (.bool true))
        have hau : alookup Z2 "allowed_users" = none := by
          rw [hpre _ (by decide) (by decide)]
          rfl
        have hra : alookup Z2 "restricted_access" = some (.bool true) := by
          rw [hpre _ (by decide) (by decide)]
          rfl
        have hv2 : getMergedPath s.masterConfig
            (sortPermissionsU (setKeyPath s.userConfig
              RESTRICTED_ACCESS_SETTINGS_KEYPATH (.bool true)))
            ALLOWED_USERS_SETTINGS_KEYPATH = some v := by
          rw [hS, hW]
          show getMergedPath s.masterConfig
            (ainsert s.userConfig "security" (.vmap Z2))
            ["security", "allowed_users"] = some v
          rw [getMergedPath2_user_map_absent s.masterConfig _ s.userConfig
            "security" "allowed_users" Z2 (alookup_ainsert_self _ _ _) hau hsec]
          exact hv
        have hS2 : setKeyPath (sortPermissionsU (setKeyPath s.userConfig
            RESTRICTED_ACCESS_SETTINGS_KEYPATH (.bool true)))
            RESTRICTED_ACCESS_SETTINGS_KEYPATH (.bool true)
            = sortPermissionsU (setKeyPath s.userConfig
              RESTRICTED_ACCESS_SETTINGS_KEYPATH (.bool true)) := by
          apply setKeyPath_lookup_self
          rw [hS, hW]
          show getPath (ainsert s.userConfig "security" (.vmap Z2))
            ["security", "restricted_access"] = some (.bool true)
          simp [getPath, vGetPath, alookup_ainsert_self, hra]
        simp only [migrationStep10, hv2, hc, if_true, persistToFile,
          sortPermissions, loadMasterAndUserConfig]
        rw [hS2, sortPermissionsU_idem]
      · cases w with
        | vmap sm =>
          have hS : setKeyPath s.userConfig RESTRICTED_ACCESS_SETTINGS_KEYPATH
              (.bool true)
              = ainsert s.userConfig "security"
                  (.vmap (ainsert sm "restricted_access" (.bool true))) := by
            simp only [RESTRICTED_ACCESS_SETTINGS_KEYPATH, setKeyPath, hsec]
          obtain ⟨Z2, hW, hpre⟩ := sortPermissionsU_sec_ainsert s.userConfig
            (ainsert sm "restricted_access" (.bool true))
          have hau : alookup Z2 "allowed_users" = alookup sm "allowed_users" := by
            rw [hpre _ (by decide) (by decide)]
            exact alookup_ainsert_ne _ _ _ _ (by decide)
          have hra : alookup Z2 "restricted_access" = some (.bool true) := by
            rw [hpre _ (by decide) (by decide)]
            exact alookup_ainsert_self _ _ _
          have hv2 : getMergedPath s.masterConfig
              (sortPermissionsU (setKeyPath s.userConfig
                RESTRICTED_ACCESS_SETTINGS_KEYPATH (.bool true)))
              ALLOWED_USERS_SETTINGS_KEYPATH = some v := by
            rw [hS, hW]
            have hcong : getMergedPath s.masterConfig
                (ainsert s.userConfig "security" (.vmap Z2))
                ["security", "allowed_users"]
                = getMergedPath s.masterConfig s.userConfig
                    ["security", "allowed_users"] := by
              apply getMergedPath2_congr
              simp only [alookup_ainsert_self, hsec]
              exact hau
            exact hcong.trans hv
          have hS2 : setKeyPath (sortPermissionsU (setKeyPath s.userConfig
              RESTRICTED_ACCESS_SETTINGS_KEYPATH (.bool true)))
              RESTRICTED_ACCESS_SETTINGS_KEYPATH (.bool true)
              = sortPermissionsU (setKeyPath s.userConfig
                RESTRICTED_ACCESS_SETTINGS_KEYPATH (.bool true)) := by
            apply setKeyPath_lookup_self
            rw [hS, hW]
            show getPath (ainsert s.userConfig "security" (.vmap Z2))
              ["security", "restricted_access"] = some (.bool true)
            simp [getPath, vGetPath, alookup_ainsert_self, hra]
          simp only [migrationStep10, hv2, hc, if_true, persistToFile,
            sortPermissions, loadMasterAndUserConfig]
          rw [hS2, sortPermissionsU_idem]
        | null =>
          have hnone : getMergedPath s.masterConfig s.userConfig
              ALLOWED_USERS_SETTINGS_KEYPATH = none := by
            simp [getMergedPath, getMergedSub,
              ALLOWED_USERS_SETTINGS_KEYPATH, hsec]
          rw [hnone] at hv
          exact Option.noConfusion hv
        | str a =>
          have hnone : getMergedPath s.masterConfig s.userConfig
              ALLOWED_USERS_SETTINGS_KEYPATH = none := by
            simp [getMergedPath, getMergedSub,
              ALLOWED_USERS_SETTINGS_KEYPATH, hsec]
          rw [hnone] at hv
          exact Option.noConfusion hv
        | int a =>
          have hnone : getMergedPath s.masterConfig s.userConfig
              ALLOWED_USERS_SETTINGS_KEYPATH = none := by
            simp [getMergedPath, getMergedSub,
              ALLOWED_USERS_SETTINGS_KEYPATH, hsec]
          rw [hnone] at hv
          exact Option.noConfusion hv
        | dbl a =>
          have hnone : getMergedPath s.masterConfig s.userConfig
              ALLOWED_USERS_SETTINGS_KEYPATH = none := by
            simp [getMergedPath, getMergedSub,
              ALLOWED_USERS_SETTINGS_KEYPATH, hsec]
          rw [hnone] at hv
          exact Option.noConfusion hv
        | bool a =>
          have hnone : getMergedPath s.masterConfig s.userConfig
              ALLOWED_USERS_SETTINGS_KEYPATH = none := by
            simp [getMergedPath, getMergedSub,
              ALLOWED_USERS_SETTINGS_KEYPATH, hsec]
          rw [hnone] at hv
          exact Option.noConfusion hv
        | uuid a =>
          have hnone : getMergedPath s.masterConfig s.userConfig
              ALLOWED_USERS_SETTINGS_KEYPATH = none := by
            simp [getMergedPath, getMergedSub,
              ALLOWED_USERS_SETTINGS_KEYPATH, hsec]
          rw [hnone] at hv
          exact Option.noConfusion hv
        | list a =>
          have hnone : getMergedPath s.masterConfig s.userConfig
              ALLOWED_USERS_SETTINGS_KEYPATH = none := by
            simp [getMergedPath, getMergedSub,
              ALLOWED_USERS_SETTINGS_KEYPATH, hsec]
          rw [hnone] at hv
          exact Option.noConfusion hv

/-- `ainsert` keeps the key list duplicate-free. -/
theorem nodupKeys_ainsert {α β : Type} [DecidableEq α] (m : List (α × β))
    (k : α) (v : β) (h : (m.map Prod.fst).Nodup) :
    ((ainsert m k v).map Prod.fst).Nodup := by
  induction m with
  | nil => simp [ainsert]
  | cons kv t ih =>
    obtain ⟨k2, v2⟩ := kv
    simp only [List.map_cons, List.nodup_cons] at h
    by_cases h1 : k2 = k
    · subst h1
      have he : ainsert ((k2, v2) :: t) k2 v = (k2, v) :: t := by
        simp [ainsert]
      rw [he]
      simpa using h
    · simp only [ainsert, if_neg h1, List.map_cons, List.nodup_cons]
      refine ⟨?_, ih h.2⟩
      intro hmem
      obtain ⟨ab, hab, hfst⟩ := List.mem_map.mp hmem
      obtain ⟨a, b⟩ := ab
      rcases mem_ainsert hab with h2 | h2
      · exact h.1 (List.mem_map.mpr ⟨(a, b), h2, hfst⟩)
      · apply h1
        rw [← hfst, h2]

/-- The `< 1.1` step run twice equals the step run once, as long as the
master config does not itself define the legacy key (so the migrated state
reads it back as gone) and the user's entity-server section has
duplicate-free keys. -/
theorem migrationStep11_idem (s : Mgr)
    (hm : getPath s.masterConfig
      ["entity_server_settings", "persistFilename"] = none)
    (hnd : ∀ em, alookup s.userConfig "entity_server_settings"
      = some (.vmap em) → (em.map Prod.fst).Nodup) :
    migrationStep11 (migrationStep11 s) = migrationStep11 s := by
  cases hv : getMergedPath s.masterConfig s.userConfig
      ["entity_server_settings", "persistFilename"] with
  | none =>
    have h11 : migrationStep11 s = s := by
      simp only [migrationStep11, hv]
    rw [h11]
    exact h11
  | some v =>
    have huser : getPath s.userConfig
        ["entity_server_settings", "persistFilename"] = some v := by
      rw [← getMergedPath_master_none hm]
      exact hv
    cases hcv : v.canConvertStringQ with
    | false =>
      have h11 : migrationStep11 s = s := by
        simp only [migrationStep11, hv, hcv, Bool.false_eq_true, if_false]
      rw [h11]
      exact h11
    | true =>
      rcases hess : alookup s.userConfig "entity_server_settings" with _ | w
      · simp [getPath, vGetPath, hess] at huser
      · cases w with
        | vmap em =>
          have hS : setKeyPath s.userConfig
              ["entity_server_settings", "persistFilePath"] (.str v.toStr)
              = ainsert s.userConfig "entity_server_settings"
                  (.vmap (ainsert em "persistFilePath" (.str v.toStr))) := by
            simp only [setKeyPath, hess]
          have h11 : migrationStep11 s
              = { s with userConfig := (sortPermissionsU
                  (ainsert s.userConfig "entity_server_settings"
                    (.vmap (aremove (ainsert em "persistFilePath"
                      (.str v.toStr)) "persistFilename")))) } := by
            simp only [migrationStep11, hv, hcv, if_true, hS,
              alookup_ainsert_self, persistToFile, sortPermissions,
              loadMasterAndUserConfig, ainsert_collapse]
          rw [h11]
          have hv2 : getMergedPath s.masterConfig (sortPermissionsU
              (ainsert s.userConfig "entity_server_settings"
                (.vmap (aremove (ainsert em "persistFilePath"
                  (.str v.toStr)) "persistFilename"))))
              ["entity_server_settings", "persistFilename"] = none := by
            rw [getMergedPath_master_none hm]
            rw [getPath_sortPermissionsU_ne _ _ _ (by decide) (by decide)]
            have hnd2 := nodupKeys_ainsert em "persistFilePath" (.str v.toStr)
              (hnd em hess)
            simp [getPath, vGetPath, alookup_ainsert_self,
              alookup_aremove_self _ _ hnd2]
          simp only [migrationStep11, hv2]
        | null => simp [getPath, vGetPath, hess] at huser
        | str a => simp [getPath, vGetPath, hess] at huser
        | int a => simp [getPath, vGetPath, hess] at huser
        | dbl a => simp [getPath, vGetPath, hess] at huser
        | bool a => simp [getPath, vGetPath, hess] at huser
        | uuid a => simp [getPath, vGetPath, hess] at huser
        | list a => simp [getPath, vGetPath, hess] at huser

/-- `fillDescriptor` leaves other keys alone. -/
theorem fillDescriptor_preserve_ne (dm : VMap) (k k2 : String) (d : Variant)
    (h : k ≠ k2) :
    alookup (fillDescriptor dm k d).1 k2 = alookup dm k2 := by
  cases hk : alookup dm k with
  | none => simp [fillDescriptor, hk, alookup_ainsert_ne _ _ _ _ h]
  | some v =>
    cases hn : v.isNullQ with
    | true => simp [fillDescriptor, hk, hn, alookup_ainsert_ne _ _ _ _ h]
    | false => simp [fillDescriptor, hk, hn]

/-- After `fillDescriptor` with a non-null default, the key holds a non-null
value. -/
theorem fillDescriptor_nonnull (dm : VMap) (k : String) (d : Variant)
    (hd : d.isNullQ = false) :
    ∃ w, alookup (fillDescriptor dm k d).1 k = some w ∧ w.isNullQ = false := by
  cases hk : alookup dm k with
  | none =>
    refine ⟨d, ?_, hd⟩
    simp [fillDescriptor, hk, alookup_ainsert_self]
  | some v =>
    cases hn : v.isNullQ with
    | true =>
      refine ⟨d, ?_, hd⟩
      simp [fillDescriptor, hk, hn, alookup_ainsert_self]
    | false =>
      refine ⟨v, ?_, hn⟩
      simp [fillDescriptor, hk, hn]

/-- `fillDescriptor` on a key already holding a non-null value does nothing
and reports well-formed. -/
theorem fillDescriptor_of_nonnull {dm : VMap} {k : String} {d : Variant}
    {w : Variant} (hw : alookup dm k = some w) (hn : w.isNullQ = false) :
    fillDescriptor dm k d = (dm, false) := by
  simp [fillDescriptor, hw, hn]

/-- `validateDescriptorsMap` fixes any state whose stored descriptors map
already holds non-null hour and offset entries shaped like its own output. -/
theorem validateDescriptorsMap_fixed (off : Rat) (s1 : Mgr) (D : VMap)
    (hD : alookup s1.userConfig "descriptors" = some (.vmap D))
    (h1 : ∃ w, alookup D "weekday_hours" = some w ∧ w.isNullQ = false)
    (h2 : ∃ w, alookup D "weekend_hours" = some w ∧ w.isNullQ = false)
    (h3 : ∃ w, alookup D "utc_offset" = some w ∧ w.isNullQ = false) :
    validateDescriptorsMap off s1 = s1 := by
  obtain ⟨w1, hw1, hn1⟩ := h1
  obtain ⟨w2, hw2, hn2⟩ := h2
  obtain ⟨w3, hw3, hn3⟩ := h3
  simp only [validateDescriptorsMap, hD]
  rw [fillDescriptor_of_nonnull hw1 hn1]
  dsimp only
  rw [fillDescriptor_of_nonnull hw2 hn2]
  dsimp only
  rw [fillDescriptor_of_nonnull hw3 hn3]
  dsimp only
  simp only [Bool.or_self, Bool.false_eq_true, if_false]
  rw [ainsert_lookup_self hD]

/-- A state holding the triple-filled descriptors map of any starting map is
fixed by `validateDescriptorsMap`. -/
theorem validateDescriptorsMap_fixed_fill (off : Rat) (s1 : Mgr) (dm : VMap)
    (hD : alookup s1.userConfig "descriptors" = some (.vmap
      (fillDescriptor (fillDescriptor (fillDescriptor dm
        "weekday_hours" defaultHours).1 "weekend_hours" defaultHours).1
        "utc_offset" (.dbl off)).1)) :
    validateDescriptorsMap off s1 = s1 := by
  apply validateDescriptorsMap_fixed off s1 _ hD
  · obtain ⟨w1, hw1, hn1⟩ :=
      fillDescriptor_nonnull dm "weekday_hours" defaultHours rfl
    refine ⟨w1, ?_, hn1⟩
    rw [fillDescriptor_preserve_ne _ _ _ _ (by decide),
        fillDescriptor_preserve_ne _ _ _ _ (by decide)]
    exact hw1
  · obtain ⟨w2, hw2, hn2⟩ :=
      fillDescriptor_nonnull (fillDescriptor dm "weekday_hours"
        defaultHours).1 "weekend_hours" defaultHours rfl
    refine ⟨w2, ?_, hn2⟩
    rw [fillDescriptor_preserve_ne _ _ _ _ (by decide)]
    exact hw2
  · exact fillDescriptor_nonnull _ "utc_offset" (.dbl off) rfl

/-- The `< 1.5` step run twice equals the step run once, on every state. -/
theorem validateDescriptorsMap_idem (off : Rat) (s : Mgr) :
    validateDescriptorsMap off (validateDescriptorsMap off s)
      = validateDescriptorsMap off s := by
  apply validateDescriptorsMap_fixed_fill off _
    (match alookup s.userConfig "descriptors" with
     | some (.vmap m) => m
     | _ => [])
  simp only [validateDescriptorsMap, persistToFile, sortPermissions,
    loadMasterAndUserConfig]
  rw [apply_ite (fun m : Mgr => m.userConfig)]
  split
  · rw [alookup_sortPermissionsU_ne _ _ (by decide), alookup_ainsert_self]
  · rw [alookup_ainsert_self]

/-- A stored configuration carrying a legacy plain-text HTTP password. -/
def mgrPw : Mgr :=
  { masterConfig := []
    userConfig := [("security", .vmap [("http_password", .str "secret")])]
    descriptionArray := [] }

/-- Counterexample to C3: the `< 1.2` step is not idempotent — run once it
hashes the stored password, run again it hashes the hash, so a crash between
the step and the version write would corrupt the credential. -/
theorem c3_step12_rehashes :
    (getPath (migrationStep12 mgrPw).userConfig
        ["security", "http_password"]).map Variant.toStr
      = some "2bb80d537b1da3e38bd30361aa855686bde0eacd7162fef6a25fe97bf527a25b" ∧
    (getPath (migrationStep12 (migrationStep12 mgrPw)).userConfig
        ["security", "http_password"]).map Variant.toStr
      = some "3d91b58504a6cc3a159005ee7b16c7ae503ca6ac2a6a3c893837083c236b864a" ∧
    migrationStep12 (migrationStep12 mgrPw) ≠ migrationStep12 mgrPw := by
  have h1 : (getPath (migrationStep12 mgrPw).userConfig
      ["security", "http_password"]).map Variant.toStr
      = some "2bb80d537b1da3e38bd30361aa855686bde0eacd7162fef6a25fe97bf527a25b" :=
    rfl
  have h2 : (getPath (migrationStep12 (migrationStep12 mgrPw)).userConfig
      ["security", "http_password"]).map Variant.toStr
      = some "3d91b58504a6cc3a159005ee7b16c7ae503ca6ac2a6a3c893837083c236b864a" :=
    rfl
  refine ⟨h1, h2, ?_⟩
  intro h
  have he := congrArg (fun m : Mgr =>
    (getPath m.userConfig ["security", "http_password"]).map Variant.toStr) h
  dsimp only at he
  rw [h2, h1] at he
  exact absurd he (by decide)

/-- C3: of the five migration steps, the `< 1.0`, `< 1.1`, `< 1.4` and
`< 1.5` transformations are idempotent — the `< 1.1` one provided the master
config does not itself define the legacy persist-filename key and the user's
entity-server section has duplicate-free keys, the `< 1.4` one provided the
in-memory standard and named-user tables start empty and the stored security
section is a map.  The `< 1.2` password-hashing step is not idempotent
(`c3_step12_rehashes`). -/
theorem c3_migration_steps_idempotence (s s11 s14 : Mgr) (x : VMap)
    (off : Rat)
    (hm11 : getPath s11.masterConfig
      ["entity_server_settings", "persistFilename"] = none)
    (hnd11 : ∀ em, alookup s11.userConfig "entity_server_settings"
      = some (.vmap em) → (em.map Prod.fst).Nodup)
    (h14a : s14.standardAgentPermissions = [])
    (h14b : s14.agentPermissions = [])
    (h14c : alookup s14.userConfig "security" = some (.vmap x)) :
    migrationStep10 (migrationStep10 s) = migrationStep10 s ∧
    migrationStep11 (migrationStep11 s11) = migrationStep11 s11 ∧
    migrationStep14 (migrationStep14 s14) = migrationStep14 s14 ∧
    validateDescriptorsMap off (validateDescriptorsMap off s)
      = validateDescriptorsMap off s :=
  ⟨migrationStep10_idem s, migrationStep11_idem s11 hm11 hnd11,
   migrationStep14_idem s14 x h14a h14b h14c,
   validateDescriptorsMap_idem off s⟩

/-- A stored configuration with an empty security map, for the C3 witness. -/
def mgrC3 : Mgr :=
  { masterConfig := []
    userConfig := [("security", .vmap [])]
    descriptionArray := [] }

/-- Witness for C3's amended statement at a concrete state satisfying every
hypothesis. -/
theorem c3_migration_steps_idempotence_witness :
    (getPath mgrC3.masterConfig
        ["entity_server_settings", "persistFilename"] = none ∧
      mgrC3.standardAgentPermissions = [] ∧
      mgrC3.agentPermissions = [] ∧
      alookup mgrC3.userConfig "security" = some (.vmap [])) ∧
    (migrationStep10 (migrationStep10 mgrC3) = migrationStep10 mgrC3 ∧
      migrationStep11 (migrationStep11 mgrC3) = migrationStep11 mgrC3 ∧
      migrationStep14 (migrationStep14 mgrC3) = migrationStep14 mgrC3 ∧
      validateDescriptorsMap 0 (validateDescriptorsMap 0 mgrC3)
        = validateDescriptorsMap 0 mgrC3) :=
  ⟨⟨rfl, rfl, rfl, rfl⟩,
   c3_migration_steps_idempotence mgrC3 mgrC3 mgrC3 [] 0 rfl
     (fun _ h => Option.noConfusion h) rfl rfl rfl⟩

/-! ## Empty-string clears (C8) -/

/-- A merged two-segment read with no user entry at the root key falls back
to the master document. -/
theorem getMergedPath2_user_absent (m u : VMap) (a b : String)
    (h : alookup u a = none) :
    getMergedPath m u [a, b] = getPath m [a, b] := by
  simp [getMergedPath, getMergedSub, h, getPath, vGetPath]

/-- A merged two-segment read whose user submap lacks the child key falls
back to the master document. -/
theorem getMergedPath2_user_child_absent (m u m1 : VMap) (a b : String)
    (h1 : alookup u a = some (.vmap m1)) (hb : alookup m1 b = none) :
    getMergedPath m u [a, b] = getPath m [a, b] := by
  rw [getMergedPath2_user_map_absent m u [] a b m1 h1 hb rfl]
  exact getMergedPath2_user_absent m [] a b rfl

/-- A description schema holding a single group with a single setting
carrying a declared default. -/
def singleSettingDesc (g k : String) (d : Variant) : List Variant :=
  [.vmap [("name", .str g), ("settings", .list
    [.vmap [("name", .str k), ("type", .str "string"), ("default", d)]])]]

/-- Under the single-setting schema, when the merged configuration has no
value for the setting, the authenticated response carries the declared
default. -/
theorem responseAuth_single_default (s : Mgr) (g k : String) (d : Variant)
    (hg : g ≠ "")
    (hdesc : s.descriptionArray = singleSettingDesc g k d)
    (hmerged : getMergedPath s.masterConfig s.userConfig [g, k] = none) :
    getPath (responseObjectForTypeAuth s) [g, k] = some d := by
  simp [responseObjectForTypeAuth, hdesc, singleSettingDesc,
    List.foldl_cons, List.foldl_nil, responseSettingEntry, Variant.toMapQ,
    Variant.toStrJ, Variant.toBoolJ, Variant.toListQ, alookup, hg, hmerged,
    Variant.isNullQ, getPath, vGetPath, alookup_ainsert_self, List.isEmpty]

/-- Posting the empty string for the single declared setting removes it from
the group submap; the root entry itself is dropped when the submap empties. -/
theorem processRootKey_empty_string (u gm : VMap) (g k : String) (d : Variant)
    (hu : alookup u g = some (.vmap gm)) :
    (processRootKey (singleSettingDesc g k d) (u, false) g
        (.vmap [(k, .str "")])).1
      = (if (aremove gm k).isEmpty
          then aremove (ainsert u g (.vmap (aremove gm k))) g
          else ainsert u g (.vmap (aremove gm k))) := by
  have hgd : groupDescriptionFor (singleSettingDesc g k d) g
      = [("name", Variant.str g), ("settings", Variant.list
          [Variant.vmap [("name", Variant.str k),
            ("type", Variant.str "string"), ("default", d)]])] := by
    simp [groupDescriptionFor, singleSettingDesc, Variant.toMapQ, alookup,
      List.find?]
  have hsd : settingDescriptionOf [("name", Variant.str g),
      ("settings", Variant.list [Variant.vmap [("name", Variant.str k),
        ("type", Variant.str "string"), ("default", d)]])] k
      = [("name", Variant.str k), ("type", Variant.str "string"),
          ("default", d)] := by
    simp [settingDescriptionOf, alookup, Variant.toListQ, Variant.toMapQ,
      Variant.toStrJ, List.find?]
  simp [processRootKey, hgd, applyGroupSettings, List.foldl_cons,
    List.foldl_nil, hsd, updateSetting, acontains, hu, Variant.toMapQ,
    alookup_ainsert_self, apply_ite (fun p : VMap × Bool => p.1),
    List.isEmpty]

/-- C8 (amended): under the single-setting schema, posting the empty string
for an existing setting removes its key from the user map, and — provided
the master config does not itself define the setting — a subsequent
authenticated read returns the schema-declared default. -/
theorem c8_empty_clears_and_reads_default (master u gm : VMap) (g k : String)
    (d v : Variant) (hg : g ≠ "") (hnd : (u.map Prod.fst).Nodup)
    (hndg : (gm.map Prod.fst).Nodup)
    (hu : alookup u g = some (.vmap gm))
    (_hv : alookup gm k = some v)
    (hmaster : getPath master [g, k] = none) :
    getPath (recurseJSONObjectAndOverwriteSettings (singleSettingDesc g k d)
        [(g, .vmap [(k, .str "")])] u).1 [g, k] = none ∧
    getPath (responseObjectForTypeAuth
      { masterConfig := master
        userConfig := (recurseJSONObjectAndOverwriteSettings
          (singleSettingDesc g k d) [(g, .vmap [(k, .str "")])] u).1
        descriptionArray := singleSettingDesc g k d }) [g, k] = some d := by
  have hstep : (recurseJSONObjectAndOverwriteSettings (singleSettingDesc g k d)
      [(g, .vmap [(k, .str "")])] u).1
      = (if (aremove gm k).isEmpty
          then aremove (ainsert u g (.vmap (aremove gm k))) g
          else ainsert u g (.vmap (aremove gm k))) :=
    processRootKey_empty_string u gm g k d hu
  cases hE : (aremove gm k).isEmpty with
  | true =>
    rw [hE] at hstep
    rw [if_pos rfl] at hstep
    rw [hstep]
    have hroot : alookup (aremove (ainsert u g (.vmap (aremove gm k))) g) g
        = none :=
      alookup_aremove_self _ _ (nodupKeys_ainsert u g _ hnd)
    constructor
    · simp [getPath, vGetPath, hroot]
    · apply responseAuth_single_default _ g k d hg rfl
      show getMergedPath master
        (aremove (ainsert u g (.vmap (aremove gm k))) g) [g, k] = none
      rw [getMergedPath2_user_absent _ _ _ _ hroot]
      exact hmaster
  | false =>
    rw [hE] at hstep
    rw [if_neg Bool.false_ne_true] at hstep
    rw [hstep]
    have hrm : alookup (aremove gm k) k = none :=
      alookup_aremove_self _ _ hndg
    constructor
    · simp [getPath, vGetPath, alookup_ainsert_self, hrm]
    · apply responseAuth_single_default _ g k d hg rfl
      show getMergedPath master (ainsert u g (.vmap (aremove gm k)))
        [g, k] = none
      rw [getMergedPath2_user_child_absent _ _ (aremove gm k) _ _
        (alookup_ainsert_self _ _ _) hrm]
      exact hmaster

/-- The master config of the C8 counterexample, overriding the setting. -/
def c8Master : VMap := [("env", .vmap [("bg", .str "M")])]

/-- The stored user config of the C8 counterexample. -/
def c8User : VMap := [("env", .vmap [("bg", .str "U")])]

/-- The user config after posting the empty string for the setting. -/
def c8U2 : VMap :=
  (recurseJSONObjectAndOverwriteSettings
    (singleSettingDesc "env" "bg" (.str "D"))
    [("env", .vmap [("bg", .str "")])] c8User).1

/-- Counterexample to C8 as stated: the empty-string update does remove the
key from the user map, but when the master config also defines the setting,
the subsequent read returns the master's value, not the schema-declared
default "D". -/
theorem c8_master_override_not_default :
    getPath c8U2 ["env", "bg"] = none ∧
    getPath (responseObjectForTypeAuth
      { masterConfig := c8Master, userConfig := c8U2,
        descriptionArray := singleSettingDesc "env" "bg" (.str "D") })
      ["env", "bg"] = some (.str "M") ∧
    some (Variant.str "M") ≠ some (Variant.str "D") :=
  ⟨rfl, rfl, fun h => by
    have h2 := congrArg (fun o : Option Variant => (o.getD .null).toStr) h
    exact absurd h2 (by decide)⟩

/-- Witness for C8's amended statement at a concrete state. -/
theorem c8_empty_clears_and_reads_default_witness :
    (("env" : String) ≠ "" ∧
      alookup c8User "env" = some (.vmap [("bg", .str "U")]) ∧
      alookup [("bg", Variant.str "U")] "bg" = some (.str "U") ∧
      getPath ([] : VMap) ["env", "bg"] = none) ∧
    getPath (recurseJSONObjectAndOverwriteSettings
        (singleSettingDesc "env" "bg" (.str "D"))
        [("env", .vmap [("bg", .str "")])] c8User).1 ["env", "bg"] = none ∧
    getPath (responseObjectForTypeAuth
      { masterConfig := ([] : VMap)
        userConfig := (recurseJSONObjectAndOverwriteSettings
          (singleSettingDesc "env" "bg" (.str "D"))
          [("env", .vmap [("bg", .str "")])] c8User).1
        descriptionArray := singleSettingDesc "env" "bg" (.str "D") })
      ["env", "bg"] = some (.str "D") := by
  have h := c8_empty_clears_and_reads_default [] c8User
    [("bg", Variant.str "U")] "env" "bg" (.str "D") (.str "U")
    (by decide) (by decide) (by decide) rfl rfl rfl
  exact ⟨⟨by decide, rfl, rfl, rfl⟩, h.1, h.2⟩

theorem maskRoundtrip : ∀ m : Nat, m < 64 →
    ((((((if m % 2 = 1 then 1 else 0) ||| if m &&& 2 = 0 then 0 else 2) |||
      if m &&& 4 = 0 then 0 else 4) ||| if m &&& 8 = 0 then 0 else 8) |||
      if m &&& 16 = 0 then 0 else 16) ||| if m &&& 32 = 0 then 0 else 32) = m := by
  decide

/-- Entry-level roundtrip: parsing a record serialized by `toVariant` (for any
rank-name list) restores the entry, for entries whose id is already lower case,
whose group flag agrees with the group UUID being non-null (with rank 0 for
non-group entries, as the map constructor reads no rank without a group), and
whose capability mask stays within the six serialized bits. -/
theorem fromMap_toVariantMap (p : NodePermissions) (rns : List String)
    (hid : strToLower p.id = p.id)
    (hgs : p.groupIDSet = true → p.groupID ≠ 0)
    (hgs2 : p.groupIDSet = false → p.groupID = 0 ∧ p.rank = 0)
    (hm : p.permissions < 64) :
    NodePermissions.fromMap (NodePermissions.toVariantMap p rns) = p := by
  obtain ⟨id, gid, gset, rank, perms⟩ := p
  simp only [NodePermissions.fromMap, NodePermissions.toVariantMap] at *
  cases gset with
  | false =>
    obtain ⟨hg0, hr0⟩ := hgs2 rfl
    subst hg0 hr0
    simp [alookup, Variant.toStr, Variant.toBoolQ, NodePermissions.permBitOf,
      NodePermissions.can, hid, NodePermissions.mk.injEq,
      canConnectToDomain, canAdjustLocks, canRezPermanentEntities,
      canRezTemporaryEntities, canWriteToAssetServer,
      canConnectPastMaxCapacity]
    exact maskRoundtrip perms hm
  | true =>
    have hg := hgs rfl
    by_cases hrn : 0 ≤ rank ∧ rank < (rns.length : Int)
    · simp [alookup, hrn, Variant.toStr, Variant.toBoolQ, Variant.toUuidQ,
        Variant.toIntQ, NodePermissions.permBitOf, NodePermissions.can, hid,
        hg, NodePermissions.mk.injEq, canConnectToDomain, canAdjustLocks,
        canRezPermanentEntities, canRezTemporaryEntities,
        canWriteToAssetServer, canConnectPastMaxCapacity]
      exact maskRoundtrip perms hm
    · simp [alookup, hrn, Variant.toStr, Variant.toBoolQ, Variant.toUuidQ,
        Variant.toIntQ, NodePermissions.permBitOf, NodePermissions.can, hid,
        hg, NodePermissions.mk.injEq, canConnectToDomain, canAdjustLocks,
        canRezPermanentEntities, canRezTemporaryEntities,
        canWriteToAssetServer, canConnectPastMaxCapacity]
      exact maskRoundtrip perms hm

/-- Inserting an absent key appends the pair at the end. -/
theorem ainsert_append {α β : Type} [DecidableEq α] (m : List (α × β))
    (k : α) (v : β) (h : acontains m k = false) :
    ainsert m k v = m ++ [(k, v)] := by
  induction m with
  | nil => rfl
  | cons kv t ih =>
    obtain ⟨k2, v2⟩ := kv
    by_cases h1 : k2 = k
    · simp [acontains, alookup, h1] at h
    · simp only [ainsert, if_neg h1, List.cons_append]
      congr 1
      exact ih (by simpa [acontains, alookup, h1] using h)

/-- A map whose function fixes every member of the list is the identity. -/
theorem map_id_of {A : Type} (m : List A) (f : A → A)
    (h : ∀ x ∈ m, f x = x) : m.map f = m := by
  induction m with
  | nil => rfl
  | cons a t ih =>
    simp [h a (List.mem_cons_self a t),
      ih (fun x hx => h x (List.mem_cons_of_mem a hx))]

/-- The insertion step of the modelled sort permutes the element in. -/
theorem insertIntoSorted_perm (lt : Variant → Variant → Bool) (x : Variant)
    (ys : List Variant) : (insertIntoSorted lt x ys).Perm (x :: ys) := by
  induction ys with
  | nil => exact List.Perm.refl _
  | cons y t ih =>
    simp only [insertIntoSorted]
    by_cases h : lt y x = true
    · rw [if_pos h]
      exact (List.Perm.cons y ih).trans (List.Perm.swap x y t)
    · rw [if_neg h]

/-- The modelled `std::sort` is a permutation of its input. -/
theorem sortPermissionList_perm (l : List Variant) :
    (sortPermissionList l).Perm l := by
  induction l with
  | nil => exact List.Perm.refl _
  | cons a t ih =>
    simp only [sortPermissionList, List.foldr_cons]
    exact (insertIntoSorted_perm _ a _).trans (List.Perm.cons a ih)

/-- With duplicate-free keys, membership determines the lookup. -/
theorem alookup_of_mem {α β : Type} [DecidableEq α] {m : List (α × β)}
    {k : α} {v : β} (hnd : (m.map Prod.fst).Nodup) (hm : (k, v) ∈ m) :
    alookup m k = some v := by
  induction m with
  | nil => cases hm
  | cons kv t ih =>
    obtain ⟨k2, v2⟩ := kv
    simp only [List.map_cons, List.nodup_cons] at hnd
    rcases List.mem_cons.mp hm with h | h
    · injection h with h1 h2
      subst h1
      subst h2
      simp [alookup]
    · have hk : k2 ≠ k := by
        intro he
        subst he
        exact hnd.1 (List.mem_map.mpr ⟨(k2, v), h, rfl⟩)
      simp [alookup, hk, ih hnd.2 h]

/-- A successful lookup exhibits a member. -/
theorem mem_of_alookup {α β : Type} [DecidableEq α] {m : List (α × β)}
    {k : α} {v : β} (h : alookup m k = some v) : (k, v) ∈ m := by
  induction m with
  | nil => simp [alookup] at h
  | cons kv t ih =>
    obtain ⟨k2, v2⟩ := kv
    by_cases h1 : k2 = k
    · subst h1
      simp only [alookup, if_pos rfl] at h
      injection h with h2
      subst h2
      exact List.mem_cons_self _ _
    · simp only [alookup, if_neg h1] at h
      exact List.mem_cons_of_mem _ (ih h)

/-- A failed lookup means the key is absent. -/
theorem not_mem_keys_of_alookup_none {α β : Type} [DecidableEq α]
    {m : List (α × β)} {k : α} (h : alookup m k = none) :
    k ∉ m.map Prod.fst := by
  induction m with
  | nil => simp
  | cons kv t ih =>
    obtain ⟨k2, v2⟩ := kv
    by_cases h1 : k2 = k
    · simp [alookup, h1] at h
    · simp only [alookup, if_neg h1] at h
      simp only [List.map_cons, List.mem_cons]
      push_neg
      exact ⟨fun he => h1 he.symm, ih h⟩

/-- Lookups in a map with duplicate-free keys are invariant under
permutation of the entries. -/
theorem alookup_eq_of_perm {α β : Type} [DecidableEq α]
    {m m2 : List (α × β)} (h : m.Perm m2)
    (hnd : (m.map Prod.fst).Nodup) (k : α) :
    alookup m2 k = alookup m k := by
  cases hm : alookup m k with
  | none =>
    have hnm := not_mem_keys_of_alookup_none hm
    refine alookup_eq_none_of_not_mem ?_
    intro hk
    exact hnm ((h.map Prod.fst).mem_iff.mpr hk)
  | some v =>
    have hnd2 : (m2.map Prod.fst).Nodup := ((h.map Prod.fst).nodup_iff).mp hnd
    exact alookup_of_mem hnd2 (h.mem_iff.mp (mem_of_alookup hm))

/-! ## The pack-then-unpack roundtrip (C2) -/

/-- The `NodePermissions` parsed from one stored record
(`NodePermissions(permsHash.toMap())`). -/
def parsedPerm (v : Variant) : NodePermissions := NodePermissions.fromMap v.toMapQ

/-- The key the standard/user loops file a parsed record under
(`(perms.getID(), 0)`). -/
def stdKey (v : Variant) : NodePermissionsKey := ((parsedPerm v).id, (0 : Int))

/-- One parsed standard/user table entry. -/
def stdPair (v : Variant) : NodePermissionsKey × NodePermissions :=
  (stdKey v, parsedPerm v)

/-- The key the group loops file a parsed record under (`perms.getKey()`). -/
def grpKey (v : Variant) : NodePermissionsKey := (parsedPerm v).getKey

/-- One parsed group table entry. -/
def grpPair (v : Variant) : NodePermissionsKey × NodePermissions :=
  (grpKey v, parsedPerm v)

/-- An absent key fails the contains test. -/
theorem acontains_eq_false_of_not_mem {α β : Type} [DecidableEq α]
    {m : List (α × β)} {k : α} (h : k ∉ m.map Prod.fst) :
    acontains m k = false := by
  have hl : alookup m k = none := alookup_eq_none_of_not_mem h
  simp [acontains, hl]

/-- A standard-loop iteration on a fresh key appends the parsed entry. -/
theorem loadStandardEntry_fst (acc : PermMap × (Bool × Bool × Bool × Bool) × Bool)
    (v : Variant) (h : acontains acc.1 (stdKey v) = false) :
    (loadStandardEntry acc v).1 = acc.1 ++ [stdPair v] := by
  have h2 : acontains acc.1 ((NodePermissions.fromMap v.toMapQ).id, (0 : Int))
      = false := h
  simp [loadStandardEntry, h2, stdPair, stdKey, parsedPerm,
    ainsert_append _ _ _ h2]

/-- The four found-flags a standard-loop iteration leaves. -/
theorem loadStandardEntry_found (acc : PermMap × (Bool × Bool × Bool × Bool) × Bool)
    (v : Variant) :
    (loadStandardEntry acc v).2.1
      = (acc.2.1.1 || decide (stdKey v = NodePermissions.standardNameLocalhost),
         acc.2.1.2.1 || decide (stdKey v = NodePermissions.standardNameAnonymous),
         acc.2.1.2.2.1 || decide (stdKey v = NodePermissions.standardNameLoggedIn),
         acc.2.1.2.2.2 || decide (stdKey v = NodePermissions.standardNameFriends)) := by
  simp only [loadStandardEntry, stdKey, parsedPerm]
  split <;> rfl

/-- The standard-permissions loop over records with pairwise fresh keys
appends all parsed entries in order. -/
theorem loadStandard_fold_fst (V : List Variant) :
    ∀ acc : PermMap × (Bool × Bool × Bool × Bool) × Bool,
    (acc.1.map Prod.fst ++ V.map stdKey).Nodup →
    (V.foldl loadStandardEntry acc).1 = acc.1 ++ V.map stdPair := by
  induction V with
  | nil => intro acc _; simp
  | cons v t ih =>
    intro acc h
    have hkey : acontains acc.1 (stdKey v) = false := by
      refine acontains_eq_false_of_not_mem (fun hmem => ?_)
      rcases List.nodup_append.mp h with ⟨_, _, hdisj⟩
      exact hdisj hmem (by simp)
    have h1 := loadStandardEntry_fst acc v hkey
    have h2 : ((loadStandardEntry acc v).1.map Prod.fst ++ t.map stdKey).Nodup := by
      rw [h1]
      simpa [List.append_assoc] using h
    rw [List.foldl_cons, ih _ h2, h1, List.map_cons, List.append_assoc,
      List.singleton_append]

/-- After the standard-permissions loop each found-flag holds exactly when
some record's key is the corresponding standard role key. -/
theorem loadStandard_fold_found (V : List Variant) :
    ∀ acc : PermMap × (Bool × Bool × Bool × Bool) × Bool,
    (V.foldl loadStandardEntry acc).2.1
      = (acc.2.1.1 || V.any (fun v => decide (stdKey v = NodePermissions.standardNameLocalhost)),
         acc.2.1.2.1 || V.any (fun v => decide (stdKey v = NodePermissions.standardNameAnonymous)),
         acc.2.1.2.2.1 || V.any (fun v => decide (stdKey v = NodePermissions.standardNameLoggedIn)),
         acc.2.1.2.2.2 || V.any (fun v => decide (stdKey v = NodePermissions.standardNameFriends))) := by
  induction V with
  | nil => intro acc; simp
  | cons v t ih =>
    intro acc
    rw [List.foldl_cons, ih, loadStandardEntry_found]
    simp [Bool.or_assoc]

/-- A user-loop iteration on a fresh key appends the parsed entry. -/
theorem loadAgentEntry_fst (acc : PermMap × Bool) (v : Variant)
    (h : acontains acc.1 (stdKey v) = false) :
    (loadAgentEntry acc v).1 = acc.1 ++ [stdPair v] := by
  have h2 : acontains acc.1 ((NodePermissions.fromMap v.toMapQ).id, (0 : Int))
      = false := h
  simp [loadAgentEntry, h2, stdPair, stdKey, parsedPerm,
    ainsert_append _ _ _ h2]

/-- The named-user permissions loop over records with pairwise fresh keys
appends all parsed entries in order. -/
theorem loadAgent_fold_fst (V : List Variant) :
    ∀ acc : PermMap × Bool,
    (acc.1.map Prod.fst ++ V.map stdKey).Nodup →
    (V.foldl loadAgentEntry acc).1 = acc.1 ++ V.map stdPair := by
  induction V with
  | nil => intro acc _; simp
  | cons v t ih =>
    intro acc h
    have hkey : acontains acc.1 (stdKey v) = false := by
      refine acontains_eq_false_of_not_mem (fun hmem => ?_)
      rcases List.nodup_append.mp h with ⟨_, _, hdisj⟩
      exact hdisj hmem (by simp)
    have h1 := loadAgentEntry_fst acc v hkey
    have h2 : ((loadAgentEntry acc v).1.map Prod.fst ++ t.map stdKey).Nodup := by
      rw [h1]
      simpa [List.append_assoc] using h
    rw [List.foldl_cons, ih _ h2, h1, List.map_cons, List.append_assoc,
      List.singleton_append]

/-- `setGroupID` on a state whose group tables hold only group entries:
only the name↔UUID caches change and no entry is reported changed (the
attach loop targets non-group entries). -/
theorem setGroupIDFn_of_all_group (s : Mgr) (gn : String) (gid : Nat)
    (hgp : ∀ kv ∈ s.groupPermissions, kv.2.isGroup = true)
    (hgf : ∀ kv ∈ s.groupForbiddens, kv.2.isGroup = true) :
    setGroupIDFn s gn gid
      = ({ s with groupIDs := ainsert s.groupIDs (strToLower gn) gid,
                  groupNames := ainsert s.groupNames gid gn }, false) := by
  simp only [setGroupIDFn]
  rw [Prod.mk.injEq]
  constructor
  · have h1 : s.groupPermissions.map (fun kv =>
        if (strToLower kv.2.id == strToLower gn && !kv.2.isGroup) = true
        then (kv.1, kv.2.setGroupID gid) else kv) = s.groupPermissions :=
      map_id_of _ _ (fun kv hkv => by simp [hgp kv hkv])
    have h2 : s.groupForbiddens.map (fun kv =>
        if (strToLower kv.2.id == strToLower gn && !kv.2.isGroup) = true
        then (kv.1, kv.2.setGroupID gid) else kv) = s.groupForbiddens :=
      map_id_of _ _ (fun kv hkv => by simp [hgf kv hkv])
    rw [h1, h2]
  · have h3 : s.groupPermissions.any (fun kv =>
        strToLower kv.2.id == strToLower gn && !kv.2.isGroup) = false :=
      List.any_eq_false.mpr (fun kv hkv => by simp [hgp kv hkv])
    have h4 : s.groupForbiddens.any (fun kv =>
        strToLower kv.2.id == strToLower gn && !kv.2.isGroup) = false :=
      List.any_eq_false.mpr (fun kv hkv => by simp [hgf kv hkv])
    rw [h3, h4]
    rfl

/-- `setGroupID` leaves a group-permission table of group entries alone. -/
theorem setGroupIDFn_gp_of_all_group (s : Mgr) (gn : String) (gid : Nat)
    (hgp : ∀ kv ∈ s.groupPermissions, kv.2.isGroup = true) :
    (setGroupIDFn s gn gid).1.groupPermissions = s.groupPermissions := by
  simp only [setGroupIDFn]
  exact map_id_of _ _ (fun kv hkv => by simp [hgp kv hkv])

/-- `setGroupID` leaves a group-forbidden table of group entries alone. -/
theorem setGroupIDFn_gf_of_all_group (s : Mgr) (gn : String) (gid : Nat)
    (hgf : ∀ kv ∈ s.groupForbiddens, kv.2.isGroup = true) :
    (setGroupIDFn s gn gid).1.groupForbiddens = s.groupForbiddens := by
  simp only [setGroupIDFn]
  exact map_id_of _ _ (fun kv hkv => by simp [hgf kv hkv])

/-- `setGroupID` never touches the standard table. -/
theorem setGroupIDFn_std (s : Mgr) (gn : String) (gid : Nat) :
    (setGroupIDFn s gn gid).1.standardAgentPermissions
      = s.standardAgentPermissions := rfl

/-- `setGroupID` never touches the named-user table. -/
theorem setGroupIDFn_ag (s : Mgr) (gn : String) (gid : Nat) :
    (setGroupIDFn s gn gid).1.agentPermissions = s.agentPermissions := rfl

/-- `setGroupID` never touches the rank cache. -/
theorem setGroupIDFn_ranks (s : Mgr) (gn : String) (gid : Nat) :
    (setGroupIDFn s gn gid).1.groupRanks = s.groupRanks := rfl

/-- A group-permissions iteration on a fresh key, parsing a group entry,
into tables holding only group entries: the entry is appended and the other
permission tables and the rank cache are untouched. -/
theorem loadGroupEntry_shape (acc : Mgr × Bool) (v : Variant)
    (hkey : acontains acc.1.groupPermissions (grpKey v) = false)
    (hgrp : (parsedPerm v).isGroup = true)
    (hgp : ∀ kv ∈ acc.1.groupPermissions, kv.2.isGroup = true)
    (hgf : ∀ kv ∈ acc.1.groupForbiddens, kv.2.isGroup = true) :
    (loadGroupEntry acc v).1.groupPermissions
        = acc.1.groupPermissions ++ [grpPair v] ∧
    (loadGroupEntry acc v).1.groupForbiddens = acc.1.groupForbiddens ∧
    (loadGroupEntry acc v).1.standardAgentPermissions
        = acc.1.standardAgentPermissions ∧
    (loadGroupEntry acc v).1.agentPermissions = acc.1.agentPermissions ∧
    (loadGroupEntry acc v).1.groupRanks = acc.1.groupRanks := by
  have h2 : acontains acc.1.groupPermissions
      (NodePermissions.fromMap v.toMapQ).getKey = false := hkey
  have h3 : (NodePermissions.fromMap v.toMapQ).isGroup = true := hgrp
  have hadd : ainsert acc.1.groupPermissions
      (NodePermissions.fromMap v.toMapQ).getKey (NodePermissions.fromMap v.toMapQ)
      = acc.1.groupPermissions ++ [grpPair v] :=
    ainsert_append _ _ _ h2
  have hgp2 : ∀ kv ∈ ainsert acc.1.groupPermissions
      (NodePermissions.fromMap v.toMapQ).getKey
      (NodePermissions.fromMap v.toMapQ), kv.2.isGroup = true := by
    rw [hadd]
    intro kv hkv
    rcases List.mem_append.mp hkv with h | h
    · exact hgp kv h
    · simp only [List.mem_singleton] at h
      subst h
      exact hgrp
  have hset := setGroupIDFn_of_all_group
      { masterConfig := acc.1.masterConfig, userConfig := acc.1.userConfig,
        descriptionArray := acc.1.descriptionArray,
        standardAgentPermissions := acc.1.standardAgentPermissions,
        agentPermissions := acc.1.agentPermissions,
        groupPermissions := ainsert acc.1.groupPermissions
          (NodePermissions.fromMap v.toMapQ).getKey
          (NodePermissions.fromMap v.toMapQ),
        groupForbiddens := acc.1.groupForbiddens,
        groupPermissionsByUUID := ainsert acc.1.groupPermissionsByUUID
          ((NodePermissions.fromMap v.toMapQ).groupID,
            (NodePermissions.fromMap v.toMapQ).rank)
          (alookup (ainsert acc.1.groupPermissions
              (NodePermissions.fromMap v.toMapQ).getKey
              (NodePermissions.fromMap v.toMapQ))
            (NodePermissions.fromMap v.toMapQ).getKey),
        groupForbiddensByUUID := acc.1.groupForbiddensByUUID,
        groupIDs := acc.1.groupIDs, groupNames := acc.1.groupNames,
        groupRanks := acc.1.groupRanks,
        groupRanksLastFetched := acc.1.groupRanksLastFetched }
      (NodePermissions.fromMap v.toMapQ).id
      (NodePermissions.fromMap v.toMapQ).groupID hgp2 hgf
  simp only [loadGroupEntry, h2, Bool.false_eq_true, if_false, h3, if_true]
  rw [hset]
  exact ⟨hadd, rfl, rfl, rfl, rfl⟩

/-- A group-forbiddens iteration on a fresh key, parsing a group entry,
into tables holding only group entries: the entry is appended and the other
permission tables and the rank cache are untouched. -/
theorem loadForbiddenEntry_shape (acc : Mgr × Bool) (v : Variant)
    (hkey : acontains acc.1.groupForbiddens (grpKey v) = false)
    (hgrp : (parsedPerm v).isGroup = true)
    (hgp : ∀ kv ∈ acc.1.groupPermissions, kv.2.isGroup = true)
    (hgf : ∀ kv ∈ acc.1.groupForbiddens, kv.2.isGroup = true) :
    (loadForbiddenEntry acc v).1.groupForbiddens
        = acc.1.groupForbiddens ++ [grpPair v] ∧
    (loadForbiddenEntry acc v).1.groupPermissions = acc.1.groupPermissions ∧
    (loadForbiddenEntry acc v).1.standardAgentPermissions
        = acc.1.standardAgentPermissions ∧
    (loadForbiddenEntry acc v).1.agentPermissions = acc.1.agentPermissions ∧
    (loadForbiddenEntry acc v).1.groupRanks = acc.1.groupRanks := by
  have h2 : acontains acc.1.groupForbiddens
      (NodePermissions.fromMap v.toMapQ).getKey = false := hkey
  have h3 : (NodePermissions.fromMap v.toMapQ).isGroup = true := hgrp
  have hadd : ainsert acc.1.groupForbiddens
      (NodePermissions.fromMap v.toMapQ).getKey (NodePermissions.fromMap v.toMapQ)
      = acc.1.groupForbiddens ++ [grpPair v] :=
    ainsert_append _ _ _ h2
  have hgf2 : ∀ kv ∈ ainsert acc.1.groupForbiddens
      (NodePermissions.fromMap v.toMapQ).getKey
      (NodePermissions.fromMap v.toMapQ), kv.2.isGroup = true := by
    rw [hadd]
    intro kv hkv
    rcases List.mem_append.mp hkv with h | h
    · exact hgf kv h
    · simp only [List.mem_singleton] at h
      subst h
      exact hgrp
  have hset := setGroupIDFn_of_all_group
      { masterConfig := acc.1.masterConfig, userConfig := acc.1.userConfig,
        descriptionArray := acc.1.descriptionArray,
        standardAgentPermissions := acc.1.standardAgentPermissions,
        agentPermissions := acc.1.agentPermissions,
        groupPermissions := acc.1.groupPermissions,
        groupForbiddens := ainsert acc.1.groupForbiddens
          (NodePermissions.fromMap v.toMapQ).getKey
          (NodePermissions.fromMap v.toMapQ),
        groupPermissionsByUUID := acc.1.groupPermissionsByUUID,
        groupForbiddensByUUID := ainsert acc.1.groupForbiddensByUUID
          ((NodePermissions.fromMap v.toMapQ).groupID,
            (NodePermissions.fromMap v.toMapQ).rank)
          (alookup acc.1.groupPermissions
            (NodePermissions.fromMap v.toMapQ).getKey),
        groupIDs := acc.1.groupIDs, groupNames := acc.1.groupNames,
        groupRanks := acc.1.groupRanks,
        groupRanksLastFetched := acc.1.groupRanksLastFetched }
      (NodePermissions.fromMap v.toMapQ).id
      (NodePermissions.fromMap v.toMapQ).groupID hgp hgf2
  simp only [loadForbiddenEntry, h2, Bool.false_eq_true, if_false, h3, if_true]
  rw [hset]
  exact ⟨hadd, rfl, rfl, rfl, rfl⟩

/-- The group-permissions loop over group records with pairwise fresh keys
appends all parsed entries in order, preserving the other tables. -/
theorem loadGroup_fold (V : List Variant)
    (hall : ∀ v ∈ V, (parsedPerm v).isGroup = true) :
    ∀ acc : Mgr × Bool,
    (∀ kv ∈ acc.1.groupPermissions, kv.2.isGroup = true) →
    (∀ kv ∈ acc.1.groupForbiddens, kv.2.isGroup = true) →
    (acc.1.groupPermissions.map Prod.fst ++ V.map grpKey).Nodup →
    (V.foldl loadGroupEntry acc).1.groupPermissions
        = acc.1.groupPermissions ++ V.map grpPair ∧
    (V.foldl loadGroupEntry acc).1.groupForbiddens = acc.1.groupForbiddens ∧
    (V.foldl loadGroupEntry acc).1.standardAgentPermissions
        = acc.1.standardAgentPermissions ∧
    (V.foldl loadGroupEntry acc).1.agentPermissions = acc.1.agentPermissions ∧
    (V.foldl loadGroupEntry acc).1.groupRanks = acc.1.groupRanks := by
  induction V with
  | nil => intro acc _ _ _; simp
  | cons v t ih =>
    intro acc hgp hgf hnd
    have hkey : acontains acc.1.groupPermissions (grpKey v) = false := by
      refine acontains_eq_false_of_not_mem (fun hmem => ?_)
      rcases List.nodup_append.mp hnd with ⟨_, _, hdisj⟩
      exact hdisj hmem (by simp)
    obtain ⟨e1, e2, e3, e4, e5⟩ := loadGroupEntry_shape acc v hkey
      (hall v (List.mem_cons_self v t)) hgp hgf
    have hgp2 : ∀ kv ∈ (loadGroupEntry acc v).1.groupPermissions,
        kv.2.isGroup = true := by
      rw [e1]
      intro kv hkv
      rcases List.mem_append.mp hkv with h | h
      · exact hgp kv h
      · simp only [List.mem_singleton] at h
        subst h
        exact hall v (List.mem_cons_self v t)
    have hgf2 : ∀ kv ∈ (loadGroupEntry acc v).1.groupForbiddens,
        kv.2.isGroup = true := by
      rw [e2]
      exact hgf
    have hnd2 : ((loadGroupEntry acc v).1.groupPermissions.map Prod.fst
        ++ t.map grpKey).Nodup := by
      rw [e1]
      simpa [List.append_assoc] using hnd
    obtain ⟨f1, f2, f3, f4, f5⟩ := ih
      (fun v2 hv2 => hall v2 (List.mem_cons_of_mem v hv2))
      (loadGroupEntry acc v) hgp2 hgf2 hnd2
    rw [List.foldl_cons]
    refine ⟨?_, ?_, ?_, ?_, ?_⟩
    · rw [f1, e1, List.map_cons, List.append_assoc, List.singleton_append]
    · rw [f2, e2]
    · rw [f3, e3]
    · rw [f4, e4]
    · rw [f5, e5]

/-- The group-forbiddens loop over group records with pairwise fresh keys
appends all parsed entries in order, preserving the other tables. -/
theorem loadForbidden_fold (V : List Variant)
    (hall : ∀ v ∈ V, (parsedPerm v).isGroup = true) :
    ∀ acc : Mgr × Bool,
    (∀ kv ∈ acc.1.groupPermissions, kv.2.isGroup = true) →
    (∀ kv ∈ acc.1.groupForbiddens, kv.2.isGroup = true) →
    (acc.1.groupForbiddens.map Prod.fst ++ V.map grpKey).Nodup →
    (V.foldl loadForbiddenEntry acc).1.groupForbiddens
        = acc.1.groupForbiddens ++ V.map grpPair ∧
    (V.foldl loadForbiddenEntry acc).1.groupPermissions
        = acc.1.groupPermissions ∧
    (V.foldl loadForbiddenEntry acc).1.standardAgentPermissions
        = acc.1.standardAgentPermissions ∧
    (V.foldl loadForbiddenEntry acc).1.agentPermissions
        = acc.1.agentPermissions ∧
    (V.foldl loadForbiddenEntry acc).1.groupRanks = acc.1.groupRanks := by
  induction V with
  | nil => intro acc _ _ _; simp
  | cons v t ih =>
    intro acc hgp hgf hnd
    have hkey : acontains acc.1.groupForbiddens (grpKey v) = false := by
      refine acontains_eq_false_of_not_mem (fun hmem => ?_)
      rcases List.nodup_append.mp hnd with ⟨_, _, hdisj⟩
      exact hdisj hmem (by simp)
    obtain ⟨e1, e2, e3, e4, e5⟩ := loadForbiddenEntry_shape acc v hkey
      (hall v (List.mem_cons_self v t)) hgp hgf
    have hgf2 : ∀ kv ∈ (loadForbiddenEntry acc v).1.groupForbiddens,
        kv.2.isGroup = true := by
      rw [e1]
      intro kv hkv
      rcases List.mem_append.mp hkv with h | h
      · exact hgf kv h
      · simp only [List.mem_singleton] at h
        subst h
        exact hall v (List.mem_cons_self v t)
    have hgp2 : ∀ kv ∈ (loadForbiddenEntry acc v).1.groupPermissions,
        kv.2.isGroup = true := by
      rw [e2]
      exact hgp
    have hnd2 : ((loadForbiddenEntry acc v).1.groupForbiddens.map Prod.fst
        ++ t.map grpKey).Nodup := by
      rw [e1]
      simpa [List.append_assoc] using hnd
    obtain ⟨f1, f2, f3, f4, f5⟩ := ih
      (fun v2 hv2 => hall v2 (List.mem_cons_of_mem v hv2))
      (loadForbiddenEntry acc v) hgp2 hgf2 hnd2
    rw [List.foldl_cons]
    refine ⟨?_, ?_, ?_, ?_, ?_⟩
    · rw [f1, e1, List.map_cons, List.append_assoc, List.singleton_append]
    · rw [f2, e2]
    · rw [f3, e3]
    · rw [f4, e4]
    · rw [f5, e5]

/-- With no fetched ranks a group's rank loop runs zero iterations. -/
theorem coverStep_ranks_nil (gn : List (Nat × String))
    (acc : PermMap × PermUUIDMap × Bool) (g : Nat) :
    coverStep gn [] acc g = acc := by
  simp [coverStep, ensureRanksForGroup, alookup]

/-- With no fetched ranks the coverage pass changes nothing. -/
theorem ensureCoverage_of_ranks_nil (gn : List (Nat × String))
    (gids : List Nat) (m : PermMap) (byUUID : PermUUIDMap) :
    ensureCoverage gn [] gids m byUUID = (m, byUUID, false) := by
  show gids.foldl (coverStep gn []) (m, byUUID, false) = (m, byUUID, false)
  suffices h : ∀ (l : List Nat) (init : PermMap × PermUUIDMap × Bool),
      l.foldl (coverStep gn []) init = init by
    exact h gids _
  intro l
  induction l with
  | nil => intro init; rfl
  | cons g t ih =>
    intro init
    rw [List.foldl_cons, coverStep_ranks_nil]
    exact ih init

/-- `ensurePermissionsForGroupRanks` is the identity (and signals no
change) when the rank cache is empty. -/
theorem ensure_of_ranks_nil (s : Mgr) (hr : s.groupRanks = []) :
    ensurePermissionsForGroupRanks s = (s, false) := by
  simp only [ensurePermissionsForGroupRanks, hr, ensureCoverage_of_ranks_nil]
  rw [← hr]
  rfl

/-- `packPermissions` only rewrites the user config: the four in-memory
tables read back unchanged. -/
theorem packPermissions_maps (s : Mgr) :
    (packPermissions s).standardAgentPermissions = s.standardAgentPermissions ∧
    (packPermissions s).agentPermissions = s.agentPermissions ∧
    (packPermissions s).groupPermissions = s.groupPermissions ∧
    (packPermissions s).groupForbiddens = s.groupForbiddens :=
  ⟨rfl, rfl, rfl, rfl⟩

/-- The conditional re-pack at the end of `unpackPermissions` never changes
the four in-memory tables. -/
theorem repack_maps (b : Bool) (m : Mgr) :
    (if b then packPermissions m else m).standardAgentPermissions
        = m.standardAgentPermissions ∧
    (if b then packPermissions m else m).agentPermissions
        = m.agentPermissions ∧
    (if b then packPermissions m else m).groupPermissions
        = m.groupPermissions ∧
    (if b then packPermissions m else m).groupForbiddens
        = m.groupForbiddens := by
  cases b
  · simp
  · simpa using packPermissions_maps m

/-- Fetching a path that holds a list returns it and leaves the config. -/
theorem fetchListAt_of_list (u : VMap) (p : List String) (e : List Variant)
    (h : getPath u p = some (.list e)) : fetchListAt u p = (u, e) := by
  simp [fetchListAt, h, Variant.canConvertListQ, Variant.toListQ]

/-- After a pack-and-sort cycle the standard list reads back sorted. -/
theorem lookup_secPackChain_sp (x : VMap) (l1 l2 l3 l4 : List Variant) :
    alookup (secPackChain x l1 l2 l3 l4) "standard_permissions"
      = some (.list (sortPermissionList l1)) := by
  simp only [secPackChain]
  rw [alookup_ainsert_ne _ "permissions" "standard_permissions" _ (by decide),
      alookup_ainsert_self]

/-- After a pack-and-sort cycle the named-user list reads back sorted. -/
theorem lookup_secPackChain_pp (x : VMap) (l1 l2 l3 l4 : List Variant) :
    alookup (secPackChain x l1 l2 l3 l4) "permissions"
      = some (.list (sortPermissionList l2)) := by
  simp only [secPackChain]
  rw [alookup_ainsert_self]

/-- After a pack-and-sort cycle the group-permissions list reads back as
written (it is not sorted). -/
theorem lookup_secPackChain_gp (x : VMap) (l1 l2 l3 l4 : List Variant) :
    alookup (secPackChain x l1 l2 l3 l4) "group_permissions"
      = some (.list l3) := by
  simp only [secPackChain]
  rw [alookup_ainsert_ne _ "permissions" "group_permissions" _ (by decide),
      alookup_ainsert_ne _ "standard_permissions" "group_permissions" _
        (by decide)]
  exact lookup_secPack4_gp x l1 l2 l3 l4

/-- After a pack-and-sort cycle the group-forbiddens list reads back as
written (it is not sorted). -/
theorem lookup_secPackChain_gf (x : VMap) (l1 l2 l3 l4 : List Variant) :
    alookup (secPackChain x l1 l2 l3 l4) "group_forbiddens"
      = some (.list l4) := by
  simp only [secPackChain]
  rw [alookup_ainsert_ne _ "permissions" "group_forbiddens" _ (by decide),
      alookup_ainsert_ne _ "standard_permissions" "group_forbiddens" _
        (by decide)]
  exact lookup_secPack4_gf x l1 l2 l3 l4

/-- Reading a two-level path under a freshly written security submap. -/
theorem getPath_sec_ainsert (u x : VMap) (k : String) :
    getPath (ainsert u "security" (.vmap x)) ["security", k] = alookup x k := by
  simp [getPath, vGetPath, alookup_ainsert_self]

set_option maxHeartbeats 2000000 in
/-- What `unpackPermissions` loads into the four in-memory tables from a
config holding the four lists, when the records have pairwise fresh keys,
the group lists parse as group entries, all four standard roles appear in
the stored standard list, and no group ranks are cached. -/
theorem unpack_maps (s0 : Mgr) (V1 V2 V3 V4 : List Variant)
    (h1 : getPath s0.userConfig AGENT_STANDARD_PERMISSIONS_KEYPATH
        = some (.list V1))
    (h2 : getPath s0.userConfig AGENT_PERMISSIONS_KEYPATH = some (.list V2))
    (h3 : getPath s0.userConfig GROUP_PERMISSIONS_KEYPATH = some (.list V3))
    (h4 : getPath s0.userConfig GROUP_FORBIDDENS_KEYPATH = some (.list V4))
    (hr : s0.groupRanks = [])
    (hall3 : ∀ v ∈ V3, (parsedPerm v).isGroup = true)
    (hall4 : ∀ v ∈ V4, (parsedPerm v).isGroup = true)
    (hnd1 : (V1.map stdKey).Nodup) (hnd2 : (V2.map stdKey).Nodup)
    (hnd3 : (V3.map grpKey).Nodup) (hnd4 : (V4.map grpKey).Nodup)
    (hfl : V1.any (fun v =>
        decide (stdKey v = NodePermissions.standardNameLocalhost)) = true)
    (hfa : V1.any (fun v =>
        decide (stdKey v = NodePermissions.standardNameAnonymous)) = true)
    (hfg : V1.any (fun v =>
        decide (stdKey v = NodePermissions.standardNameLoggedIn)) = true)
    (hff : V1.any (fun v =>
        decide (stdKey v = NodePermissions.standardNameFriends)) = true) :
    (unpackPermissions s0).standardAgentPermissions = V1.map stdPair ∧
    (unpackPermissions s0).agentPermissions = V2.map stdPair ∧
    (unpackPermissions s0).groupPermissions = V3.map grpPair ∧
    (unpackPermissions s0).groupForbiddens = V4.map grpPair := by
  have hstd : (V1.foldl loadStandardEntry
      ([], (false, false, false, false), false)).1 = V1.map stdPair := by
    have h := loadStandard_fold_fst V1 ([], (false, false, false, false), false)
      (by simpa using hnd1)
    simpa using h
  have hfound : (V1.foldl loadStandardEntry
      ([], (false, false, false, false), false)).2.1
      = (true, true, true, true) := by
    rw [loadStandard_fold_found]
    simp [hfl, hfa, hfg, hff]
  have hag : ∀ b : Bool, (V2.foldl loadAgentEntry ([], b)).1
      = V2.map stdPair := by
    intro b
    have h := loadAgent_fold_fst V2 ([], b) (by simpa using hnd2)
    simpa using h
  simp only [unpackPermissions]
  rw [fetchListAt_of_list _ _ _ h1]
  dsimp only
  rw [fetchListAt_of_list _ _ _ h2]
  dsimp only
  rw [fetchListAt_of_list _ _ _ h3]
  dsimp only
  rw [fetchListAt_of_list _ _ _ h4]
  dsimp only
  rw [hstd, hfound]
  dsimp only
  rw [hag]
  generalize (List.foldl loadAgentEntry
      ([], (List.foldl loadStandardEntry
        ([], (false, false, false, false), false) V1).2.2) V2).2 = b2
  obtain ⟨G, hG⟩ : ∃ G, List.foldl loadGroupEntry
      (({ masterConfig := s0.masterConfig, userConfig := s0.userConfig,
          descriptionArray := s0.descriptionArray,
          standardAgentPermissions := List.map stdPair V1,
          agentPermissions := List.map stdPair V2, groupPermissions := [],
          groupForbiddens := [],
          groupPermissionsByUUID := s0.groupPermissionsByUUID,
          groupForbiddensByUUID := s0.groupForbiddensByUUID,
          groupIDs := s0.groupIDs, groupNames := s0.groupNames,
          groupRanks := s0.groupRanks,
          groupRanksLastFetched := s0.groupRanksLastFetched } : Mgr), b2) V3 = G :=
    ⟨_, rfl⟩
  rw [hG]
  obtain ⟨F, hF⟩ : ∃ F, List.foldl loadForbiddenEntry (G.1, G.2) V4 = F :=
    ⟨_, rfl⟩
  rw [hF]
  obtain ⟨g1, g2, g3, g4, g5⟩ := loadGroup_fold V3 hall3
    ({ masterConfig := s0.masterConfig, userConfig := s0.userConfig,
        descriptionArray := s0.descriptionArray,
        standardAgentPermissions := List.map stdPair V1,
        agentPermissions := List.map stdPair V2, groupPermissions := [],
        groupForbiddens := [],
        groupPermissionsByUUID := s0.groupPermissionsByUUID,
        groupForbiddensByUUID := s0.groupForbiddensByUUID,
        groupIDs := s0.groupIDs, groupNames := s0.groupNames,
        groupRanks := s0.groupRanks,
        groupRanksLastFetched := s0.groupRanksLastFetched }, b2) (by simp) (by simp) (by simpa using hnd3)
  rw [hG] at g1 g2 g3 g4 g5
  dsimp only at g1 g2 g3 g4 g5
  simp only [List.nil_append] at g1
  have hgpF : ∀ kv ∈ G.1.groupPermissions, kv.2.isGroup = true := by
    rw [g1]
    intro kv hkv
    rcases List.mem_map.mp hkv with ⟨v, hv, rfl⟩
    exact hall3 v hv
  have hgfF : ∀ kv ∈ G.1.groupForbiddens, kv.2.isGroup = true := by
    rw [g2]
    intro kv hkv
    exact absurd hkv (List.not_mem_nil kv)
  obtain ⟨k1, k2, k3, k4, k5⟩ := loadForbidden_fold V4 hall4 (G.1, G.2)
    hgpF hgfF (by dsimp only; rw [g2]; simpa using hnd4)
  rw [hF] at k1 k2 k3 k4 k5
  dsimp only at k1 k2 k3 k4 k5
  rw [g2] at k1
  simp only [List.nil_append] at k1
  rw [g1] at k2
  rw [g3] at k3
  rw [g4] at k4
  rw [g5, hr] at k5
  simp only [addMissingStandard, eq_self_iff_true, if_true]
  have hens := ensure_of_ranks_nil
      ({ masterConfig := F.1.masterConfig, userConfig := F.1.userConfig,
         descriptionArray := F.1.descriptionArray,
         standardAgentPermissions := F.1.standardAgentPermissions,
         agentPermissions := F.1.agentPermissions,
         groupPermissions := F.1.groupPermissions,
         groupForbiddens := F.1.groupForbiddens,
         groupPermissionsByUUID := F.1.groupPermissionsByUUID,
         groupForbiddensByUUID := F.1.groupForbiddensByUUID,
         groupIDs := F.1.groupIDs, groupNames := F.1.groupNames,
         groupRanks := F.1.groupRanks,
         groupRanksLastFetched := F.1.groupRanksLastFetched } : Mgr) k5
  rw [hens]
  dsimp only
  simp only [Bool.or_false]
  cases hb : F.2
  · simp only [hb, Bool.false_eq_true, if_false]
    exact ⟨k3, k4, k2, k1⟩
  · simp only [hb, if_true]
    exact ⟨k3, k4, k2, k1⟩

/-- Serializing a canonical standard/user table and parsing each record
back restores the table entry by entry. -/
theorem packElems_parse_std (m : PermMap)
    (hc : ∀ kv ∈ m, kv.1 = (kv.2.id, (0 : Int)) ∧ strToLower kv.2.id = kv.2.id ∧
      kv.2.groupIDSet = false ∧ kv.2.groupID = 0 ∧ kv.2.rank = 0 ∧
      kv.2.permissions < 64) :
    (packElems [] m).map stdPair = m := by
  rw [packElems, List.map_map]
  refine map_id_of _ _ ?_
  intro kv hkv
  obtain ⟨hk, hid, hgs, hg0, hr0, hp⟩ := hc kv hkv
  obtain ⟨k, p⟩ := kv
  dsimp only at hk hid hgs hg0 hr0 hp
  have hrt := fromMap_toVariantMap p [] hid
    (fun h2 => absurd (hgs.symm.trans h2) Bool.false_ne_true)
    (fun _ => ⟨hg0, hr0⟩) hp
  simp only [Function.comp, NodePermissions.isGroup, hgs, Bool.false_eq_true,
    if_false, stdPair, stdKey, parsedPerm, NodePermissions.toVariant,
    Variant.toMapQ, hrt, hk]

/-- Serializing a canonical group table (with no cached rank names) and
parsing each record back restores the table entry by entry. -/
theorem packElems_parse_grp (m : PermMap)
    (hc : ∀ kv ∈ m, kv.1 = kv.2.getKey ∧ strToLower kv.2.id = kv.2.id ∧
      kv.2.groupIDSet = true ∧ kv.2.groupID ≠ 0 ∧ kv.2.permissions < 64) :
    (packElems [] m).map grpPair = m := by
  rw [packElems, List.map_map]
  refine map_id_of _ _ ?_
  intro kv hkv
  obtain ⟨hk, hid, hgs, hgn, hp⟩ := hc kv hkv
  obtain ⟨k, p⟩ := kv
  dsimp only at hk hid hgs hgn hp
  have hrt := fromMap_toVariantMap p [] hid (fun _ => hgn)
    (fun h2 => absurd (hgs.symm.trans h2) (by decide))
    hp
  simp only [Function.comp, NodePermissions.isGroup, hgs, if_true, alookup,
    Option.getD_none, grpPair, grpKey, parsedPerm, NodePermissions.toVariant,
    Variant.toMapQ, hrt, hk]

/-- A standard-permissions table as `unpackPermissions` itself builds it:
duplicate-free keys, all four standard roles present, every entry keyed by
its own lower-case id at rank 0, no group data, and a capability mask within
the six serialized bits. -/
def canonicalStdMap (m : PermMap) : Prop :=
  (m.map Prod.fst).Nodup ∧
  acontains m NodePermissions.standardNameLocalhost = true ∧
  acontains m NodePermissions.standardNameAnonymous = true ∧
  acontains m NodePermissions.standardNameLoggedIn = true ∧
  acontains m NodePermissions.standardNameFriends = true ∧
  ∀ kv ∈ m, kv.1 = (kv.2.id, (0 : Int)) ∧ strToLower kv.2.id = kv.2.id ∧
    kv.2.groupIDSet = false ∧ kv.2.groupID = 0 ∧ kv.2.rank = 0 ∧
    kv.2.permissions < 64

/-- A named-user table as `unpackPermissions` itself builds it. -/
def canonicalAgentMap (m : PermMap) : Prop :=
  (m.map Prod.fst).Nodup ∧
  ∀ kv ∈ m, kv.1 = (kv.2.id, (0 : Int)) ∧ strToLower kv.2.id = kv.2.id ∧
    kv.2.groupIDSet = false ∧ kv.2.groupID = 0 ∧ kv.2.rank = 0 ∧
    kv.2.permissions < 64

/-- A group table as `unpackPermissions` builds it: duplicate-free keys,
every entry keyed by its own `getKey`, lower-case ids, the group flag set
with a non-null UUID, and capability masks within the serialized bits. -/
def canonicalGroupMap (m : PermMap) : Prop :=
  (m.map Prod.fst).Nodup ∧
  ∀ kv ∈ m, kv.1 = kv.2.getKey ∧ strToLower kv.2.id = kv.2.id ∧
    kv.2.groupIDSet = true ∧ kv.2.groupID ≠ 0 ∧ kv.2.permissions < 64

/-- C2: `packPermissions` followed by `unpackPermissions` restores the four
in-memory permission tables as maps — every key reads back to the identical
entry — whenever the `"security"` section of the user config is a map, no
group ranks are cached, and the tables are canonical (`canonicalStdMap`,
`canonicalAgentMap`, `canonicalGroupMap`): entries keyed by their own
lower-cased ids, group flags matching non-null group UUIDs, duplicate-free
keys, and capability masks within the six serialized bits.  The restored
lists may be reordered (persisting sorts the standard and user lists), and
the claim's unconditional fixed point is false: capability bits above the
six serialized ones are truncated (`c2_full_mask_not_restored`). -/
theorem c2_pack_unpack_roundtrip (s : Mgr) (x : VMap)
    (hsec : alookup s.userConfig "security" = some (.vmap x))
    (hstd : canonicalStdMap s.standardAgentPermissions)
    (hag : canonicalAgentMap s.agentPermissions)
    (hgp : canonicalGroupMap s.groupPermissions)
    (hgf : canonicalGroupMap s.groupForbiddens)
    (hr : s.groupRanks = []) :
    (∀ k, alookup (unpackPermissions (packPermissions s)).standardAgentPermissions k
        = alookup s.standardAgentPermissions k) ∧
    (∀ k, alookup (unpackPermissions (packPermissions s)).agentPermissions k
        = alookup s.agentPermissions k) ∧
    (∀ k, alookup (unpackPermissions (packPermissions s)).groupPermissions k
        = alookup s.groupPermissions k) ∧
    (∀ k, alookup (unpackPermissions (packPermissions s)).groupForbiddens k
        = alookup s.groupForbiddens k) := by
  obtain ⟨hnd1s, hal, haa, hag2, haf, hc1⟩ := hstd
  obtain ⟨hnd2s, hc2⟩ := hag
  obtain ⟨hnd3s, hc3⟩ := hgp
  obtain ⟨hnd4s, hc4⟩ := hgf
  have hpk := packPermissions_sec s x hsec
  rw [hr] at hpk
  have e1 : (packElems [] s.standardAgentPermissions).map stdPair
      = s.standardAgentPermissions := packElems_parse_std _ hc1
  have e2 : (packElems [] s.agentPermissions).map stdPair
      = s.agentPermissions := packElems_parse_std _ hc2
  have e3 : (packElems [] s.groupPermissions).map grpPair
      = s.groupPermissions := packElems_parse_grp _ hc3
  have e4 : (packElems [] s.groupForbiddens).map grpPair
      = s.groupForbiddens := packElems_parse_grp _ hc4
  have hk1 : (packElems [] s.standardAgentPermissions).map stdKey
      = s.standardAgentPermissions.map Prod.fst := by
    have h := congrArg (List.map Prod.fst) e1
    rw [List.map_map] at h
    exact h
  have hk2 : (packElems [] s.agentPermissions).map stdKey
      = s.agentPermissions.map Prod.fst := by
    have h := congrArg (List.map Prod.fst) e2
    rw [List.map_map] at h
    exact h
  have hk3 : (packElems [] s.groupPermissions).map grpKey
      = s.groupPermissions.map Prod.fst := by
    have h := congrArg (List.map Prod.fst) e3
    rw [List.map_map] at h
    exact h
  have hk4 : (packElems [] s.groupForbiddens).map grpKey
      = s.groupForbiddens.map Prod.fst := by
    have h := congrArg (List.map Prod.fst) e4
    rw [List.map_map] at h
    exact h
  have hu : (packPermissions s).userConfig
      = ainsert s.userConfig "security" (.vmap
          (secPackChain x (packElems [] s.standardAgentPermissions)
            (packElems [] s.agentPermissions)
            (packElems [] s.groupPermissions)
            (packElems [] s.groupForbiddens))) := by
    rw [hpk]
  have h1 : getPath (packPermissions s).userConfig
      AGENT_STANDARD_PERMISSIONS_KEYPATH
      = some (.list (sortPermissionList
          (packElems [] s.standardAgentPermissions))) := by
    rw [hu]
    show getPath _ ["security", "standard_permissions"] = _
    rw [getPath_sec_ainsert, lookup_secPackChain_sp]
  have h2 : getPath (packPermissions s).userConfig AGENT_PERMISSIONS_KEYPATH
      = some (.list (sortPermissionList (packElems [] s.agentPermissions))) := by
    rw [hu]
    show getPath _ ["security", "permissions"] = _
    rw [getPath_sec_ainsert, lookup_secPackChain_pp]
  have h3 : getPath (packPermissions s).userConfig GROUP_PERMISSIONS_KEYPATH
      = some (.list (packElems [] s.groupPermissions)) := by
    rw [hu]
    show getPath _ ["security", "group_permissions"] = _
    rw [getPath_sec_ainsert, lookup_secPackChain_gp]
  have h4 : getPath (packPermissions s).userConfig GROUP_FORBIDDENS_KEYPATH
      = some (.list (packElems [] s.groupForbiddens)) := by
    rw [hu]
    show getPath _ ["security", "group_forbiddens"] = _
    rw [getPath_sec_ainsert, lookup_secPackChain_gf]
  have hrp : (packPermissions s).groupRanks = [] := by
    rw [hpk]
  have hall3 : ∀ v ∈ packElems [] s.groupPermissions,
      (parsedPerm v).isGroup = true := by
    intro v hv
    have hmem : grpPair v ∈ s.groupPermissions := by
      rw [← e3]
      exact List.mem_map_of_mem grpPair hv
    have := (hc3 _ hmem).2.2.1
    simpa [NodePermissions.isGroup, grpPair, parsedPerm] using this
  have hall4 : ∀ v ∈ packElems [] s.groupForbiddens,
      (parsedPerm v).isGroup = true := by
    intro v hv
    have hmem : grpPair v ∈ s.groupForbiddens := by
      rw [← e4]
      exact List.mem_map_of_mem grpPair hv
    have := (hc4 _ hmem).2.2.1
    simpa [NodePermissions.isGroup, grpPair, parsedPerm] using this
  have hnd1 : ((sortPermissionList
      (packElems [] s.standardAgentPermissions)).map stdKey).Nodup :=
    (((sortPermissionList_perm _).map stdKey).nodup_iff).mpr
      (by rw [hk1]; exact hnd1s)
  have hnd2 : ((sortPermissionList
      (packElems [] s.agentPermissions)).map stdKey).Nodup :=
    (((sortPermissionList_perm _).map stdKey).nodup_iff).mpr
      (by rw [hk2]; exact hnd2s)
  have hnd3 : ((packElems [] s.groupPermissions).map grpKey).Nodup := by
    rw [hk3]
    exact hnd3s
  have hnd4 : ((packElems [] s.groupForbiddens).map grpKey).Nodup := by
    rw [hk4]
    exact hnd4s
  have hany : ∀ key : NodePermissionsKey,
      acontains s.standardAgentPermissions key = true →
      (sortPermissionList (packElems [] s.standardAgentPermissions)).any
        (fun v => decide (stdKey v = key)) = true := by
    intro key hk
    have hsome : (alookup s.standardAgentPermissions key).isSome := by
      simpa [acontains] using hk
    rcases Option.isSome_iff_exists.mp hsome with ⟨p, hp⟩
    have hmem : (key, p) ∈ s.standardAgentPermissions := mem_of_alookup hp
    rw [← e1] at hmem
    rcases List.mem_map.mp hmem with ⟨v, hv, hvp⟩
    refine List.any_eq_true.mpr ⟨v, (sortPermissionList_perm _).mem_iff.mpr hv, ?_⟩
    simpa using congrArg Prod.fst hvp
  obtain ⟨u1, u2, u3, u4⟩ := unpack_maps (packPermissions s) _ _ _ _
    h1 h2 h3 h4 hrp hall3 hall4 hnd1 hnd2 hnd3 hnd4
    (hany _ hal) (hany _ haa) (hany _ hag2) (hany _ haf)
  refine ⟨?_, ?_, ?_, ?_⟩
  · intro k
    rw [u1]
    have hperm : (List.map stdPair
        (packElems [] s.standardAgentPermissions)).Perm
        (List.map stdPair (sortPermissionList
          (packElems [] s.standardAgentPermissions))) :=
      ((sortPermissionList_perm
        (packElems [] s.standardAgentPermissions)).map stdPair).symm
    have hpermA : s.standardAgentPermissions.Perm
        (List.map stdPair (sortPermissionList
          (packElems [] s.standardAgentPermissions))) := by
      conv_lhs => rw [← e1]
      exact hperm
    exact alookup_eq_of_perm hpermA hnd1s k
  · intro k
    rw [u2]
    have hperm : (List.map stdPair (packElems [] s.agentPermissions)).Perm
        (List.map stdPair (sortPermissionList
          (packElems [] s.agentPermissions))) :=
      ((sortPermissionList_perm
        (packElems [] s.agentPermissions)).map stdPair).symm
    have hpermA : s.agentPermissions.Perm
        (List.map stdPair (sortPermissionList
          (packElems [] s.agentPermissions))) := by
      conv_lhs => rw [← e2]
      exact hperm
    exact alookup_eq_of_perm hpermA hnd2s k
  · intro k
    rw [u3, e3]
  · intro k
    rw [u4, e4]

/-- A state whose localhost entry carries `setAll(true)`'s full 32-bit mask
— exactly what `unpackPermissions` itself synthesizes when localhost is
missing from the stored list. -/
def mgrC2x : Mgr :=
  { masterConfig := []
    userConfig := [("security", .vmap [])]
    descriptionArray := []
    standardAgentPermissions :=
      [(("localhost", 0), { id := "localhost", permissions := UINT32_MASK })] }

/-- A canonical four-table state with one named user and one group entry in
each group table. -/
def mgrC2w : Mgr :=
  { masterConfig := []
    userConfig := [("security", .vmap [])]
    descriptionArray := []
    standardAgentPermissions :=
      [(("localhost", 0), { id := "localhost", permissions := 63 }),
       (("anonymous", 0), { id := "anonymous" }),
       (("logged-in", 0), { id := "logged-in" }),
       (("friends", 0), { id := "friends" })]
    agentPermissions := [(("alice", 0), { id := "alice", permissions := 3 })]
    groupPermissions :=
      [(("crew", 1), { id := "crew", groupID := 7, groupIDSet := true,
                       rank := 1, permissions := 5 })]
    groupForbiddens :=
      [(("crew", 1), { id := "crew", groupID := 7, groupIDSet := true,
                       rank := 1, permissions := 2 })] }

/-- Pack-then-unpack is NOT a fixed point of the in-memory tables: the
six serialized capability booleans cannot carry the full 32-bit mask
`setAll(true)` installs, so the localhost entry comes back with mask 63
instead of 4294967295. -/
theorem c2_full_mask_not_restored :
    alookup (unpackPermissions (packPermissions mgrC2x)).standardAgentPermissions
        ("localhost", 0)
      ≠ alookup mgrC2x.standardAgentPermissions ("localhost", 0) := by
  have h1 : alookup (unpackPermissions
      (packPermissions mgrC2x)).standardAgentPermissions ("localhost", 0)
      = some { id := "localhost", permissions := 63 } := rfl
  have h2 : alookup mgrC2x.standardAgentPermissions ("localhost", 0)
      = some { id := "localhost", permissions := UINT32_MASK } := rfl
  rw [h1, h2]
  decide

/-- Witness for C2: the lookups of the four tables of `mgrC2w` are restored
by a pack-unpack cycle. -/
theorem c2_pack_unpack_roundtrip_witness :
    alookup (unpackPermissions (packPermissions mgrC2w)).standardAgentPermissions
        ("localhost", 0)
      = alookup mgrC2w.standardAgentPermissions ("localhost", 0) ∧
    alookup (unpackPermissions (packPermissions mgrC2w)).agentPermissions
        ("alice", 0)
      = alookup mgrC2w.agentPermissions ("alice", 0) ∧
    alookup (unpackPermissions (packPermissions mgrC2w)).groupPermissions
        ("crew", 1)
      = alookup mgrC2w.groupPermissions ("crew", 1) ∧
    alookup (unpackPermissions (packPermissions mgrC2w)).groupForbiddens
        ("crew", 1)
      = alookup mgrC2w.groupForbiddens ("crew", 1) := by
  obtain ⟨hs, ha, hg, hf⟩ := c2_pack_unpack_roundtrip mgrC2w [] rfl
    ⟨by decide, by decide, by decide, by decide, by decide, by decide⟩
    ⟨by decide, by decide⟩ ⟨by decide, by decide⟩ ⟨by decide, by decide⟩ rfl
  exact ⟨hs _, ha _, hg _, hf _⟩

end Hifi
